import Mathlib

/-!
# A shallow embedding of the Tetris board engine

The board engine of `tetris.go` is embedded as pure functions on a `Board`
record.  Every operation returns an `Option`: `none` stands for a Go run-time
failure (an index out of range on the grid, or a piece source that has run
dry), `some b` for normal completion with the new state `b`.

Go `int` values are embedded as `Int`; no operation of the engine comes near
the 64-bit range on boards of realistic size, so overflow is out of scope.
The mutex of the board is not embedded: each operation is taken as atomic.
-/

namespace Tetris

/-! ## Data model -/

/-- The six actions of the source enumeration, in declaration order. -/
inductive Action where
  | ActionTick
  | ActionGoLeft
  | ActionGoRight
  | ActionRotate
  | ActionSmash
  | ActionFill
  deriving DecidableEq, Repr

/-- A piece mask: the Go type `[4][4]int`, indexed `t y x`. -/
abbrev Tetromino := Fin 4 → Fin 4 → Int

def TetrominoT : Tetromino := ![![0, 0, 0, 0], ![1, 1, 1, 0], ![0, 1, 0, 0], ![0, 0, 0, 0]]

def TetrominoL : Tetromino := ![![0, 1, 0, 0], ![0, 1, 0, 0], ![0, 1, 1, 0], ![0, 0, 0, 0]]

def TetrominoZ : Tetromino := ![![0, 1, 0, 0], ![0, 1, 1, 0], ![0, 0, 1, 0], ![0, 0, 0, 0]]

def TetrominoO : Tetromino := ![![0, 0, 0, 0], ![0, 1, 1, 0], ![0, 1, 1, 0], ![0, 0, 0, 0]]

def TetrominoI : Tetromino := ![![0, 1, 0, 0], ![0, 1, 0, 0], ![0, 1, 0, 0], ![0, 1, 0, 0]]

/-- A grid cell: the Go type `Tile`, an `int`. -/
abbrev Tile := Int

abbrev TileEmpty : Tile := 0

abbrev TileNormalBlock : Tile := 1

abbrev TileAdditionalBlock : Tile := 2

abbrev TileTetromino : Tile := 3

/-- The grid: a Go slice of row slices.  Rows are taken to be distinct
(non-aliased) slices, as `NewBoard` allocates them. -/
abbrev Grid := List (List Tile)

/-- The board record.  The piece source (`tetrominoGetter`) is embedded as the
sequence `source` of results of its successive `Next` calls (`none`: the call
fails) together with the number `drawn` of calls made so far.  The completion
handler is embedded by `hasHandler` (the field is non-nil) and the log
`reported` of the arguments of its `OnCompleted` calls, oldest first; the
handler is taken not to call back into this board. -/
structure Board where
  source : Nat → Option Tetromino
  drawn : Nat
  hasHandler : Bool
  reported : List Int
  width : Int
  height : Int
  tiles : Grid
  current : Tetromino
  next : Tetromino
  currentX : Int
  currentY : Int
  isOver : Bool
  renderFrame : Grid

/-- The index values `0, 1, 2, 3` of a loop `for i := 0; i < 4; i++`. -/
def idx4 : List (Fin 4) := [0, 1, 2, 3]

/-- The index pairs `(y, x)` visited by `for y { for x { .. } }` over a mask,
in visiting order (row-major). -/
def cells : List (Fin 4 × Fin 4) :=
  [(0, 0), (0, 1), (0, 2), (0, 3), (1, 0), (1, 1), (1, 2), (1, 3),
   (2, 0), (2, 1), (2, 2), (2, 3), (3, 0), (3, 1), (3, 2), (3, 3)]

/-- Reading `tiles[y][x]`; `none` when an index is out of range. -/
def getTile (t : Grid) (y x : Int) : Option Tile :=
  if y < 0 ∨ x < 0 then none
  else match t[y.toNat]? with
    | none => none
    | some row => row[x.toNat]?

/-- The assignment `tiles[y][x] = v`; `none` when an index is out of range. -/
def setTile (t : Grid) (y x : Int) (v : Tile) : Option Grid :=
  if y < 0 ∨ x < 0 then none
  else match t[y.toNat]? with
    | none => none
    | some row => if x.toNat < row.length then some (t.set y.toNat (row.set x.toNat v)) else none

/-! ## Construction -/

/-- `NewBoard(WithSize(width, height), WithGetter(source), ..)`, with a
completion handler when `hasHandler`.  `WithSize` fails below 10 x 10. -/
def NewBoard (width height : Int) (source : Nat → Option Tetromino) (hasHandler : Bool) :
    Option Board :=
  if width < 10 ∨ height < 10 then none
  else do
    let cur ← source 0
    let nxt ← source 1
    pure {
      source := source
      drawn := 2
      hasHandler := hasHandler
      reported := []
      width := width
      height := height
      tiles := List.replicate height.toNat (List.replicate width.toNat TileEmpty)
      current := cur
      next := nxt
      currentX := width.tdiv 2 - 1
      currentY := 0
      isOver := false
      renderFrame := List.replicate height.toNat (List.replicate width.toNat 0) }

/-! ## Resting and overlap tests -/

def isTetrominoUnitTouchGround (b : Board) (y x : Fin 4) : Option Bool :=
  if b.current y x ≠ 1 then some false
  else if b.currentY + y + 1 ≥ b.height then some true
  else if b.currentX + x < 0 ∨ b.currentX + x ≥ b.width then some false
  else do
    let v ← getTile b.tiles (b.currentY + y + 1) (b.currentX + x)
    pure (decide (v ≠ TileEmpty))

def isTetrominoUnitOverlapBlock (b : Board) (y x : Fin 4) : Option Bool :=
  if b.current y x ≠ 1 then some false
  else if b.currentY + y ≥ b.height ∨ b.currentY + y < 0 ∨
      b.currentX + x ≥ b.width ∨ b.currentX + x < 0 then some true
  else do
    let v ← getTile b.tiles (b.currentY + y) (b.currentX + x)
    pure (decide (v ≠ TileEmpty))

/-- The Go `||` evaluates its right operand only when the left one is false. -/
def isTouchGround (b : Board) : Option Bool :=
  cells.anyM fun c => do
    let o ← isTetrominoUnitOverlapBlock b c.1 c.2
    if o then pure true else isTetrominoUnitTouchGround b c.1 c.2

def isOverlapGround (b : Board) : Option Bool :=
  cells.anyM fun c => isTetrominoUnitOverlapBlock b c.1 c.2

/-! ## Locking and row clearing -/

def fillTilesWithCurrentTetromino (b : Board) : Option Board := do
  let t ← cells.foldlM
    (fun t c =>
      if b.current c.1 c.2 = 1 then
        setTile t (b.currentY + c.1) (b.currentX + c.2) TileNormalBlock
      else pure t)
    b.tiles
  pure { b with tiles := t }

/-- The test `isRowCompleted(row)` on the grid `t` of a board of width `w`. -/
def isRowCompleted (t : Grid) (w : Int) (row : Int) : Option Bool :=
  (List.range w.toNat).allM fun (x : Nat) => do
    let v ← getTile t row x
    pure (decide (v = TileNormalBlock))

/-- The inner loop of `popCompletedRows`: row `y` is copied tile by tile to
row `y + below` and blanked. -/
def shiftRowDown (t : Grid) (w : Int) (y below : Int) : Option Grid :=
  (List.range w.toNat).foldlM
    (fun t (x : Nat) => do
      let v ← getTile t y x
      let t1 ← setTile t (y + below) x v
      setTile t1 y x TileEmpty)
    t

/-- One iteration of the outer loop of `popCompletedRows`, on the pair of the
grid and `completedRowsCount`. -/
def popStep (w : Int) (st : Grid × Int) (y : Nat) : Option (Grid × Int) := do
  let completedRowsBelow := st.2
  let done ← isRowCompleted st.1 w y
  let count := if done then st.2 + 1 else st.2
  let t ← if completedRowsBelow > 0 then shiftRowDown st.1 w y completedRowsBelow else pure st.1
  pure (t, count)

/-- The outer loop of `popCompletedRows`: `y` runs from `height - 1` down to 0. -/
def popLoop (t : Grid) (w h : Int) : Option (Grid × Int) :=
  (List.range h.toNat).reverse.foldlM (popStep w) (t, 0)

def popCompletedRows (b : Board) : Option Board := do
  let r ← popLoop b.tiles b.width b.height
  pure { b with
    tiles := r.1
    reported := if b.hasHandler then b.reported ++ [r.2] else b.reported }

def setupNextTetromino (b : Board) : Option Board := do
  let n ← b.source b.drawn
  pure { b with
    current := b.next
    next := n
    drawn := b.drawn + 1
    currentY := 0
    currentX := b.width.tdiv 2 - 1 }

def stepDown (b : Board) : Board :=
  { b with currentY := b.currentY + 1 }

/-! ## Tick -/

def applyTick (b : Board) : Option Board := do
  let touch ← isTouchGround b
  if touch then
    let b1 ← fillTilesWithCurrentTetromino b
    let b2 ← popCompletedRows b1
    let b3 ← setupNextTetromino b2
    let over ← isOverlapGround b3
    if over then pure { b3 with isOver := true } else pure b3
  else pure (stepDown b)

/-! ## Sideways moves -/

def isTetrominoUnitHitWallOrTile (b : Board) (y x : Fin 4) : Option (Bool × Bool) :=
  if b.current y x ≠ 1 then some (false, false)
  else do
    let hitLeftWall ←
      if b.currentX + x ≤ 0 then pure true
      else if b.currentY + y < b.height then do
        let v ← getTile b.tiles (b.currentY + y) (b.currentX + x - 1)
        pure (decide (v ≠ TileEmpty))
      else pure false
    let hitRightWall ←
      if b.currentX + x ≥ b.width - 1 then pure true
      else if b.currentY + y < b.height then do
        let v ← getTile b.tiles (b.currentY + y) (b.currentX + x + 1)
        pure (decide (v ≠ TileEmpty))
      else pure false
    pure (hitLeftWall, hitRightWall)

/-- The loop of `isHitWallOrTile` over the remaining cells `cs`, with the
current values of the two named results; it returns early once both are set. -/
def isHitWallOrTileLoop (b : Board) : List (Fin 4 × Fin 4) → Bool → Bool → Option (Bool × Bool)
  | [], hitLeftWall, hitRightWall => some (hitLeftWall, hitRightWall)
  | c :: cs, hitLeftWall, hitRightWall =>
    if b.current c.1 c.2 ≠ 1 then isHitWallOrTileLoop b cs hitLeftWall hitRightWall
    else do
      let hit ← isTetrominoUnitHitWallOrTile b c.1 c.2
      let l := hitLeftWall || hit.1
      let r := hitRightWall || hit.2
      if l && r then pure (l, r) else isHitWallOrTileLoop b cs l r

def isHitWallOrTile (b : Board) : Option (Bool × Bool) :=
  isHitWallOrTileLoop b cells false false

def applyGoLeft (b : Board) : Option Board := do
  let hit ← isHitWallOrTile b
  if hit.1 then pure b else pure { b with currentX := b.currentX - 1 }

def applyGoRight (b : Board) : Option Board := do
  let hit ← isHitWallOrTile b
  if hit.2 then pure b else pure { b with currentX := b.currentX + 1 }

/-! ## Rotation -/

def rotateTetromino (t : Tetromino) : Tetromino :=
  ![![t 0 3, t 1 3, t 2 3, t 3 3],
    ![t 0 2, t 1 2, t 2 2, t 3 2],
    ![t 0 1, t 1 1, t 2 1, t 3 1],
    ![t 0 0, t 1 0, t 2 0, t 3 0]]

def applyRotate (b : Board) : Option Board := do
  let initialTetromino := b.current
  let b1 := { b with current := rotateTetromino b.current }
  let over ← isOverlapGround b1
  if over then pure { b1 with current := initialTetromino } else pure b1

/-! ## Hard drop -/

def minInt (a b : Int) : Int :=
  if a < b then a else b

/-- The entry `currentTetrominoBottomY[x]` after the first loop of
`applySmash`: the grid row of the last occupied cell of mask column `x`, or 0. -/
def currentTetrominoBottomY (b : Board) (x : Fin 4) : Int :=
  idx4.foldl (fun acc y => if b.current y x = 1 then b.currentY + y else acc) 0

/-- The scan `for y := ..; y < height; y++` of one grid column `col` for the
first non-Empty tile, with `n` iterations left from row `y`; the result is the
new value of `groundY[x]`, which stays `h` when the scan finds nothing. -/
def scanGround (t : Grid) (col h : Int) : Nat → Int → Option Int
  | 0, _ => some h
  | n + 1, y => do
    let v ← getTile t y col
    if v ≠ TileEmpty then pure y else scanGround t col h n (y + 1)

/-- The entry `groundY[x]` after the second loop of `applySmash`. -/
def groundY (b : Board) (x : Fin 4) : Option Int :=
  if b.currentX + x ≥ b.width ∨ b.currentX + x < 0 then some (-1)
  else
    scanGround b.tiles (b.currentX + x) b.height
      (b.height - currentTetrominoBottomY b x).toNat (currentTetrominoBottomY b x)

/-- The third loop of `applySmash`, given the array `g` of ground rows: for
each mask column the lowest occupied cell (searched from `y = 3` upwards)
bounds the drop distance, which starts at `height`. -/
def stepToGround (b : Board) (g : Fin 4 → Int) : Int :=
  idx4.foldl
    (fun step x =>
      match ([3, 2, 1, 0] : List (Fin 4)).find? (fun y => decide (b.current y x = 1)) with
      | some y => minInt step (g x - (b.currentY + y) - 1)
      | none => step)
    b.height

/-- The first part of `applySmash`, up to and including the statement
`b.currentY += stepToGround`: the piece is moved down to where it is locked. -/
def smashDrop (b : Board) : Option Board := do
  let g0 ← groundY b 0
  let g1 ← groundY b 1
  let g2 ← groundY b 2
  let g3 ← groundY b 3
  pure { b with currentY := b.currentY + stepToGround b ![g0, g1, g2, g3] }

def applySmash (b : Board) : Option Board := do
  let b1 ← smashDrop b
  let b2 ← fillTilesWithCurrentTetromino b1
  let b3 ← popCompletedRows b2
  setupNextTetromino b3

/-! ## Garbage rows -/

/-- The first loop nest of `raiseGround`: row `y` receives the tiles of row
`y + 1`, for `y` from 0 to `height - 2`. -/
def raiseRows (t : Grid) (w h : Int) : Option Grid :=
  (List.range (h - 1).toNat).foldlM
    (fun t (y : Nat) =>
      (List.range w.toNat).foldlM
        (fun t (x : Nat) => do
          let v ← getTile t (y + 1) x
          setTile t y x v)
        t)
    t

def raiseGround (b : Board) : Option Board := do
  let t1 ← raiseRows b.tiles b.width b.height
  let t2 ← (List.range b.width.toNat).foldlM
    (fun t (x : Nat) => setTile t (b.height - 1) x TileAdditionalBlock) t1
  pure { b with tiles := t2 }

def applyFill (b : Board) : Option Board := do
  let touch ← isTouchGround b
  if touch then
    let b1 ← fillTilesWithCurrentTetromino b
    let b2 ← raiseGround b1
    let b3 ← popCompletedRows b2
    let b4 ← setupNextTetromino b3
    let over ← isOverlapGround b4
    if over then pure { b4 with isOver := true } else pure b4
  else raiseGround b

/-! ## Dispatch -/

def Apply (b : Board) (action : Action) : Option Board :=
  if b.isOver then some b
  else match action with
    | Action.ActionTick => applyTick b
    | Action.ActionGoLeft => applyGoLeft b
    | Action.ActionGoRight => applyGoRight b
    | Action.ActionRotate => applyRotate b
    | Action.ActionSmash => applySmash b
    | Action.ActionFill => applyFill b

/-- A sequence of `Apply` calls, stopping at the first failure. -/
def applyAll (b : Board) (actions : List Action) : Option Board :=
  actions.foldlM Apply b

/-! ## Well-formed boards and pure readings of the grid

The definitions below do not come from the source: they are the vocabulary in
which the properties of the engine are stated. -/

/-- The grid `t` has `h` rows of `w` tiles each. -/
def GridWF (t : Grid) (w h : Int) : Prop :=
  0 ≤ w ∧ 0 ≤ h ∧ t.length = h.toNat ∧ ∀ r ∈ t, r.length = w.toNat

instance (t : Grid) (w h : Int) : Decidable (GridWF t w h) := by
  unfold GridWF; infer_instance

/-- The tile at row `y`, column `x` (0 outside the grid). -/
def tileAt (t : Grid) (y x : Int) : Tile :=
  (t.getD y.toNat []).getD x.toNat 0

/-- The grid `t` with the tile at row `y`, column `x` replaced by `v`. -/
def setAt (t : Grid) (y x : Int) (v : Tile) : Grid :=
  t.set y.toNat ((t.getD y.toNat []).set x.toNat v)

/-- The board's grid has the configured size. -/
def Board.WF (b : Board) : Prop :=
  GridWF b.tiles b.width b.height

instance (b : Board) : Decidable b.WF := by
  unfold Board.WF; infer_instance

/-- The cell `(y, x)` lies inside a grid of width `w` and height `h`. -/
def InGrid (w h y x : Int) : Prop :=
  0 ≤ y ∧ y < h ∧ 0 ≤ x ∧ x < w

instance (w h y x : Int) : Decidable (InGrid w h y x) := by
  unfold InGrid; infer_instance

/-- Every occupied cell of the active piece lies inside the grid. -/
def PieceInGrid (b : Board) : Prop :=
  ∀ i j : Fin 4, b.current i j = 1 → InGrid b.width b.height (b.currentY + i) (b.currentX + j)

instance (b : Board) : Decidable (PieceInGrid b) := by
  unfold PieceInGrid; infer_instance

/-- The mask `m`, placed at the board's offset, has every occupied cell inside
the grid on an Empty tile. -/
def Fits (b : Board) (m : Tetromino) : Prop :=
  ∀ i j : Fin 4, m i j = 1 →
    InGrid b.width b.height (b.currentY + i) (b.currentX + j) ∧
    tileAt b.tiles (b.currentY + i) (b.currentX + j) = TileEmpty

instance (b : Board) (m : Tetromino) : Decidable (Fits b m) := by
  unfold Fits; infer_instance

/-- Some occupied cell of the active piece is in column 0 or has a non-Empty
tile immediately to its left. -/
def BlockedLeft (b : Board) : Prop :=
  ∃ i j : Fin 4, b.current i j = 1 ∧
    (b.currentX + j = 0 ∨ tileAt b.tiles (b.currentY + i) (b.currentX + j - 1) ≠ TileEmpty)

/-- Some occupied cell of the active piece is in the last column or has a
non-Empty tile immediately to its right. -/
def BlockedRight (b : Board) : Prop :=
  ∃ i j : Fin 4, b.current i j = 1 ∧
    (b.currentX + j = b.width - 1 ∨
      tileAt b.tiles (b.currentY + i) (b.currentX + j + 1) ≠ TileEmpty)

instance (b : Board) : Decidable (BlockedLeft b) := by
  unfold BlockedLeft; infer_instance

instance (b : Board) : Decidable (BlockedRight b) := by
  unfold BlockedRight; infer_instance

/-- The value of `isTetrominoUnitOverlapBlock` on a well-formed board. -/
def overlapAt (b : Board) (c : Fin 4 × Fin 4) : Bool :=
  decide (b.current c.1 c.2 = 1) &&
    (!decide (InGrid b.width b.height (b.currentY + c.1) (b.currentX + c.2)) ||
      decide (tileAt b.tiles (b.currentY + c.1) (b.currentX + c.2) ≠ TileEmpty))

/-- The value of `isTetrominoUnitTouchGround` where it is evaluated, that is
on a cell that does not overlap. -/
def touchAt (b : Board) (c : Fin 4 × Fin 4) : Bool :=
  decide (b.current c.1 c.2 = 1) &&
    (decide (b.currentY + c.1 + 1 ≥ b.height) ||
      decide (tileAt b.tiles (b.currentY + c.1 + 1) (b.currentX + c.2) ≠ TileEmpty))

/-- The left result of `isTetrominoUnitHitWallOrTile` on an occupied cell
inside the grid. -/
def hitLeftAt (b : Board) (c : Fin 4 × Fin 4) : Bool :=
  decide (b.currentX + c.2 ≤ 0) ||
    decide (tileAt b.tiles (b.currentY + c.1) (b.currentX + c.2 - 1) ≠ TileEmpty)

/-- The right result of `isTetrominoUnitHitWallOrTile` on an occupied cell
inside the grid. -/
def hitRightAt (b : Board) (c : Fin 4 × Fin 4) : Bool :=
  decide (b.currentX + c.2 ≥ b.width - 1) ||
    decide (tileAt b.tiles (b.currentY + c.1) (b.currentX + c.2 + 1) ≠ TileEmpty)

/-- The active piece has an occupied cell at grid row `y`, column `x`. -/
def Occupies (b : Board) (y x : Int) : Prop :=
  ∃ i j : Fin 4, b.current i j = 1 ∧ b.currentY + i = y ∧ b.currentX + j = x

instance (b : Board) (y x : Int) : Decidable (Occupies b y x) := by
  unfold Occupies; infer_instance

/-- Every tile of the row is NormalBlock: the row is completed. -/
def rowDone (row : List Tile) : Bool :=
  row.all fun v => decide (v = TileNormalBlock)

/-- The number of completed rows of a grid. -/
def completedRows (t : Grid) : Nat :=
  t.countP rowDone

/-- A row of `w` Empty tiles. -/
def blankRow (w : Int) : List Tile :=
  List.replicate w.toNat TileEmpty

/-- The state of the loop of `popCompletedRows` on the grid `t0` once the rows
`y, .., height - 1` have been visited: the grid is well formed, the rows above
`y` are untouched, the count is the number of completed rows among the visited
ones, the surviving visited rows sit at the bottom in their order, and the
rows between are blank, except that the last of them holds a copy of row `y`
when that row is completed. -/
def PopInv (t0 : Grid) (w h : Int) (y : Nat) (st : Grid × Int) : Prop :=
  GridWF st.1 w h ∧
  (∀ i, i < y → st.1[i]? = t0[i]?) ∧
  st.2 = ((t0.drop y).countP rowDone : Nat) ∧
  st.1.drop (y + (t0.drop y).countP rowDone) = (t0.drop y).filter (fun r => !rowDone r) ∧
  ∀ i, y ≤ i → i < y + (t0.drop y).countP rowDone →
    (i + 1 = y + (t0.drop y).countP rowDone ∧
      ∃ r, t0[y]? = some r ∧ rowDone r = true ∧ st.1[i]? = some r) ∨
    (¬ (i + 1 = y + (t0.drop y).countP rowDone ∧ ∃ r, t0[y]? = some r ∧ rowDone r = true) ∧
      st.1[i]? = some (blankRow w))

/-- The active piece has an occupied cell outside the grid or on a non-Empty
tile. -/
def Overlaps (b : Board) : Prop :=
  ∃ i j : Fin 4, b.current i j = 1 ∧
    (¬ InGrid b.width b.height (b.currentY + i) (b.currentX + j) ∨
      tileAt b.tiles (b.currentY + i) (b.currentX + j) ≠ TileEmpty)

instance (b : Board) : Decidable (Overlaps b) := by
  unfold Overlaps; infer_instance

/-- The active piece is resting: some occupied cell overlaps (it is outside
the grid or on a non-Empty tile), or has the floor or a non-Empty tile
directly below it. -/
def Resting (b : Board) : Prop :=
  ∃ i j : Fin 4, b.current i j = 1 ∧
    (¬ InGrid b.width b.height (b.currentY + i) (b.currentX + j) ∨
      tileAt b.tiles (b.currentY + i) (b.currentX + j) ≠ TileEmpty ∨
      b.currentY + i + 1 ≥ b.height ∨
      tileAt b.tiles (b.currentY + i + 1) (b.currentX + j) ≠ TileEmpty)

instance (b : Board) : Decidable (Resting b) := by
  unfold Resting; infer_instance

/-! ## The single-player score handler -/

/-- The completion handler installed by `NewBoardPlayer`, as a function of the
score before the call and the reported row count. -/
def scoreOnCompleted (score rows : Int) : Int :=
  score + rows * (rows + 1)

/-- The score after the handler calls in the log `reported`, from `score`. -/
def scoreAfter (score : Int) (reported : List Int) : Int :=
  reported.foldl scoreOnCompleted score

/-! ## The resting branch of Fill in the order of the specification -/

/-- The resting branch of Fill as the specification words it: lock the piece
and clear completed rows first, only then shift the rows up and write the
garbage row; spawn the next piece and re-check game-over. -/
def specFillResting (b : Board) : Option Board := do
  let b1 ← fillTilesWithCurrentTetromino b
  let b2 ← popCompletedRows b1
  let b3 ← raiseGround b2
  let b4 ← setupNextTetromino b3
  let over ← isOverlapGround b4
  if over then pure { b4 with isOver := true } else pure b4

/-! ## Concrete boards -/

/-- A piece source that yields the I piece for ever. -/
def sourceI : Nat → Option Tetromino :=
  fun _ => some TetrominoI

/-- A 10 x 10 board with an empty grid, a T piece at the spawn offset and an
L piece next, as `NewBoard` builds it from a source that starts T, L. -/
def freshBoard : Board where
  source := fun n => if n = 0 then some TetrominoT else if n = 1 then some TetrominoL else some TetrominoI
  drawn := 2
  hasHandler := true
  reported := []
  width := 10
  height := 10
  tiles := List.replicate 10 (List.replicate 10 TileEmpty)
  current := TetrominoT
  next := TetrominoL
  currentX := 4
  currentY := 0
  isOver := false
  renderFrame := List.replicate 10 (List.replicate 10 0)

/-- A piece source that yields I, I, O and then T for ever. -/
def sourceIIOT : Nat → Option Tetromino :=
  fun n => if n < 2 then some TetrominoI else if n = 2 then some TetrominoO else some TetrominoT

/-- Six garbage rows, then an I piece dropped by Tick into each of the ten
columns, the spawn column last: 41 actions. -/
def fillTopRows : List Action :=
  List.replicate 6 Action.ActionFill ++
  List.replicate 5 Action.ActionGoLeft ++ [Action.ActionTick] ++
  List.replicate 4 Action.ActionGoLeft ++ [Action.ActionTick] ++
  List.replicate 3 Action.ActionGoLeft ++ [Action.ActionTick] ++
  List.replicate 2 Action.ActionGoLeft ++ [Action.ActionTick] ++
  List.replicate 1 Action.ActionGoLeft ++ [Action.ActionTick] ++
  List.replicate 4 Action.ActionGoRight ++ [Action.ActionTick] ++
  List.replicate 3 Action.ActionGoRight ++ [Action.ActionTick] ++
  List.replicate 2 Action.ActionGoRight ++ [Action.ActionTick] ++
  List.replicate 1 Action.ActionGoRight ++ [Action.ActionTick] ++
  [Action.ActionTick]

/-- A 10 x 10 board whose top row is completed and whose other rows are
empty. -/
def topRowBoard : Board :=
  { freshBoard with
    tiles := List.replicate 10 TileNormalBlock :: List.replicate 9 (List.replicate 10 TileEmpty) }

/-- A 10 x 10 board with a stack in column 0 up to the top row, a bottom row
that lacks its last two tiles, and an O piece resting on the floor in the last
two columns. -/
def stackedBoard : Board :=
  { freshBoard with
    tiles :=
      List.replicate 9 (TileNormalBlock :: List.replicate 9 TileEmpty) ++
        [List.replicate 8 TileNormalBlock ++ [TileEmpty, TileEmpty]]
    current := TetrominoO
    currentX := 7
    currentY := 7 }

/-- The board `freshBoard` with its T piece one row above the floor. -/
def landedBoard : Board :=
  { freshBoard with currentY := 7 }

/-- The board `freshBoard` with the game-over flag set. -/
def overBoard : Board :=
  { freshBoard with isOver := true }

/-! ## Construction from options -/

/-- The options of `NewBoard`: `WithSize`, `WithGetter` and
`WithCompleteHandler` (with a handler that is not nil). -/
inductive BoardOption where
  | WithSize (width height : Int)
  | WithGetter (source : Nat → Option Tetromino)
  | WithCompleteHandler

/-- One option, built and applied to the board under construction.  Building
`WithSize` fails below 10 x 10.  A getter set by `WithGetter` is fresh: none
of its pieces has been drawn. -/
def BoardOption.run (o : BoardOption) (board : Board) : Option Board :=
  match o with
  | BoardOption.WithSize width height =>
    if width < 10 ∨ height < 10 then none
    else some { board with width := width, height := height }
  | BoardOption.WithGetter source => some { board with source := source, drawn := 0 }
  | BoardOption.WithCompleteHandler => some { board with hasHandler := true }

/-- `NewBoard(options...)`: the defaults are a 10 x 24 board, no handler and
the source `defaultSource`, which stands for the default getter
`NewRandomGetter(time.Now().UnixNano())`; the options are applied in order,
then two pieces are drawn and the grids are allocated. -/
def NewBoardWith (defaultSource : Nat → Option Tetromino) (options : List BoardOption) :
    Option Board := do
  let board0 : Board := {
    source := defaultSource
    drawn := 0
    hasHandler := false
    reported := []
    width := 10
    height := 24
    tiles := []
    current := fun _ _ => 0
    next := fun _ _ => 0
    currentX := 0
    currentY := 0
    isOver := false
    renderFrame := [] }
  let board ← options.foldlM (fun board o => o.run board) board0
  let cur ← board.source board.drawn
  let nxt ← board.source (board.drawn + 1)
  pure { board with
    current := cur
    currentX := board.width.tdiv 2 - 1
    currentY := 0
    next := nxt
    drawn := board.drawn + 2
    isOver := false
    tiles := List.replicate board.height.toNat (List.replicate board.width.toNat TileEmpty)
    renderFrame := List.replicate board.height.toNat (List.replicate board.width.toNat 0) }

/-! ## The seeded random piece source -/

/-- The seeded generator `rand.New(rand.NewSource(seed))` of the Go library,
which is not part of the repository: `rng seed n` is the result of call
number `n`, counted from 0, of `Int()` (or `Int63()`) on a generator made from
`seed`.  The library documents both results as non-negative. -/
abbrev Rng := Int → Nat → Nat

/-- The record `RandomGetter`: the results `randomizer` of the successive
`Int()` calls of its generator, the number `calls` of calls made so far, and
the slice `tetrominos`. -/
structure RandomGetter where
  randomizer : Nat → Nat
  calls : Nat
  tetrominos : List Tetromino

def NewRandomGetter (rng : Rng) (seed : Int) : RandomGetter where
  randomizer := rng seed
  calls := 0
  tetrominos := [TetrominoT, TetrominoL, TetrominoZ, TetrominoO, TetrominoI]

/-- `Next()`: the piece at index `Int() % len(tetrominos)`, with the getter
after the call; `none` when the index is out of range. -/
def RandomGetter.Next (r : RandomGetter) : Option (Tetromino × RandomGetter) :=
  let i := ((r.randomizer r.calls : Nat) : Int).tmod (r.tetrominos.length : Int)
  if i < 0 then none
  else match r.tetrominos[i.toNat]? with
    | none => none
    | some t => some (t, { r with calls := r.calls + 1 })

/-- The piece returned by call number `n`, counted from 0, of `Next()`. -/
def RandomGetter.nth (r : RandomGetter) : Nat → Option Tetromino
  | 0 => r.Next.map fun p => p.1
  | n + 1 => r.Next.bind fun p => p.2.nth n

/-- The pieces drawn from a fresh `NewRandomGetter(seed)`, as a board source. -/
def randomSource (rng : Rng) (seed : Int) : Nat → Option Tetromino :=
  (NewRandomGetter rng seed).nth

/-- The five canonical shapes. -/
def shapes : List Tetromino :=
  [TetrominoT, TetrominoL, TetrominoZ, TetrominoO, TetrominoI]

/-- A generator for examples: call `n` on seed `s` returns `|s| + 3 n`. -/
def demoRng : Rng :=
  fun seed n => seed.natAbs + 3 * n

/-- The board that the specification describes for `NewBoard`: a grid of
`height` rows of `width` Empty tiles, the active piece `cur` at offset
`(width / 2 - 1, 0)`, the next piece `nxt`, two pieces drawn from `source`,
the game-over flag false. -/
def initialBoard (width height : Int) (source : Nat → Option Tetromino) (hasHandler : Bool)
    (cur nxt : Tetromino) : Board where
  source := source
  drawn := 2
  hasHandler := hasHandler
  reported := []
  width := width
  height := height
  tiles := List.replicate height.toNat (List.replicate width.toNat TileEmpty)
  current := cur
  next := nxt
  currentX := width.tdiv 2 - 1
  currentY := 0
  isOver := false
  renderFrame := List.replicate height.toNat (List.replicate width.toNat 0)

/-! ## Rendering -/

/-- The first loop nest of `Render`: every tile of the grid `t` is copied to
the frame. -/
def copyFrame (frame t : Grid) (w h : Int) : Option Grid :=
  (List.range h.toNat).foldlM
    (fun f (y : Nat) =>
      (List.range w.toNat).foldlM
        (fun f (x : Nat) => do
          let v ← getTile t y x
          setTile f y x v)
        f)
    frame

/-- `Render()`: the returned frame, which is the slice `renderFrame` of the
board, and the board after the call. -/
def Render (b : Board) : Option (Grid × Board) := do
  let f1 ← copyFrame b.renderFrame b.tiles b.width b.height
  let f2 ← cells.foldlM
    (fun f c =>
      let frameX := b.currentX + c.2
      let frameY := b.currentY + c.1
      if b.current c.1 c.2 = 1 ∧ frameX ≥ 0 ∧ frameX < b.width ∧ frameY ≥ 0 ∧
          frameY < b.height then
        setTile f frameY frameX TileTetromino
      else pure f)
    f1
  pure (f2, { b with renderFrame := f2 })

/-! ## The match coordinator

The room of `room.go`.  Its two boards are wired to each other by their
completion handlers, so the boards of a room are run by `Room.applyTo`, which
is `Board.Apply` with the handler calls carried out.  A run ends in a room, in
a run-time failure (`Fault.panic`), or in `Fault.depth` when the handlers call
each other deeper than the given bound.  The message sender is embedded as the
log `sent` of its `Send` calls, a message standing for its encoding; the
goroutines started by `go r.startGame(fps)` are embedded as the log `launched`
of their arguments. -/

structure Player where
  ID : String
  Name : String
  deriving DecidableEq

/-- The snapshot record `State` of `tetris.go`. -/
structure State where
  Tiles : Grid
  Current : Tetromino
  Next : Tetromino
  CurrentX : Int
  CurrentY : Int
  IsOver : Bool

/-- A Go map with string keys, as the list of its entries; no key occurs
twice. -/
abbrev StringMap (α : Type) := List (String × α)

/-- The map `m` with the entry for `key` set to `value`. -/
def StringMap.set {α : Type} (m : StringMap α) (key : String) (value : α) : StringMap α :=
  m.filter (fun e => e.1 ≠ key) ++ [(key, value)]

/-- The value of the map at `key`, if the key is present. -/
def StringMap.get? {α : Type} (m : StringMap α) (key : String) : Option α :=
  (m.find? fun e => e.1 = key).map fun e => e.2

structure InitGameMessage where
  Seed : StringMap Int
  FPS : Int
  Width : Int
  Height : Int
  deriving DecidableEq

/-- The two kinds of message a room sends. -/
inductive Message where
  | InitGame (m : InitGameMessage)
  | GameStateUpdate (states : StringMap State)

/-- A `*time.Ticker` field: nil, running or stopped. -/
inductive Ticker where
  | absent
  | running
  | stopped
  deriving DecidableEq

/-- The record `Room`.  The generator `randomizer` is embedded as the results
of its successive `Int63()` calls and the number `randomCalls` of calls made;
`rng` is the library generator from which the boards build their getters; a
nil board is `none`. -/
structure Room where
  rng : Rng
  randomizer : Nat → Nat
  randomCalls : Nat
  player1 : Player
  player2 : Player
  board1 : Option Board
  board2 : Option Board
  sent : List (String × Message)
  isStarted : Bool
  updateTicker : Ticker
  gameTicker : Ticker
  launched : List Int

/-- `NewRoom(sender)`, the generator of the room being seeded with `seed`
(the clock value `time.Now().UnixNano()`). -/
def NewRoom (rng : Rng) (seed : Int) : Room where
  rng := rng
  randomizer := rng seed
  randomCalls := 0
  player1 := { ID := "", Name := "" }
  player2 := { ID := "", Name := "" }
  board1 := none
  board2 := none
  sent := []
  isStarted := false
  updateTicker := Ticker.absent
  gameTicker := Ticker.absent
  launched := []

def initGame (r : Room) : Option Room := do
  let width : Int := 10
  let height : Int := 24
  let fps : Int := 24
  let randA : Int := r.randomizer r.randomCalls
  let randB : Int := r.randomizer (r.randomCalls + 1)
  let board1 ← NewBoard width height (randomSource r.rng randA) true
  let board2 ← NewBoard width height (randomSource r.rng randB) true
  let msg := Message.InitGame {
    Seed := (StringMap.set (StringMap.set [] r.player1.ID randA) r.player2.ID randB)
    FPS := fps
    Width := width
    Height := height }
  pure { r with
    randomCalls := r.randomCalls + 2
    board1 := some board1
    board2 := some board2
    isStarted := true
    sent := r.sent ++ [(r.player1.ID, msg), (r.player2.ID, msg)]
    launched := r.launched ++ [fps] }

def stopGame (r : Room) : Room :=
  { r with
    board1 := none
    board2 := none
    isStarted := false
    updateTicker := if r.updateTicker ≠ Ticker.absent then Ticker.stopped else r.updateTicker }

/-- `OnPlayerJoin(player)`: the room after the call and the error returned
(`none` for nil). -/
def OnPlayerJoin (r : Room) (player : Player) : Option (Room × Option String) :=
  if player.ID = "" ∨ player.Name = "" then
    some (r, some "player id or name cannot empty")
  else if r.player1.ID = "" then
    some ({ r with player1 := player }, none)
  else if r.player2.ID = "" then do
    let r1 ← initGame { r with player2 := player }
    pure (r1, none)
  else some (r, some "room already full")

/-- `OnPlayerLeave(player)`: the room after the call and the error returned.
The Go comparison `r.player1 == player` compares both fields. -/
def OnPlayerLeave (r : Room) (player : Player) : Room × Option String :=
  if r.player1 = player then
    (stopGame { r with player1 := r.player2, player2 := { ID := "", Name := "" } }, none)
  else if r.player2 = player then
    (stopGame { r with player2 := { ID := "", Name := "" } }, none)
  else (r, some "no such player")

/-- How a run of the boards of a room can fail. -/
inductive Fault where
  | panic
  | depth
  deriving DecidableEq

/-- A board operation inside a run: its failure is a run-time failure. -/
def orPanic {α : Type} (o : Option α) : Except Fault α :=
  match o with
  | some a => Except.ok a
  | none => Except.error Fault.panic

/-- One of the two boards of a room. -/
inductive Slot where
  | one
  | two
  deriving DecidableEq

def Slot.other (s : Slot) : Slot :=
  match s with
  | Slot.one => Slot.two
  | Slot.two => Slot.one

def Room.board (r : Room) (s : Slot) : Option Board :=
  match s with
  | Slot.one => r.board1
  | Slot.two => r.board2

def Room.setBoard (r : Room) (s : Slot) (b : Board) : Room :=
  match s with
  | Slot.one => { r with board1 := some b }
  | Slot.two => { r with board2 := some b }

/-- `popCompletedRows` on the board `b` of slot `s`, the state of the board
being written to the room before its handler runs: the handler applies Fill
to the other board once for each reported row, by `fillOther`. -/
def Room.popCompletedRows (fillOther : Room → Slot → Except Fault Room) (r : Room) (s : Slot)
    (b : Board) : Except Fault Room := do
  let p ← orPanic (popLoop b.tiles b.width b.height)
  if b.hasHandler then
    let rows := p.2
    (List.range rows.toNat).foldlM (fun r _ => fillOther r s.other)
      (r.setBoard s { b with tiles := p.1, reported := b.reported ++ [rows] })
  else pure (r.setBoard s { b with tiles := p.1 })

/-- The statements of `applyTick` and `applyFill` after `popCompletedRows`,
on the board of slot `s` as the handler left it. -/
def Room.spawnAndCheck (r : Room) (s : Slot) : Except Fault Room := do
  let b ← orPanic (r.board s)
  let b1 ← orPanic (setupNextTetromino b)
  let over ← orPanic (isOverlapGround b1)
  pure (r.setBoard s (if over then { b1 with isOver := true } else b1))

/-- `Apply(action)` on the board of slot `s`, a nil board failing, with the
handler calls carried out by `fillOther`. -/
def Room.applyWith (fillOther : Room → Slot → Except Fault Room) (r : Room) (s : Slot)
    (action : Action) : Except Fault Room := do
  let b ← orPanic (r.board s)
  if b.isOver then pure r
  else match action with
    | Action.ActionTick => do
      let touch ← orPanic (isTouchGround b)
      if touch then do
        let b1 ← orPanic (fillTilesWithCurrentTetromino b)
        let r1 ← Room.popCompletedRows fillOther r s b1
        Room.spawnAndCheck r1 s
      else pure (r.setBoard s (stepDown b))
    | Action.ActionGoLeft => do
      let b1 ← orPanic (applyGoLeft b)
      pure (r.setBoard s b1)
    | Action.ActionGoRight => do
      let b1 ← orPanic (applyGoRight b)
      pure (r.setBoard s b1)
    | Action.ActionRotate => do
      let b1 ← orPanic (applyRotate b)
      pure (r.setBoard s b1)
    | Action.ActionSmash => do
      let b1 ← orPanic (smashDrop b)
      let b2 ← orPanic (fillTilesWithCurrentTetromino b1)
      let r1 ← Room.popCompletedRows fillOther r s b2
      let b3 ← orPanic (r1.board s)
      let b4 ← orPanic (setupNextTetromino b3)
      pure (r1.setBoard s b4)
    | Action.ActionFill => do
      let touch ← orPanic (isTouchGround b)
      if touch then do
        let b1 ← orPanic (fillTilesWithCurrentTetromino b)
        let b2 ← orPanic (raiseGround b1)
        let r1 ← Room.popCompletedRows fillOther r s b2
        Room.spawnAndCheck r1 s
      else do
        let b1 ← orPanic (raiseGround b)
        pure (r.setBoard s b1)

/-- `Apply(action)` on the board of slot `s` of a room, the handlers calling
each other at most `depth` deep. -/
def Room.applyTo : Nat → Room → Slot → Action → Except Fault Room
  | 0 => Room.applyWith fun _ _ => Except.error Fault.depth
  | depth + 1 => Room.applyWith fun r s => Room.applyTo depth r s Action.ActionFill

/-- `OnMessage(playerID, msg)`, the message being the action it decodes to, or
`none` when it cannot be decoded. -/
def OnMessage (depth : Nat) (r : Room) (playerID : String) (msg : Option Action) :
    Except Fault Room :=
  match msg with
  | none => pure r
  | some action =>
    if playerID = r.player1.ID then Room.applyTo depth r Slot.one action
    else if playerID = r.player2.ID then Room.applyTo depth r Slot.two action
    else pure r

/-- The registries of the server that `OnUserMessage` reads: the rooms by name
and the room name of each user. -/
structure Server where
  rooms : StringMap Room
  userRoom : StringMap String

/-- `OnUserMessage(id, msg)`: a missing map entry reads as the zero value, the
empty name or the nil room; `OnMessage` on the nil room fails once it reads a
field of the room, that is after the message has been decoded. -/
def OnUserMessage (depth : Nat) (s : Server) (id : String) (msg : Option Action) :
    Except Fault Server :=
  let rid := (StringMap.get? s.userRoom id).getD ""
  match StringMap.get? s.rooms rid with
  | none =>
    match msg with
    | none => pure s
    | some _ => Except.error Fault.panic
  | some r => do
    let r1 ← OnMessage depth r id msg
    pure { s with rooms := StringMap.set s.rooms rid r1 }

/-- A room that one player, `a`, has joined. -/
def waitingRoom : Room :=
  { NewRoom demoRng 1 with player1 := { ID := "a", Name := "Alice" } }

/-- A server that knows no room and no user. -/
def emptyServer : Server where
  rooms := []
  userRoom := []

/-! ## The hard drop: vocabulary -/

/-- The occupied cells of every column of the mask are contiguous. -/
def ColumnsContiguous (m : Tetromino) : Prop :=
  ∀ j i1 i2 i3 : Fin 4, i1 < i2 → i2 < i3 → m i1 j = 1 → m i3 j = 1 → m i2 j = 1

instance (m : Tetromino) : Decidable (ColumnsContiguous m) := by
  unfold ColumnsContiguous; infer_instance

/-- The mask has an occupied cell. -/
def NonEmptyMask (m : Tetromino) : Prop :=
  ∃ i j : Fin 4, m i j = 1

instance (m : Tetromino) : Decidable (NonEmptyMask m) := by
  unfold NonEmptyMask; infer_instance

/-- The mask is one of the five shapes, rotated any number of times. -/
def IsShape (m : Tetromino) : Prop :=
  ∃ s ∈ shapes, ∃ k : Nat, m = rotateTetromino^[k] s

/-- The cell `(i, j)` of the mask is the lowest occupied cell of its column. -/
def LowestCell (m : Tetromino) (i j : Fin 4) : Prop :=
  m i j = 1 ∧ ∀ i' : Fin 4, i < i' → m i' j ≠ 1

instance (m : Tetromino) (i j : Fin 4) : Decidable (LowestCell m i j) := by
  unfold LowestCell; infer_instance

/-- The board with its active piece translated straight down by `d` rows. -/
def Board.moveDown (b : Board) (d : Int) : Board :=
  { b with currentY := b.currentY + d }

/-- The row `r` is the nearest obstruction below the cell `(i, j)` of the
active piece: the floor or a non-Empty tile of the column of the cell, every
tile of that column from the cell down to row `r - 1` being Empty. -/
def ObstructionRow (b : Board) (i j : Fin 4) (r : Int) : Prop :=
  b.currentY + i ≤ r ∧ r ≤ b.height ∧
  (r = b.height ∨ tileAt b.tiles r (b.currentX + j) ≠ TileEmpty) ∧
  ∀ r' : Int, b.currentY + i ≤ r' → r' < r → tileAt b.tiles r' (b.currentX + j) = TileEmpty

/-! ## Rotation: vocabulary -/

/-- The number of occupied cells of a mask. -/
def occupiedCells (t : Tetromino) : Nat :=
  cells.countP fun c => decide (t c.1 c.2 = 1)

/-- The cell of the mask that a rotation moves to the cell `c`: the cell
`(i, j)` of the rotated mask comes from the cell `(j, 3 - i)`. -/
def rotatedFrom (c : Fin 4 × Fin 4) : Fin 4 × Fin 4 :=
  (c.2, 3 - c.1)

/-! ## The completion handlers of a room -/

/-- The completion handler that `initGame` gives to the board of slot `s`,
called with `rows`: the loop `for i := 0; i < rows; i++` applies Fill to the
other board of the room, by `fillOther`. -/
def Room.onCompleted (fillOther : Room → Slot → Except Fault Room) (r : Room) (s : Slot)
    (rows : Int) : Except Fault Room :=
  (List.range rows.toNat).foldlM (fun r _ => fillOther r s.other) r

/-- The call `Apply(ActionFill)` on the board of slot `s`, made `k` times in
sequence. -/
def Room.fillTimes (depth : Nat) (r : Room) (s : Slot) : Nat → Except Fault Room
  | 0 => pure r
  | k + 1 => do
    let r1 ← Room.applyTo depth r s Action.ActionFill
    Room.fillTimes depth r1 s k

/-! ## The periodic loops of a room

The goroutines of `startGame` are embedded as steps of the room: the
goroutine itself once its sleep is over (`runLaunched`), one iteration of the
gravity loop (`gameLoopStep`) and one iteration of the broadcast loop
(`updateLoopStep`).  A loop `for range ticker.C` makes an iteration only
while its ticker runs: a stopped ticker sends nothing more. -/

def GetState (b : Board) : State where
  Tiles := b.tiles
  Current := b.current
  Next := b.next
  CurrentX := b.currentX
  CurrentY := b.currentY
  IsOver := b.isOver

/-- `startGame(fps)` once its sleep of three seconds is over: both tickers are
made and both loops are started.  The division `1000 / fps` fails for
`fps = 0`, and `time.NewTicker` fails on a duration that is not positive. -/
def startGame (r : Room) (fps : Int) : Option Room :=
  if fps = 0 then none
  else if (1000 : Int).tdiv fps ≤ 0 then none
  else some { r with updateTicker := Ticker.running, gameTicker := Ticker.running }

/-- The oldest goroutine started by `go r.startGame(fps)` reaches the end of
its sleep. -/
def runLaunched (r : Room) : Option Room :=
  match r.launched with
  | [] => some r
  | fps :: rest => startGame { r with launched := rest } fps

/-- One iteration of the gravity loop: Tick on board one, then on board two. -/
def gameLoopStep (depth : Nat) (r : Room) : Except Fault Room :=
  if r.gameTicker = Ticker.running then do
    let r1 ← Room.applyTo depth r Slot.one Action.ActionTick
    Room.applyTo depth r1 Slot.two Action.ActionTick
  else pure r

/-- One iteration of the broadcast loop: the states of both boards are read
and sent to both players. -/
def updateLoopStep (r : Room) : Except Fault Room :=
  if r.updateTicker = Ticker.running then do
    let b1 ← orPanic r.board1
    let b2 ← orPanic r.board2
    let msg := Message.GameStateUpdate
      (StringMap.set (StringMap.set [] r.player1.ID (GetState b1)) r.player2.ID (GetState b2))
    pure { r with sent := r.sent ++ [(r.player1.ID, msg), (r.player2.ID, msg)] }
  else pure r

/-- The fault in which a run ended, if it did. -/
def faultOf {α : Type} (e : Except Fault α) : Option Fault :=
  match e with
  | Except.ok _ => none
  | Except.error f => some f

/-! ## Sequences of joins and leaves -/

/-- A call of `OnPlayerJoin` or of `OnPlayerLeave`. -/
inductive RoomCall where
  | join (player : Player)
  | leave (player : Player)

/-- The room after one call, whatever error the call returns. -/
def Room.call (r : Room) (c : RoomCall) : Option Room :=
  match c with
  | RoomCall.join player => (OnPlayerJoin r player).map fun p => p.1
  | RoomCall.leave player => some (OnPlayerLeave r player).1

/-- The room after a sequence of calls. -/
def Room.calls (r : Room) (cs : List RoomCall) : Option Room :=
  cs.foldlM Room.call r

/-- The slot that stores `p` is occupied. -/
def Occupied (p : Player) : Prop :=
  p.ID ≠ ""

instance (p : Player) : Decidable (Occupied p) := by
  unfold Occupied; infer_instance

/-- The invariant of the slots and the boards of a room: slot two is occupied
only if slot one is; when both slots are occupied the room is started and has
both boards; otherwise it is not started and has no board. -/
def RoomInv (r : Room) : Prop :=
  (Occupied r.player2 → Occupied r.player1) ∧
  (Occupied r.player1 ∧ Occupied r.player2 →
    r.isStarted = true ∧ r.board1 ≠ none ∧ r.board2 ≠ none) ∧
  (¬ (Occupied r.player1 ∧ Occupied r.player2) →
    r.isStarted = false ∧ r.board1 = none ∧ r.board2 = none)

/-- The players `a` and `b` of the examples. -/
def playerA : Player where
  ID := "a"
  Name := "Alice"

def playerB : Player where
  ID := "b"
  Name := "Bob"


/-- What the periodic loops of a room depend on: the started flag, whether
board one and board two exist, and the state of the broadcast ticker and of
the gravity ticker. -/
def Room.loopState (r : Room) : Bool × Bool × Bool × Ticker × Ticker :=
  (r.isStarted, r.board1.isSome, r.board2.isSome, r.updateTicker, r.gameTicker)

/-- The room that `a` and then `b` have joined, `startGame` having run. -/
def runningRoom : Option Room :=
  ((NewRoom demoRng 1).calls [RoomCall.join playerA, RoomCall.join playerB]).bind runLaunched

/-- The room `runningRoom` after `OnPlayerLeave` of `a`. -/
def leftRoom : Option Room :=
  runningRoom.map fun r => (OnPlayerLeave r playerA).1

/-- The room that `a` and then `b` have joined and that `a` has left while
`startGame` was in its sleep of three seconds, `startGame` having run after
the leave. -/
def earlyLeftRoom : Option Room :=
  ((NewRoom demoRng 1).calls
    [RoomCall.join playerA, RoomCall.join playerB, RoomCall.leave playerA]).bind runLaunched

/-- The room `runningRoom` as a room. -/
def startedRoom : Room :=
  runningRoom.getD (NewRoom demoRng 1)

/-- Board two of `startedRoom`. -/
def startedBoard2 : Board :=
  startedRoom.board2.getD freshBoard

/-- The board that `NewBoard` builds from a source of I pieces, after the
first 40 actions of `fillTopRows`: six garbage rows at the bottom, rows 0 to 3
filled in every column but the spawn column, and the tenth I piece at its
spawn offset, resting on the garbage. -/
def lastColumnBoard : Option Board :=
  (NewBoard 10 10 sourceI true).bind fun b => applyAll b (fillTopRows.take 40)

/-! ## Well-formed grids and pointwise access -/

theorem GridWF.row_length {t : Grid} {w h : Int} (hwf : GridWF t w h) {i : Nat}
    (hi : i < t.length) : (t[i]).length = w.toNat :=
  hwf.2.2.2 _ (List.getElem_mem _)

theorem getTile_inGrid {t : Grid} {w h : Int} (hwf : GridWF t w h) {y x : Int}
    (hy0 : 0 ≤ y) (hy : y < h) (hx0 : 0 ≤ x) (hx : x < w) :
    getTile t y x = some (tileAt t y x) := by
  have hlen : y.toNat < t.length := by rw [hwf.2.2.1]; omega
  have hrow := hwf.row_length hlen
  have hx' : x.toNat < (t[y.toNat]).length := by rw [hrow]; omega
  simp [getTile, tileAt, hlen, hx', not_lt.mpr hy0, not_lt.mpr hx0, List.getD_eq_getElem?_getD]

theorem setTile_inGrid {t : Grid} {w h : Int} (hwf : GridWF t w h) {y x : Int}
    (hy0 : 0 ≤ y) (hy : y < h) (hx0 : 0 ≤ x) (hx : x < w) (v : Tile) :
    setTile t y x v = some (setAt t y x v) := by
  have hlen : y.toNat < t.length := by rw [hwf.2.2.1]; omega
  have hrow := hwf.row_length hlen
  have hx' : x.toNat < (t[y.toNat]).length := by rw [hrow]; omega
  simp [setTile, setAt, hlen, hx', not_lt.mpr hy0, not_lt.mpr hx0, List.getD_eq_getElem?_getD]

theorem GridWF.setAt {t : Grid} {w h : Int} (hwf : GridWF t w h) (y x : Int) (v : Tile) :
    GridWF (setAt t y x v) w h := by
  refine ⟨hwf.1, hwf.2.1, by simp [Tetris.setAt, hwf.2.2.1], ?_⟩
  intro r hr
  rcases List.mem_or_eq_of_mem_set hr with h | h
  · exact hwf.2.2.2 r h
  · subst h
    by_cases hlen : y.toNat < t.length
    · simp [List.getD_eq_getElem?_getD, hlen, hwf.row_length hlen]
    · rw [Tetris.setAt, List.set_eq_of_length_le (by omega)] at hr
      exact hwf.2.2.2 _ hr

theorem tileAt_setAt_aux (t : Grid) (y x : Int) (v : Tile) {y' x' : Int}
    (hy0 : 0 ≤ y) (hx0 : 0 ≤ x) (hy'0 : 0 ≤ y') (hx'0 : 0 ≤ x')
    (hy : y.toNat < t.length) (hx : x.toNat < (t.getD y.toNat []).length) :
    tileAt (setAt t y x v) y' x' = if y' = y ∧ x' = x then v else tileAt t y' x' := by
  unfold tileAt Tetris.setAt
  by_cases h1 : y' = y
  · subst h1
    by_cases h2 : x' = x
    · subst h2
      simp [List.getD_eq_getElem?_getD, hy] at hx ⊢
      simp [hx]
    · have : x.toNat ≠ x'.toNat := by omega
      simp [List.getD_eq_getElem?_getD, hy, h2, List.getElem?_set, this]
  · have : y.toNat ≠ y'.toNat := by omega
    simp [List.getD_eq_getElem?_getD, h1, List.getElem?_set, this]

theorem tileAt_setAt {t : Grid} {w h : Int} (hwf : GridWF t w h) {y x : Int}
    (hy0 : 0 ≤ y) (hy : y < h) (hx0 : 0 ≤ x) (hx : x < w) (v : Tile) {y' x' : Int}
    (hy'0 : 0 ≤ y') (hx'0 : 0 ≤ x') :
    tileAt (setAt t y x v) y' x' = if y' = y ∧ x' = x then v else tileAt t y' x' := by
  have hlen : y.toNat < t.length := by rw [hwf.2.2.1]; omega
  have hrow := hwf.row_length hlen
  apply tileAt_setAt_aux t y x v hy0 hx0 hy'0 hx'0 hlen
  simp only [List.getD_eq_getElem?_getD, List.getElem?_eq_getElem hlen, Option.getD_some, hrow]
  omega

/-- Two well-formed grids of the same size that agree tile by tile are equal. -/
theorem grid_ext {t t' : Grid} {w h : Int} (hwf : GridWF t w h) (hwf' : GridWF t' w h)
    (heq : ∀ y x : Int, 0 ≤ y → y < h → 0 ≤ x → x < w → tileAt t y x = tileAt t' y x) :
    t = t' := by
  apply List.ext_getElem (by rw [hwf.2.2.1, hwf'.2.2.1])
  intro i hi hi'
  apply List.ext_getElem (by rw [hwf.row_length hi, hwf'.row_length hi'])
  intro j hj hj'
  have h1 := hwf.2.2.1
  have h2 := hwf.row_length hi
  have := heq i j (by omega) (by omega) (by omega) (by omega)
  simpa [tileAt, List.getD_eq_getElem?_getD, hi, hi', hj, hj'] using this

/-! ## Loops as folds with an invariant -/

/-- A loop `for i := 0; i < n; i++` whose body never fails under the invariant
`P i` and re-establishes it as `P (i + 1)` completes and ends in `P n`. -/
theorem foldlM_range_inv {σ : Type} (f : σ → Nat → Option σ) (P : Nat → σ → Prop) (n : Nat)
    (s0 : σ) (h0 : P 0 s0)
    (hstep : ∀ i s, i < n → P i s → ∃ s', f s i = some s' ∧ P (i + 1) s') :
    ∃ s, (List.range n).foldlM f s0 = some s ∧ P n s := by
  induction n with
  | zero => exact ⟨s0, by simp, h0⟩
  | succ n ih =>
    obtain ⟨s, hs, hP⟩ := ih (fun i s hi hp => hstep i s (Nat.lt_succ_of_lt hi) hp)
    obtain ⟨s', hs', hP'⟩ := hstep n s (Nat.lt_succ_self n) hP
    exact ⟨s', by simp [List.range_succ, List.foldlM_append, hs, hs'], hP'⟩

/-- A loop `for i := n - 1; i >= 0; i--`: the invariant `P i` holds when the
rows `i, .., n - 1` have been visited. -/
theorem foldlM_range_reverse_inv {σ : Type} (f : σ → Nat → Option σ) (P : Nat → σ → Prop)
    (n : Nat) (s0 : σ) (h0 : P n s0)
    (hstep : ∀ i s, i < n → P (i + 1) s → ∃ s', f s i = some s' ∧ P i s') :
    ∃ s, (List.range n).reverse.foldlM f s0 = some s ∧ P 0 s := by
  induction n generalizing s0 with
  | zero => exact ⟨s0, by simp, h0⟩
  | succ n ih =>
    obtain ⟨s1, hs1, hP1⟩ := hstep n s0 (Nat.lt_succ_self n) h0
    obtain ⟨s, hs, hP⟩ := ih s1 hP1 (fun i s hi hp => hstep i s (Nat.lt_succ_of_lt hi) hp)
    exact ⟨s, by simpa [List.range_succ, hs1] using hs, hP⟩

/-- A loop over a list whose body never fails under the invariant `P`, indexed
by the elements already visited. -/
theorem foldlM_list_inv {α σ : Type} (f : σ → α → Option σ) (l : List α)
    (P : List α → σ → Prop) (s0 : σ) (h0 : P [] s0)
    (hstep : ∀ pre a s, a ∈ l → P pre s → ∃ s', f s a = some s' ∧ P (pre ++ [a]) s') :
    ∃ s, l.foldlM f s0 = some s ∧ P l s := by
  induction l using List.reverseRecOn with
  | nil => exact ⟨s0, by simp, h0⟩
  | append_singleton l a ih =>
    obtain ⟨s, hs, hP⟩ := ih (fun pre a s ha hp => hstep pre a s (by simp [ha]) hp)
    obtain ⟨s', hs', hP'⟩ := hstep l a s (by simp) hP
    exact ⟨s', by simp [List.foldlM_append, hs, hs'], hP'⟩

/-- A short-circuiting search loop whose test never fails computes `List.any`. -/
theorem anyM_eq_some {α : Type} (f : α → Option Bool) (p : α → Bool) (l : List α)
    (hf : ∀ a ∈ l, f a = some (p a)) : l.anyM f = some (l.any p) := by
  induction l with
  | nil => rfl
  | cons a l ih =>
    have ha := hf a (by simp)
    have ih' := ih (fun a h => hf a (by simp [h]))
    cases hp : p a <;> simp [List.anyM, ha, hp, ih']

/-- A short-circuiting universal test loop over a range whose test never
fails computes `List.all`. -/
theorem allM_eq_some {α : Type} (f : α → Option Bool) (p : α → Bool) (l : List α)
    (hf : ∀ a ∈ l, f a = some (p a)) : l.allM f = some (l.all p) := by
  induction l with
  | nil => rfl
  | cons a l ih =>
    have ha := hf a (by simp)
    have ih' := ih (fun a h => hf a (by simp [h]))
    cases hp : p a <;> simp [List.allM, ha, hp, ih']

theorem mem_cells (c : Fin 4 × Fin 4) : c ∈ cells := by
  revert c; decide

theorem cells_any_iff (p : Fin 4 × Fin 4 → Bool) :
    cells.any p = true ↔ ∃ i j : Fin 4, p (i, j) = true := by
  simp only [List.any_eq_true]
  constructor
  · rintro ⟨⟨i, j⟩, _, h⟩; exact ⟨i, j, h⟩
  · rintro ⟨i, j, h⟩; exact ⟨(i, j), mem_cells _, h⟩

/-! ## Pure readings of the placement tests -/

theorem isTetrominoUnitOverlapBlock_eq {b : Board} (hwf : b.WF) (c : Fin 4 × Fin 4) :
    isTetrominoUnitOverlapBlock b c.1 c.2 = some (overlapAt b c) := by
  unfold isTetrominoUnitOverlapBlock overlapAt InGrid
  by_cases h1 : b.current c.1 c.2 = 1
  · by_cases h2 : b.currentY + c.1 ≥ b.height ∨ b.currentY + c.1 < 0 ∨
        b.currentX + c.2 ≥ b.width ∨ b.currentX + c.2 < 0
    · have : ¬ (0 ≤ b.currentY + c.1 ∧ b.currentY + c.1 < b.height ∧
          0 ≤ b.currentX + c.2 ∧ b.currentX + c.2 < b.width) := by omega
      simp [h1, h2, this]
    · have h3 : 0 ≤ b.currentY + c.1 ∧ b.currentY + c.1 < b.height ∧
          0 ≤ b.currentX + c.2 ∧ b.currentX + c.2 < b.width := by omega
      rw [if_neg (by simpa using h1), if_neg h2,
        getTile_inGrid hwf h3.1 h3.2.1 h3.2.2.1 h3.2.2.2]
      simp [h1, h3]
  · simp [h1]

theorem isOverlapGround_eq {b : Board} (hwf : b.WF) :
    isOverlapGround b = some (cells.any (overlapAt b)) :=
  anyM_eq_some _ _ _ (fun c _ => isTetrominoUnitOverlapBlock_eq hwf c)

theorem cells_any_overlapAt_iff (b : Board) :
    cells.any (overlapAt b) = true ↔ ¬ Fits b b.current := by
  rw [cells_any_iff]
  unfold Fits overlapAt
  simp only [Bool.and_eq_true, Bool.or_eq_true, decide_eq_true_eq, Bool.not_eq_true',
    decide_eq_false_iff_not]
  push_neg
  constructor
  · rintro ⟨i, j, h1, h2⟩
    refine ⟨i, j, h1, fun hin => ?_⟩
    rcases h2 with h2 | h2
    · exact absurd hin h2
    · exact h2
  · rintro ⟨i, j, h1, h2⟩
    refine ⟨i, j, h1, ?_⟩
    by_cases hin : InGrid b.width b.height (b.currentY + i) (b.currentX + j)
    · exact Or.inr (h2 hin)
    · exact Or.inl hin

theorem isOverlapGround_true_iff {b : Board} (hwf : b.WF) :
    isOverlapGround b = some true ↔ ¬ Fits b b.current := by
  rw [isOverlapGround_eq hwf, ← cells_any_overlapAt_iff]
  simp

theorem isOverlapGround_false_iff {b : Board} (hwf : b.WF) :
    isOverlapGround b = some false ↔ Fits b b.current := by
  rw [isOverlapGround_eq hwf, ← not_iff_not, ← cells_any_overlapAt_iff]
  simp

theorem isTouchGround_eq {b : Board} (hwf : b.WF) :
    isTouchGround b = some (cells.any fun c => overlapAt b c || touchAt b c) := by
  apply anyM_eq_some
  intro c _
  rw [isTetrominoUnitOverlapBlock_eq hwf c]
  cases ho : overlapAt b c
  · simp only [Option.bind_eq_bind, Option.some_bind, Bool.false_eq_true, if_false, Bool.false_or]
    unfold isTetrominoUnitTouchGround touchAt
    unfold overlapAt InGrid at ho
    by_cases h1 : b.current c.1 c.2 = 1
    · simp only [h1, decide_True, Bool.true_and, Bool.or_eq_false_iff, Bool.not_eq_false',
        decide_eq_true_eq, decide_eq_false_iff_not, not_not] at ho
      by_cases h2 : b.currentY + c.1 + 1 ≥ b.height
      · simp [h1, h2]
      · have h3 : ¬ (b.currentX + c.2 < 0 ∨ b.currentX + c.2 ≥ b.width) := by omega
        rw [if_neg (by simp [h1]), if_neg h2, if_neg h3,
          getTile_inGrid hwf (by omega) (by omega) (by omega) (by omega)]
        simp [h1, h2]
    · simp [h1]
  · simp

/-! ## Sideways moves and rotation -/

theorem isTetrominoUnitHitWallOrTile_eq {b : Board} (hwf : b.WF) (c : Fin 4 × Fin 4)
    (hocc : b.current c.1 c.2 = 1)
    (hin : InGrid b.width b.height (b.currentY + c.1) (b.currentX + c.2)) :
    isTetrominoUnitHitWallOrTile b c.1 c.2 = some (hitLeftAt b c, hitRightAt b c) := by
  obtain ⟨hy0, hy, hx0, hx⟩ := hin
  unfold isTetrominoUnitHitWallOrTile hitLeftAt hitRightAt
  by_cases hl : b.currentX + c.2 ≤ 0
  · by_cases hr : b.currentX + c.2 ≥ b.width - 1
    · simp [hocc, hl, hr]
    · have g := getTile_inGrid hwf hy0 hy (show 0 ≤ b.currentX + c.2 + 1 by omega) (by omega)
      simp [hocc, hl, hr, hy, g]
  · have g1 := getTile_inGrid hwf hy0 hy (show 0 ≤ b.currentX + c.2 - 1 by omega) (by omega)
    by_cases hr : b.currentX + c.2 ≥ b.width - 1
    · simp [hocc, hl, hr, hy, g1]
    · have g := getTile_inGrid hwf hy0 hy (show 0 ≤ b.currentX + c.2 + 1 by omega) (by omega)
      simp [hocc, hl, hr, hy, g, g1]

theorem isHitWallOrTileLoop_eq {b : Board} (hwf : b.WF) (hin : PieceInGrid b)
    (cs : List (Fin 4 × Fin 4)) (l r : Bool) :
    isHitWallOrTileLoop b cs l r =
      some (l || cs.any (fun c => decide (b.current c.1 c.2 = 1) && hitLeftAt b c),
            r || cs.any (fun c => decide (b.current c.1 c.2 = 1) && hitRightAt b c)) := by
  induction cs generalizing l r with
  | nil => simp [isHitWallOrTileLoop]
  | cons c cs ih =>
    unfold isHitWallOrTileLoop
    by_cases hocc : b.current c.1 c.2 = 1
    · rw [if_neg (by simp [hocc]), isTetrominoUnitHitWallOrTile_eq hwf c hocc (hin _ _ hocc)]
      simp only [Option.bind_eq_bind, Option.some_bind, Option.pure_def]
      by_cases hboth : ((l || hitLeftAt b c) && (r || hitRightAt b c)) = true
      · rw [if_pos hboth]
        simp only [Bool.and_eq_true] at hboth
        simp [hocc, hboth.1, hboth.2, ← Bool.or_assoc]
      · rw [if_neg hboth, ih]
        simp [hocc, Bool.or_assoc]
    · rw [if_pos (by simpa using hocc), ih]
      simp [hocc]

theorem isHitWallOrTile_eq {b : Board} (hwf : b.WF) (hin : PieceInGrid b) :
    isHitWallOrTile b = some (decide (BlockedLeft b), decide (BlockedRight b)) := by
  unfold isHitWallOrTile
  rw [isHitWallOrTileLoop_eq hwf hin]
  simp only [Bool.false_or, Option.some.injEq, Prod.mk.injEq]
  constructor
  · rw [Bool.eq_iff_iff, cells_any_iff]
    simp only [Bool.and_eq_true, decide_eq_true_eq, hitLeftAt, Bool.or_eq_true, BlockedLeft]
    constructor
    · rintro ⟨i, j, h1, h2⟩
      refine ⟨i, j, h1, ?_⟩
      have := (hin i j h1).2.2.1
      rcases h2 with h2 | h2
      · exact Or.inl (by omega)
      · exact Or.inr h2
    · rintro ⟨i, j, h1, h2⟩
      refine ⟨i, j, h1, ?_⟩
      rcases h2 with h2 | h2
      · exact Or.inl (by omega)
      · exact Or.inr h2
  · rw [Bool.eq_iff_iff, cells_any_iff]
    simp only [Bool.and_eq_true, decide_eq_true_eq, hitRightAt, Bool.or_eq_true, BlockedRight]
    constructor
    · rintro ⟨i, j, h1, h2⟩
      refine ⟨i, j, h1, ?_⟩
      have := (hin i j h1).2.2.2
      rcases h2 with h2 | h2
      · exact Or.inl (by omega)
      · exact Or.inr h2
    · rintro ⟨i, j, h1, h2⟩
      refine ⟨i, j, h1, ?_⟩
      rcases h2 with h2 | h2
      · exact Or.inl (by omega)
      · exact Or.inr h2

/-! ## Locking the piece -/

theorem fillTiles_loop {b : Board} (hwf : b.WF) (hin : PieceInGrid b) :
    ∃ t, cells.foldlM
        (fun t c =>
          if b.current c.1 c.2 = 1 then
            setTile t (b.currentY + c.1) (b.currentX + c.2) TileNormalBlock
          else pure t)
        b.tiles = some t ∧
      GridWF t b.width b.height ∧
      ∀ y x : Int, 0 ≤ y → 0 ≤ x →
        (Occupies b y x → tileAt t y x = TileNormalBlock) ∧
        (¬ Occupies b y x → tileAt t y x = tileAt b.tiles y x) := by
  have key := foldlM_list_inv
    (fun t c =>
      if b.current c.1 c.2 = 1 then
        setTile t (b.currentY + c.1) (b.currentX + c.2) TileNormalBlock
      else pure t)
    cells
    (fun pre t => GridWF t b.width b.height ∧
      ∀ y x : Int, 0 ≤ y → 0 ≤ x →
        ((∃ c ∈ pre, b.current c.1 c.2 = 1 ∧ b.currentY + c.1 = y ∧ b.currentX + c.2 = x) →
          tileAt t y x = TileNormalBlock) ∧
        ((¬ ∃ c ∈ pre, b.current c.1 c.2 = 1 ∧ b.currentY + c.1 = y ∧ b.currentX + c.2 = x) →
          tileAt t y x = tileAt b.tiles y x))
    b.tiles ⟨hwf, fun y x _ _ => ⟨fun h => by simp at h, fun _ => rfl⟩⟩ ?_
  · obtain ⟨t, ht, hwf', hpt⟩ := key
    refine ⟨t, ht, hwf', fun y x hy hx => ?_⟩
    have hiff : (∃ c ∈ cells, b.current c.1 c.2 = 1 ∧ b.currentY + c.1 = y ∧
        b.currentX + c.2 = x) ↔ Occupies b y x := by
      constructor
      · rintro ⟨⟨i, j⟩, _, h⟩; exact ⟨i, j, h⟩
      · rintro ⟨i, j, h⟩; exact ⟨(i, j), mem_cells _, h⟩
    rw [← hiff]
    exact hpt y x hy hx
  · rintro pre c t _ ⟨hwf', hpt⟩
    by_cases hocc : b.current c.1 c.2 = 1
    · obtain ⟨hy0, hy, hx0, hx⟩ := hin _ _ hocc
      refine ⟨setAt t (b.currentY + c.1) (b.currentX + c.2) TileNormalBlock, ?_,
        hwf'.setAt _ _ _, fun y x hy' hx' => ?_⟩
      · simp only [hocc, if_true]
        exact setTile_inGrid hwf' hy0 hy hx0 hx _
      · rw [tileAt_setAt hwf' hy0 hy hx0 hx _ hy' hx']
        by_cases hhere : y = b.currentY + c.1 ∧ x = b.currentX + c.2
        · rw [if_pos hhere]
          refine ⟨fun _ => rfl, fun hno => absurd ⟨c, by simp, hocc, hhere.1.symm, hhere.2.symm⟩ hno⟩
        · rw [if_neg hhere]
          have hiff : (∃ c' ∈ pre ++ [c], b.current c'.1 c'.2 = 1 ∧ b.currentY + c'.1 = y ∧
              b.currentX + c'.2 = x) ↔
              (∃ c' ∈ pre, b.current c'.1 c'.2 = 1 ∧ b.currentY + c'.1 = y ∧
                b.currentX + c'.2 = x) := by
            constructor
            · rintro ⟨c', hmem, h1, h2, h3⟩
              rcases List.mem_append.mp hmem with hm | hm
              · exact ⟨c', hm, h1, h2, h3⟩
              · rw [List.mem_singleton] at hm
                subst hm
                exact absurd ⟨h2.symm, h3.symm⟩ hhere
            · rintro ⟨c', hmem, h⟩
              exact ⟨c', List.mem_append.mpr (Or.inl hmem), h⟩
          rw [hiff]
          exact hpt y x hy' hx'
    · refine ⟨t, by simp [hocc], hwf', fun y x hy' hx' => ?_⟩
      have hiff : (∃ c' ∈ pre ++ [c], b.current c'.1 c'.2 = 1 ∧ b.currentY + c'.1 = y ∧
          b.currentX + c'.2 = x) ↔
          (∃ c' ∈ pre, b.current c'.1 c'.2 = 1 ∧ b.currentY + c'.1 = y ∧
            b.currentX + c'.2 = x) := by
        constructor
        · rintro ⟨c', hmem, h1, h2, h3⟩
          rcases List.mem_append.mp hmem with hm | hm
          · exact ⟨c', hm, h1, h2, h3⟩
          · rw [List.mem_singleton] at hm
            subst hm
            exact absurd h1 hocc
        · rintro ⟨c', hmem, h⟩
          exact ⟨c', List.mem_append.mpr (Or.inl hmem), h⟩
      rw [hiff]
      exact hpt y x hy' hx'

/-- Locking a piece that lies inside the grid completes and writes
NormalBlock at exactly the occupied cells of the piece. -/
theorem fillTilesWithCurrentTetromino_spec {b : Board} (hwf : b.WF) (hin : PieceInGrid b) :
    ∃ t, fillTilesWithCurrentTetromino b = some { b with tiles := t } ∧
      GridWF t b.width b.height ∧
      ∀ y x : Int, 0 ≤ y → 0 ≤ x →
        (Occupies b y x → tileAt t y x = TileNormalBlock) ∧
        (¬ Occupies b y x → tileAt t y x = tileAt b.tiles y x) := by
  obtain ⟨t, ht, hwf', hpt⟩ := fillTiles_loop hwf hin
  exact ⟨t, by unfold fillTilesWithCurrentTetromino; rw [ht]; rfl, hwf', hpt⟩

/-! ## Row loops -/

/-- The inner loop of `raiseGround`: row `y` receives the tiles of row `y + 1`. -/
theorem copyRowUp_spec {t : Grid} {w h : Int} (hwf : GridWF t w h) (y : Nat)
    (hy : (y : Int) + 1 < h) :
    ∃ t', (List.range w.toNat).foldlM
        (fun t (x : Nat) => do
          let v ← getTile t (y + 1) x
          setTile t y x v) t = some t' ∧
      GridWF t' w h ∧
      ∀ y' x' : Int, InGrid w h y' x' →
        tileAt t' y' x' = if y' = y then tileAt t (y + 1) x' else tileAt t y' x' := by
  have key := foldlM_range_inv
    (fun t (x : Nat) => do
      let v ← getTile t (y + 1) x
      setTile t y x v)
    (fun k t' => GridWF t' w h ∧
      ∀ y' x' : Int, InGrid w h y' x' →
        tileAt t' y' x' = if y' = y ∧ x' < k then tileAt t (y + 1) x' else tileAt t y' x')
    w.toNat t ⟨hwf, fun y' x' hin => by
      have := hin.2.2.1
      rw [if_neg (by omega)]⟩ ?_
  · obtain ⟨t', ht', hwf', hpt⟩ := key
    refine ⟨t', ht', hwf', fun y' x' hin => ?_⟩
    rw [hpt y' x' hin]
    have := hin.2.2.2
    by_cases h1 : y' = y
    · rw [if_pos ⟨h1, by omega⟩, if_pos h1]
    · rw [if_neg (fun h => h1 h.1), if_neg h1]
  · rintro k t' hk ⟨hwf', hpt⟩
    have hk' : (k : Int) < w := by omega
    have hg : getTile t' (y + 1) k = some (tileAt t (y + 1) k) := by
      rw [getTile_inGrid hwf' (by omega) hy (by omega) hk',
        hpt _ _ ⟨by omega, hy, by omega, hk'⟩, if_neg (by omega)]
    refine ⟨setAt t' y k (tileAt t (y + 1) k), ?_, hwf'.setAt _ _ _, fun y' x' hin => ?_⟩
    · simp only [hg, Option.bind_eq_bind, Option.some_bind]
      exact setTile_inGrid hwf' (by omega) (by omega) (by omega) hk' _
    · rw [tileAt_setAt hwf' (by omega) (by omega) (by omega) hk' _ hin.1 hin.2.2.1,
        hpt y' x' hin]
      by_cases h1 : y' = y
      · by_cases h2 : x' = k
        · rw [if_pos ⟨h1, h2⟩, if_pos ⟨h1, by omega⟩, h2]
        · rw [if_neg (fun h => h2 h.2)]
          by_cases h3 : x' < k
          · rw [if_pos ⟨h1, h3⟩, if_pos ⟨h1, by omega⟩]
          · rw [if_neg (fun h => h3 h.2), if_neg (fun h => by omega)]
      · rw [if_neg (fun h => h1 h.1), if_neg (fun h => h1 h.1), if_neg (fun h => h1 h.1)]

/-- A loop that writes `v` to every tile of row `y`. -/
theorem writeRow_spec {t : Grid} {w h : Int} (hwf : GridWF t w h) (y : Int)
    (hy0 : 0 ≤ y) (hy : y < h) (v : Tile) :
    ∃ t', (List.range w.toNat).foldlM (fun t (x : Nat) => setTile t y x v) t = some t' ∧
      GridWF t' w h ∧
      ∀ y' x' : Int, InGrid w h y' x' →
        tileAt t' y' x' = if y' = y then v else tileAt t y' x' := by
  have key := foldlM_range_inv
    (fun t (x : Nat) => setTile t y x v)
    (fun k t' => GridWF t' w h ∧
      ∀ y' x' : Int, InGrid w h y' x' →
        tileAt t' y' x' = if y' = y ∧ x' < k then v else tileAt t y' x')
    w.toNat t ⟨hwf, fun y' x' hin => by
      have := hin.2.2.1
      rw [if_neg (by omega)]⟩ ?_
  · obtain ⟨t', ht', hwf', hpt⟩ := key
    refine ⟨t', ht', hwf', fun y' x' hin => ?_⟩
    rw [hpt y' x' hin]
    have := hin.2.2.2
    by_cases h1 : y' = y
    · rw [if_pos ⟨h1, by omega⟩, if_pos h1]
    · rw [if_neg (fun h => h1 h.1), if_neg h1]
  · rintro k t' hk ⟨hwf', hpt⟩
    have hk' : (k : Int) < w := by omega
    refine ⟨setAt t' y k v, setTile_inGrid hwf' hy0 hy (by omega) hk' _, hwf'.setAt _ _ _,
      fun y' x' hin => ?_⟩
    rw [tileAt_setAt hwf' hy0 hy (by omega) hk' _ hin.1 hin.2.2.1, hpt y' x' hin]
    by_cases h1 : y' = y
    · by_cases h2 : x' = k
      · rw [if_pos ⟨h1, h2⟩, if_pos ⟨h1, by omega⟩]
      · rw [if_neg (fun h => h2 h.2)]
        by_cases h3 : x' < k
        · rw [if_pos ⟨h1, h3⟩, if_pos ⟨h1, by omega⟩]
        · rw [if_neg (fun h => h3 h.2), if_neg (fun h => by omega)]
    · rw [if_neg (fun h => h1 h.1), if_neg (fun h => h1 h.1), if_neg (fun h => h1 h.1)]

/-- The inner loop of `popCompletedRows`: row `y` moves down by `below > 0`
rows and is blanked. -/
theorem shiftRowDown_spec {t : Grid} {w h : Int} (hwf : GridWF t w h) (y : Nat) (below : Int)
    (hbelow : 0 < below) (hy : (y : Int) + below < h) :
    ∃ t', shiftRowDown t w y below = some t' ∧
      GridWF t' w h ∧
      ∀ y' x' : Int, InGrid w h y' x' →
        tileAt t' y' x' =
          if y' = y then TileEmpty
          else if y' = y + below then tileAt t y x' else tileAt t y' x' := by
  have key := foldlM_range_inv
    (fun t (x : Nat) => do
      let v ← getTile t y x
      let t1 ← setTile t (y + below) x v
      setTile t1 y x TileEmpty)
    (fun k t' => GridWF t' w h ∧
      ∀ y' x' : Int, InGrid w h y' x' →
        tileAt t' y' x' =
          if x' < k then
            (if y' = y then TileEmpty
             else if y' = y + below then tileAt t y x' else tileAt t y' x')
          else tileAt t y' x')
    w.toNat t ⟨hwf, fun y' x' hin => by
      have := hin.2.2.1
      rw [if_neg (by omega)]⟩ ?_
  · obtain ⟨t', ht', hwf', hpt⟩ := key
    refine ⟨t', by unfold shiftRowDown; exact ht', hwf', fun y' x' hin => ?_⟩
    rw [hpt y' x' hin]
    have := hin.2.2.2
    rw [if_pos (by omega)]
  · rintro k t' hk ⟨hwf', hpt⟩
    have hk' : (k : Int) < w := by omega
    have hg : getTile t' y k = some (tileAt t y k) := by
      rw [getTile_inGrid hwf' (by omega) (by omega) (by omega) hk',
        hpt _ _ ⟨by omega, by omega, by omega, hk'⟩, if_neg (by omega)]
    have hwf1 := hwf'.setAt (y + below) k (tileAt t y k)
    refine ⟨setAt (setAt t' (y + below) k (tileAt t y k)) y k TileEmpty, ?_,
      hwf1.setAt _ _ _, fun y' x' hin => ?_⟩
    · simp only [hg, Option.bind_eq_bind, Option.some_bind,
        setTile_inGrid hwf' (show (0 : Int) ≤ y + below by omega) hy (by omega) hk']
      exact setTile_inGrid hwf1 (by omega) (by omega) (by omega) hk' _
    · rw [tileAt_setAt hwf1 (by omega) (by omega) (by omega) hk' _ hin.1 hin.2.2.1,
        tileAt_setAt hwf' (by omega) hy (by omega) hk' _ hin.1 hin.2.2.1, hpt y' x' hin]
      have hcast : ((k + 1 : Nat) : Int) = (k : Int) + 1 := by omega
      rw [hcast]
      by_cases h2 : x' = k
      · by_cases h1 : y' = y
        · simp [h1, h2]
        · by_cases h3 : y' = y + below
          · simp [h2, h3, hbelow.ne']
          · simp [h1, h2, h3]
      · have h4 : ¬ (y' = y ∧ x' = k) := fun h => h2 h.2
        have h5 : ¬ (y' = y + below ∧ x' = k) := fun h => h2 h.2
        rw [if_neg h4, if_neg h5]
        by_cases h3 : x' < k
        · rw [if_pos h3, if_pos (show x' < (k : Int) + 1 by omega)]
        · rw [if_neg h3, if_neg (show ¬ x' < (k : Int) + 1 by omega)]

/-! ## Raising the ground -/

theorem raiseRows_spec {t : Grid} {w h : Int} (hwf : GridWF t w h) :
    ∃ t', raiseRows t w h = some t' ∧
      GridWF t' w h ∧
      ∀ y' x' : Int, InGrid w h y' x' →
        tileAt t' y' x' = if y' < h - 1 then tileAt t (y' + 1) x' else tileAt t y' x' := by
  have key := foldlM_range_inv
    (fun t (y : Nat) =>
      (List.range w.toNat).foldlM
        (fun t (x : Nat) => do
          let v ← getTile t (y + 1) x
          setTile t y x v)
        t)
    (fun k t' => GridWF t' w h ∧
      ∀ y' x' : Int, InGrid w h y' x' →
        tileAt t' y' x' = if y' < k then tileAt t (y' + 1) x' else tileAt t y' x')
    (h - 1).toNat t ⟨hwf, fun y' x' hin => by
      have := hin.1
      rw [if_neg (by omega)]⟩ ?_
  · obtain ⟨t', ht', hwf', hpt⟩ := key
    refine ⟨t', by unfold raiseRows; exact ht', hwf', fun y' x' hin => ?_⟩
    rw [hpt y' x' hin]
    have := hin.1
    by_cases h1 : y' < h - 1
    · rw [if_pos h1, if_pos (by omega)]
    · rw [if_neg h1, if_neg (by omega)]
  · rintro k t' hk ⟨hwf', hpt⟩
    have hk' : (k : Int) + 1 < h := by omega
    obtain ⟨t'', ht'', hwf'', hpt''⟩ := copyRowUp_spec hwf' k hk'
    refine ⟨t'', ht'', hwf'', fun y' x' hin => ?_⟩
    rw [hpt'' y' x' hin]
    have hcast : ((k + 1 : Nat) : Int) = (k : Int) + 1 := by omega
    rw [hcast]
    by_cases h1 : y' = k
    · rw [if_pos h1, hpt _ _ ⟨by omega, hk', hin.2.2.1, hin.2.2.2⟩,
        if_neg (show ¬ (k : Int) + 1 < k by omega), if_pos (show y' < (k : Int) + 1 by omega), h1]
    · rw [if_neg h1, hpt y' x' hin]
      by_cases h2 : y' < k
      · rw [if_pos h2, if_pos (show y' < (k : Int) + 1 by omega)]
      · rw [if_neg h2, if_neg (show ¬ y' < (k : Int) + 1 by omega)]

/-- On a well-formed board of positive height `raiseGround` completes: every
row receives the tiles of the row below it and the bottom row becomes
AdditionalBlock throughout; nothing but the grid changes. -/
theorem raiseGround_spec {b : Board} (hwf : b.WF) (hh : 0 < b.height) :
    ∃ t', raiseGround b = some { b with tiles := t' } ∧
      GridWF t' b.width b.height ∧
      ∀ y' x' : Int, InGrid b.width b.height y' x' →
        (y' < b.height - 1 → tileAt t' y' x' = tileAt b.tiles (y' + 1) x') ∧
        (y' = b.height - 1 → tileAt t' y' x' = TileAdditionalBlock) := by
  obtain ⟨t1, ht1, hwf1, hpt1⟩ := raiseRows_spec hwf
  obtain ⟨t2, ht2, hwf2, hpt2⟩ :=
    writeRow_spec hwf1 (b.height - 1) (by omega) (by omega) TileAdditionalBlock
  refine ⟨t2, ?_, hwf2, fun y' x' hin => ⟨fun hlt => ?_, fun heq => ?_⟩⟩
  · unfold raiseGround
    rw [ht1]
    simp only [Option.bind_eq_bind, Option.some_bind]
    rw [ht2]
    rfl
  · rw [hpt2 y' x' hin, if_neg (by omega), hpt1 y' x' hin, if_pos hlt]
  · rw [hpt2 y' x' hin, if_pos heq]

/-! ## Row clearing -/

theorem tileAt_eq_getElem {t : Grid} {i j : Nat} (hi : i < t.length) (hj : j < (t[i]).length) :
    tileAt t i j = (t[i])[j] := by
  simp [tileAt, List.getD_eq_getElem?_getD, hi, hj]

theorem all_range_getElem {α : Type} (l : List α) (q : α → Bool) (p : Nat → Bool)
    (hp : ∀ i (hi : i < l.length), p i = q (l[i])) :
    (List.range l.length).all p = l.all q := by
  rw [Bool.eq_iff_iff, List.all_eq_true, List.all_eq_true]
  constructor
  · intro h a ha
    obtain ⟨i, hi, rfl⟩ := List.mem_iff_getElem.mp ha
    rw [← hp i hi]
    exact h i (List.mem_range.mpr hi)
  · intro h i hi
    rw [List.mem_range] at hi
    rw [hp i hi]
    exact h _ (List.getElem_mem _)

theorem isRowCompleted_eq {t : Grid} {w h : Int} (hwf : GridWF t w h) (y : Nat)
    (hy : y < t.length) :
    isRowCompleted t w y = some (rowDone (t[y])) := by
  have hrow := hwf.row_length hy
  have hlen := hwf.2.2.1
  unfold isRowCompleted
  rw [allM_eq_some _ (fun x : Nat => decide (tileAt t y x = TileNormalBlock))]
  · rw [← hrow]
    unfold rowDone
    rw [all_range_getElem]
    intro i hi
    rw [tileAt_eq_getElem hy hi]
  · intro x hx
    rw [List.mem_range] at hx
    rw [getTile_inGrid hwf (by omega) (by omega) (by omega) (by omega)]
    rfl

/-- The row-level reading of `shiftRowDown`. -/
theorem shiftRowDown_eq {t : Grid} {w h : Int} (hwf : GridWF t w h) (y n : Nat)
    (hn : 0 < n) (hy : y + n < t.length) :
    shiftRowDown t w y n = some ((t.set (y + n) (t.getD y [])).set y (blankRow w)) ∧
    GridWF ((t.set (y + n) (t.getD y [])).set y (blankRow w)) w h := by
  have hlen := hwf.2.2.1
  obtain ⟨t', ht', hwf', hpt⟩ := shiftRowDown_spec hwf y n (by omega) (by omega)
  have hy' : y < t.length := by omega
  have hrowy := hwf.row_length hy'
  have hwf2 : GridWF ((t.set (y + n) (t.getD y [])).set y (blankRow w)) w h := by
    refine ⟨hwf.1, hwf.2.1, by simp [hlen], ?_⟩
    intro r hr
    rcases List.mem_or_eq_of_mem_set hr with h1 | h1
    · rcases List.mem_or_eq_of_mem_set h1 with h2 | h2
      · exact hwf.2.2.2 r h2
      · rw [h2, List.getD_eq_getElem?_getD, List.getElem?_eq_getElem hy']
        exact hrowy
    · rw [h1]; simp [blankRow]
  refine ⟨?_, hwf2⟩
  rw [ht']
  congr 1
  apply grid_ext hwf' hwf2
  intro y' x' hy0 hyh hx0 hxw
  rw [hpt y' x' ⟨hy0, hyh, hx0, hxw⟩]
  have hy'len : y'.toNat < t.length := by omega
  have hx'len : x'.toNat < w.toNat := by omega
  unfold tileAt
  by_cases h1 : y' = y
  · have e1 : y'.toNat = y := by omega
    rw [if_pos h1, e1]
    simp [List.getD_eq_getElem?_getD, List.getElem?_set, hy', blankRow, hx'len]
  · rw [if_neg h1]
    have e1 : ¬ y = y'.toNat := by omega
    by_cases h2 : y' = y + n
    · have e2 : y'.toNat = y + n := by omega
      rw [if_pos h2]
      have e3 : ¬ y = y + n := by omega
      simp [List.getD_eq_getElem?_getD, List.getElem?_set, List.getElem_set, e1, e2, e3, hy, hy']
    · have e2 : ¬ y + n = y'.toNat := by omega
      rw [if_neg h2]
      simp [List.getD_eq_getElem?_getD, List.getElem?_set, e1, e2]


theorem popStep_spec {t0 : Grid} {w h : Int} (hwf0 : GridWF t0 w h) (y : Nat)
    (hy : y < t0.length) (st : Grid × Int) (hinv : PopInv t0 w h (y + 1) st) :
    ∃ st', popStep w st y = some st' ∧ PopInv t0 w h y st' := by
  obtain ⟨t', c⟩ := st
  obtain ⟨hwf', hb, hc, hd, he⟩ := hinv
  simp only at hwf' hb hc hd he
  have hlen0 := hwf0.2.2.1
  have hlen' : t'.length = t0.length := by rw [hwf'.2.2.1, hlen0]
  have hy' : y < t'.length := by omega
  have hrow : t'[y] = t0[y] := by
    have := hb y (Nat.lt_succ_self y)
    rw [List.getElem?_eq_getElem hy', List.getElem?_eq_getElem hy] at this
    exact Option.some.inj this
  have hnle : (t0.drop (y + 1)).countP rowDone ≤ t0.length - (y + 1) := by
    have := List.countP_le_length rowDone (l := t0.drop (y + 1))
    simpa using this
  have hdrop : t0.drop y = t0[y] :: t0.drop (y + 1) := List.drop_eq_getElem_cons hy
  have hdrop' : t'.drop y = t0[y] :: t'.drop (y + 1) := by
    rw [List.drop_eq_getElem_cons hy', hrow]
  have hrc : isRowCompleted t' w y = some (rowDone t0[y]) := by
    rw [isRowCompleted_eq hwf' y hy', hrow]
  have hget : t0[y]? = some t0[y] := List.getElem?_eq_getElem hy
  have hget' : t'[y]? = some t0[y] := by rw [List.getElem?_eq_getElem hy', hrow]
  generalize hn : (t0.drop (y + 1)).countP rowDone = n at hc hd he hnle
  subst hc
  unfold popStep PopInv
  simp only [hrc, Option.bind_eq_bind, Option.some_bind, hdrop, List.countP_cons, hn,
    List.filter_cons]
  by_cases hn0 : n = 0
  · subst hn0
    simp only [Nat.cast_zero, gt_iff_lt, lt_self_iff_false, if_false, Option.pure_def,
      Option.some_bind, Option.some.injEq, exists_eq_left', Nat.add_zero, Nat.zero_add] at hd ⊢
    cases hdone : rowDone t0[y]
    · refine ⟨hwf', fun i hi => hb i (Nat.lt_succ_of_lt hi), by simp, ?_, ?_⟩
      · simp [hdrop', hd]
      · intro i h1 h2
        simp at h2
        omega
    · refine ⟨hwf', fun i hi => hb i (Nat.lt_succ_of_lt hi), by simp, ?_, ?_⟩
      · simpa using hd
      · intro i h1 h2
        simp at h2
        have : i = y := by omega
        subst this
        exact Or.inl ⟨by simp, t0[i], hget, hdone, hget'⟩
  · have hnpos : 0 < n := Nat.pos_of_ne_zero hn0
    obtain ⟨hshift, hwf''⟩ := shiftRowDown_eq hwf' y n hnpos (by omega)
    have hgd : t'.getD y [] = t0[y] := by
      rw [List.getD_eq_getElem?_getD, hget']; rfl
    rw [hgd] at hshift hwf''
    have hcond : ((n : Nat) : Int) > 0 := by omega
    simp only [hcond, if_true, hshift, Option.some_bind, Option.pure_def, Option.some.injEq,
      exists_eq_left']
    have hbb : ∀ i, i < y → ((t'.set (y + n) t0[y]).set y (blankRow w))[i]? = t0[i]? := by
      intro i hi
      rw [List.getElem?_set_ne (by omega), List.getElem?_set_ne (by omega)]
      exact hb i (Nat.lt_succ_of_lt hi)
    have hmid : ∀ i, y < i → i < y + n →
        ((t'.set (y + n) t0[y]).set y (blankRow w))[i]? = some (blankRow w) := by
      intro i h1 h2
      rw [List.getElem?_set_ne (by omega), List.getElem?_set_ne (by omega)]
      rcases he i (by omega) (by omega) with ⟨h3, _⟩ | ⟨_, h3⟩
      · omega
      · exact h3
    have hat : ((t'.set (y + n) t0[y]).set y (blankRow w))[y]? = some (blankRow w) := by
      rw [List.getElem?_set_self (by simpa using hy')]
    cases hdone : rowDone t0[y]
    · refine ⟨hwf'', hbb, by simp, ?_, ?_⟩
      · simp only [Bool.false_eq_true, if_false, Nat.add_zero, Bool.not_false, if_true]
        rw [List.drop_set_of_lt _ _ (by omega), List.drop_eq_getElem_cons (by simp; omega)]
        simp only [List.getElem_set_self]
        rw [List.drop_set_of_lt _ _ (by omega)]
        have : y + 1 + n = y + n + 1 := by omega
        rw [← this, hd]
      · intro i h1 h2
        simp only [Bool.false_eq_true, if_false, Nat.add_zero] at h2
        have hnot : ¬ (i + 1 = y + (n + if false = true then 1 else 0) ∧
            ∃ r, t0[y]? = some r ∧ rowDone r = true) := by
          rintro ⟨_, r, hr, hd'⟩
          rw [hget] at hr
          rw [← Option.some.inj hr, hdone] at hd'
          exact absurd hd' (by simp)
        by_cases hiy : i = y
        · subst hiy; exact Or.inr ⟨hnot, hat⟩
        · exact Or.inr ⟨hnot, hmid i (by omega) h2⟩
    · refine ⟨hwf'', hbb, by simp, ?_, ?_⟩
      · simp only [if_true, Bool.not_true, Bool.false_eq_true, if_false]
        rw [List.drop_set_of_lt _ _ (by omega), List.drop_set_of_lt _ _ (by omega)]
        have : y + (n + 1) = y + 1 + n := by omega
        rw [this, hd]
      · intro i h1 h2
        simp only [if_true] at h2
        by_cases hiy : i = y
        · subst hiy
          exact Or.inr ⟨fun h => by simp only [if_true] at h; omega, hat⟩
        · by_cases hin : i = y + n
          · subst hin
            refine Or.inl ⟨by simp only [if_true]; omega, t0[y], hget, hdone, ?_⟩
            rw [List.getElem?_set_ne (by omega), List.getElem?_set_self (by omega)]
          · exact Or.inr ⟨fun h => by simp only [if_true] at h; omega,
              hmid i (by omega) (by omega)⟩

/-- The loop of `popCompletedRows` on a well-formed grid completes; it counts
the completed rows of the grid, leaves the surviving rows at the bottom in
their order, and blanks the rows above them, except that the last of these
holds the top row of the grid when that row was completed. -/
theorem popLoop_spec {t0 : Grid} {w h : Int} (hwf : GridWF t0 w h) :
    ∃ t', popLoop t0 w h = some (t', (completedRows t0 : Int)) ∧
      GridWF t' w h ∧
      t'.drop (completedRows t0) = t0.filter (fun r => !rowDone r) ∧
      ∀ i, i < completedRows t0 →
        (i + 1 = completedRows t0 ∧
          ∃ r, t0[0]? = some r ∧ rowDone r = true ∧ t'[i]? = some r) ∨
        (¬ (i + 1 = completedRows t0 ∧ ∃ r, t0[0]? = some r ∧ rowDone r = true) ∧
          t'[i]? = some (blankRow w)) := by
  have hlen := hwf.2.2.1
  have key := foldlM_range_reverse_inv (popStep w) (PopInv t0 w h) h.toNat (t0, 0)
    (by
      refine ⟨hwf, fun _ _ => rfl, ?_, ?_, ?_⟩
      · simp [← hlen]
      · simp [← hlen]
      · intro i h1 h2
        simp [← hlen] at h2
        omega)
    (fun i s hi hinv => popStep_spec hwf i (by omega) s hinv)
  obtain ⟨⟨t', c⟩, hrun, hwf', _, hc, hd, he⟩ := key
  simp only [List.drop_zero, Nat.zero_add] at hc hd he
  subst hc
  exact ⟨t', hrun, hwf', hd, fun i hi => he i (Nat.zero_le i) hi⟩

/-- When the top row of the grid is not completed, the loop of
`popCompletedRows` yields as many blank rows as there were completed rows,
followed by the surviving rows in their order. -/
theorem popLoop_clean {t0 : Grid} {w h : Int} (hwf : GridWF t0 w h)
    (htop : ∀ r, t0[0]? = some r → rowDone r = false) :
    popLoop t0 w h =
      some (List.replicate (completedRows t0) (blankRow w) ++
          t0.filter (fun r => !rowDone r),
        (completedRows t0 : Int)) := by
  obtain ⟨t', hrun, hwf', hd, he⟩ := popLoop_spec hwf
  rw [hrun]
  congr 2
  have hk : completedRows t0 ≤ t'.length := by
    rw [hwf'.2.2.1, ← hwf.2.2.1]
    exact List.countP_le_length rowDone
  have htake : t'.take (completedRows t0) = List.replicate (completedRows t0) (blankRow w) := by
    apply List.ext_getElem?
    intro i
    by_cases hi : i < completedRows t0
    · rw [List.getElem?_take_of_lt hi, List.getElem?_replicate, if_pos hi]
      rcases he i hi with ⟨_, r, hr, hdone, _⟩ | ⟨_, h1⟩
      · rw [htop r hr] at hdone
        exact absurd hdone (by simp)
      · exact h1
    · rw [List.getElem?_eq_none (by simp; omega), List.getElem?_eq_none (by simp; omega)]
  rw [← List.take_append_drop (completedRows t0) t', htake, hd]

/-- On a well-formed board `popCompletedRows` completes and, when a handler
is set, calls `OnCompleted` once, with the number of completed rows. -/
theorem popCompletedRows_spec {b : Board} (hwf : b.WF) :
    ∃ t', popLoop b.tiles b.width b.height = some (t', (completedRows b.tiles : Int)) ∧
      GridWF t' b.width b.height ∧
      popCompletedRows b =
        some { b with
          tiles := t'
          reported :=
            if b.hasHandler then b.reported ++ [(completedRows b.tiles : Int)]
            else b.reported } := by
  obtain ⟨t', hrun, hwf', _, _⟩ := popLoop_spec hwf
  refine ⟨t', hrun, hwf', ?_⟩
  unfold popCompletedRows
  rw [hrun]
  rfl

/-- When the top row of the grid is completed, the loop of `popCompletedRows`
leaves a copy of it in the grid, just above the surviving rows. -/
theorem popLoop_top_row_kept {t0 : Grid} {w h : Int} (hwf : GridWF t0 w h) (r : List Tile)
    (htop : t0[0]? = some r) (hdone : rowDone r = true) :
    ∃ t', popLoop t0 w h = some (t', (completedRows t0 : Int)) ∧
      0 < completedRows t0 ∧ t'[completedRows t0 - 1]? = some r := by
  obtain ⟨t', hrun, _, _, he⟩ := popLoop_spec hwf
  have hpos : 0 < completedRows t0 := by
    cases t0 with
    | nil => simp at htop
    | cons a l =>
      simp only [List.getElem?_cons_zero, Option.some.injEq] at htop
      subst htop
      simp [completedRows, List.countP_cons, hdone]
  refine ⟨t', hrun, hpos, ?_⟩
  rcases he (completedRows t0 - 1) (by omega) with ⟨_, r', hr', _, hget⟩ | ⟨hnot, _⟩
  · rw [htop] at hr'
    rw [Option.some.inj hr']
    exact hget
  · exact absurd ⟨by omega, r, htop, hdone⟩ hnot

theorem overlaps_iff_not_fits (b : Board) : Overlaps b ↔ ¬ Fits b b.current := by
  unfold Overlaps Fits
  push_neg
  constructor
  · rintro ⟨i, j, h1, h2⟩
    refine ⟨i, j, h1, fun hin => ?_⟩
    rcases h2 with h2 | h2
    · exact absurd hin h2
    · exact h2
  · rintro ⟨i, j, h1, h2⟩
    refine ⟨i, j, h1, ?_⟩
    by_cases hin : InGrid b.width b.height (b.currentY + i) (b.currentX + j)
    · exact Or.inr (h2 hin)
    · exact Or.inl hin

theorem isOverlapGround_eq_decide {b : Board} (hwf : b.WF) :
    isOverlapGround b = some (decide (Overlaps b)) := by
  by_cases h : Overlaps b
  · rw [decide_eq_true h]
    exact (isOverlapGround_true_iff hwf).mpr ((overlaps_iff_not_fits b).mp h)
  · rw [decide_eq_false h]
    exact (isOverlapGround_false_iff hwf).mpr
      (not_not.mp (fun hf => h ((overlaps_iff_not_fits b).mpr hf)))

theorem isTouchGround_eq_decide {b : Board} (hwf : b.WF) :
    isTouchGround b = some (decide (Resting b)) := by
  rw [isTouchGround_eq hwf]
  congr 1
  rw [Bool.eq_iff_iff, cells_any_iff]
  simp only [overlapAt, touchAt, Bool.or_eq_true, Bool.and_eq_true, decide_eq_true_eq,
    Bool.not_eq_true', decide_eq_false_iff_not, Resting]
  constructor
  · rintro ⟨i, j, h⟩
    refine ⟨i, j, ?_⟩
    rcases h with ⟨h1, h2 | h2⟩ | ⟨h1, h2 | h2⟩
    · exact ⟨h1, Or.inl h2⟩
    · exact ⟨h1, Or.inr (Or.inl h2)⟩
    · exact ⟨h1, Or.inr (Or.inr (Or.inl h2))⟩
    · exact ⟨h1, Or.inr (Or.inr (Or.inr h2))⟩
  · rintro ⟨i, j, h1, h2⟩
    refine ⟨i, j, ?_⟩
    rcases h2 with h2 | h2 | h2 | h2
    · exact Or.inl ⟨h1, Or.inl h2⟩
    · exact Or.inl ⟨h1, Or.inr h2⟩
    · exact Or.inr ⟨h1, Or.inl h2⟩
    · exact Or.inr ⟨h1, Or.inr h2⟩

/-! ## The seeded random piece source -/

theorem shapes_getElem?_mod (v : Nat) :
    ∃ t, t ∈ shapes ∧ shapes[v % 5]? = some t := by
  have h : v % 5 < shapes.length := by
    have := Nat.mod_lt v (show 0 < 5 by decide)
    simpa [shapes] using this
  exact ⟨shapes[v % 5], List.getElem_mem _, List.getElem?_eq_getElem h⟩

theorem RandomGetter.Next_eq (r : RandomGetter) (h : r.tetrominos = shapes) :
    r.Next = (shapes[r.randomizer r.calls % 5]?).map
      (fun t => (t, { r with calls := r.calls + 1 })) := by
  obtain ⟨t, _, ht⟩ := shapes_getElem?_mod (r.randomizer r.calls)
  have hlen : (r.tetrominos.length : Int) = 5 := by rw [h]; rfl
  have hmod : ((r.randomizer r.calls : Nat) : Int).tmod (r.tetrominos.length : Int) =
      ((r.randomizer r.calls % 5 : Nat) : Int) := by
    rw [hlen]
    exact (Int.ofNat_tmod _ 5).symm
  unfold RandomGetter.Next
  simp only [hmod]
  rw [if_neg (by omega), Int.toNat_ofNat, h, ht]
  rfl

theorem RandomGetter.nth_eq (r : RandomGetter) (h : r.tetrominos = shapes) (n : Nat) :
    r.nth n = shapes[r.randomizer (r.calls + n) % 5]? := by
  induction n generalizing r with
  | zero =>
    obtain ⟨t, _, ht⟩ := shapes_getElem?_mod (r.randomizer r.calls)
    simp [RandomGetter.nth, RandomGetter.Next_eq r h, ht]
  | succ n ih =>
    obtain ⟨t, _, ht⟩ := shapes_getElem?_mod (r.randomizer r.calls)
    simp only [RandomGetter.nth, RandomGetter.Next_eq r h, ht, Option.map_some',
      Option.some_bind]
    rw [ih { r with calls := r.calls + 1 } h]
    simp only [Nat.add_assoc, Nat.add_comm 1 n]

theorem randomSource_eq (rng : Rng) (seed : Int) (n : Nat) :
    randomSource rng seed n = shapes[rng seed n % 5]? := by
  unfold randomSource
  rw [RandomGetter.nth_eq _ rfl]
  simp [NewRandomGetter]

/-! ## Rendering -/

theorem copyFrameRow_spec {f t : Grid} {w h : Int} (hwf : GridWF f w h) (hwt : GridWF t w h)
    (y : Nat) (hy : (y : Int) < h) :
    ∃ f', (List.range w.toNat).foldlM
        (fun f (x : Nat) => do
          let v ← getTile t y x
          setTile f y x v) f = some f' ∧
      GridWF f' w h ∧
      ∀ y' x' : Int, InGrid w h y' x' →
        tileAt f' y' x' = if y' = y then tileAt t y x' else tileAt f y' x' := by
  have key := foldlM_range_inv
    (fun f (x : Nat) => do
      let v ← getTile t y x
      setTile f y x v)
    (fun k f' => GridWF f' w h ∧
      ∀ y' x' : Int, InGrid w h y' x' →
        tileAt f' y' x' = if y' = y ∧ x' < k then tileAt t y x' else tileAt f y' x')
    w.toNat f ⟨hwf, fun y' x' hin => by
      have := hin.2.2.1
      rw [if_neg (by omega)]⟩ ?_
  · obtain ⟨f', hf', hwf', hpt⟩ := key
    refine ⟨f', hf', hwf', fun y' x' hin => ?_⟩
    rw [hpt y' x' hin]
    have := hin.2.2.2
    by_cases h1 : y' = y
    · rw [if_pos ⟨h1, by omega⟩, if_pos h1]
    · rw [if_neg (fun h => h1 h.1), if_neg h1]
  · rintro k f' hk ⟨hwf', hpt⟩
    have hk' : (k : Int) < w := by omega
    have hg : getTile t y k = some (tileAt t y k) :=
      getTile_inGrid hwt (by omega) hy (by omega) hk'
    refine ⟨setAt f' y k (tileAt t y k), ?_, hwf'.setAt _ _ _, fun y' x' hin => ?_⟩
    · simp only [hg, Option.bind_eq_bind, Option.some_bind]
      exact setTile_inGrid hwf' (by omega) hy (by omega) hk' _
    · rw [tileAt_setAt hwf' (by omega) hy (by omega) hk' _ hin.1 hin.2.2.1, hpt y' x' hin]
      have hcast : ((k + 1 : Nat) : Int) = (k : Int) + 1 := by omega
      rw [hcast]
      by_cases h1 : y' = y
      · by_cases h2 : x' = k
        · rw [if_pos ⟨h1, h2⟩, if_pos ⟨h1, by omega⟩, h2]
        · rw [if_neg (fun h => h2 h.2)]
          by_cases h3 : x' < k
          · rw [if_pos ⟨h1, h3⟩, if_pos ⟨h1, by omega⟩]
          · rw [if_neg (fun h => h3 h.2), if_neg (fun h => by omega)]
      · rw [if_neg (fun h => h1 h.1), if_neg (fun h => h1 h.1), if_neg (fun h => h1 h.1)]

theorem copyFrame_spec {f t : Grid} {w h : Int} (hwf : GridWF f w h) (hwt : GridWF t w h) :
    ∃ f', copyFrame f t w h = some f' ∧ GridWF f' w h ∧
      ∀ y' x' : Int, InGrid w h y' x' → tileAt f' y' x' = tileAt t y' x' := by
  have key := foldlM_range_inv
    (fun f (y : Nat) =>
      (List.range w.toNat).foldlM
        (fun f (x : Nat) => do
          let v ← getTile t y x
          setTile f y x v)
        f)
    (fun k f' => GridWF f' w h ∧
      ∀ y' x' : Int, InGrid w h y' x' →
        tileAt f' y' x' = if y' < k then tileAt t y' x' else tileAt f y' x')
    h.toNat f ⟨hwf, fun y' x' hin => by
      have := hin.1
      rw [if_neg (by omega)]⟩ ?_
  · obtain ⟨f', hf', hwf', hpt⟩ := key
    refine ⟨f', by unfold copyFrame; exact hf', hwf', fun y' x' hin => ?_⟩
    rw [hpt y' x' hin]
    have := hin.2.1
    rw [if_pos (by omega)]
  · rintro k f' hk ⟨hwf', hpt⟩
    obtain ⟨f'', hf'', hwf'', hpt''⟩ := copyFrameRow_spec hwf' hwt k (by omega)
    refine ⟨f'', hf'', hwf'', fun y' x' hin => ?_⟩
    rw [hpt'' y' x' hin]
    have hcast : ((k + 1 : Nat) : Int) = (k : Int) + 1 := by omega
    rw [hcast]
    by_cases h1 : y' = k
    · rw [if_pos h1, if_pos (show y' < (k : Int) + 1 by omega), h1]
    · rw [if_neg h1, hpt y' x' hin]
      by_cases h2 : y' < k
      · rw [if_pos h2, if_pos (show y' < (k : Int) + 1 by omega)]
      · rw [if_neg h2, if_neg (show ¬ y' < (k : Int) + 1 by omega)]

theorem overlay_loop {b : Board} {f1 : Grid} (hwf : GridWF f1 b.width b.height) :
    ∃ f, cells.foldlM
        (fun f c =>
          let frameX := b.currentX + c.2
          let frameY := b.currentY + c.1
          if b.current c.1 c.2 = 1 ∧ frameX ≥ 0 ∧ frameX < b.width ∧ frameY ≥ 0 ∧
              frameY < b.height then
            setTile f frameY frameX TileTetromino
          else pure f)
        f1 = some f ∧
      GridWF f b.width b.height ∧
      ∀ y x : Int, InGrid b.width b.height y x →
        (Occupies b y x → tileAt f y x = TileTetromino) ∧
        (¬ Occupies b y x → tileAt f y x = tileAt f1 y x) := by
  have key := foldlM_list_inv
    (fun f c =>
      let frameX := b.currentX + c.2
      let frameY := b.currentY + c.1
      if b.current c.1 c.2 = 1 ∧ frameX ≥ 0 ∧ frameX < b.width ∧ frameY ≥ 0 ∧
          frameY < b.height then
        setTile f frameY frameX TileTetromino
      else pure f)
    cells
    (fun pre f => GridWF f b.width b.height ∧
      ∀ y x : Int, InGrid b.width b.height y x →
        ((∃ c ∈ pre, b.current c.1 c.2 = 1 ∧ b.currentY + c.1 = y ∧ b.currentX + c.2 = x) →
          tileAt f y x = TileTetromino) ∧
        ((¬ ∃ c ∈ pre, b.current c.1 c.2 = 1 ∧ b.currentY + c.1 = y ∧ b.currentX + c.2 = x) →
          tileAt f y x = tileAt f1 y x))
    f1 ⟨hwf, fun y x _ => ⟨fun h => by simp at h, fun _ => rfl⟩⟩ ?_
  · obtain ⟨f, hf, hwf', hpt⟩ := key
    refine ⟨f, hf, hwf', fun y x hin => ?_⟩
    have hiff : (∃ c ∈ cells, b.current c.1 c.2 = 1 ∧ b.currentY + c.1 = y ∧
        b.currentX + c.2 = x) ↔ Occupies b y x := by
      constructor
      · rintro ⟨⟨i, j⟩, _, h⟩; exact ⟨i, j, h⟩
      · rintro ⟨i, j, h⟩; exact ⟨(i, j), mem_cells _, h⟩
    rw [← hiff]
    exact hpt y x hin
  · rintro pre c f _ ⟨hwf', hpt⟩
    have hiff : ∀ y x : Int, ¬ (b.current c.1 c.2 = 1 ∧ b.currentY + c.1 = y ∧
        b.currentX + c.2 = x) →
        ((∃ c' ∈ pre ++ [c], b.current c'.1 c'.2 = 1 ∧ b.currentY + c'.1 = y ∧
          b.currentX + c'.2 = x) ↔
        (∃ c' ∈ pre, b.current c'.1 c'.2 = 1 ∧ b.currentY + c'.1 = y ∧
          b.currentX + c'.2 = x)) := by
      intro y x hne
      constructor
      · rintro ⟨c', hmem, h⟩
        rcases List.mem_append.mp hmem with hm | hm
        · exact ⟨c', hm, h⟩
        · rw [List.mem_singleton] at hm
          subst hm
          exact absurd h hne
      · rintro ⟨c', hmem, h⟩
        exact ⟨c', List.mem_append.mpr (Or.inl hmem), h⟩
    by_cases hg : b.current c.1 c.2 = 1 ∧ b.currentX + c.2 ≥ 0 ∧ b.currentX + c.2 < b.width ∧
        b.currentY + c.1 ≥ 0 ∧ b.currentY + c.1 < b.height
    · obtain ⟨hocc, hx0, hx, hy0, hy⟩ := hg
      refine ⟨setAt f (b.currentY + c.1) (b.currentX + c.2) TileTetromino, ?_,
        hwf'.setAt _ _ _, fun y x hin => ?_⟩
      · simp only [hocc, hx0, hx, hy0, hy, and_self, if_true]
        exact setTile_inGrid hwf' hy0 hy hx0 hx _
      · rw [tileAt_setAt hwf' hy0 hy hx0 hx _ hin.1 hin.2.2.1]
        by_cases hhere : y = b.currentY + c.1 ∧ x = b.currentX + c.2
        · rw [if_pos hhere]
          exact ⟨fun _ => rfl,
            fun hno => absurd ⟨c, by simp, hocc, hhere.1.symm, hhere.2.symm⟩ hno⟩
        · rw [if_neg hhere, hiff y x (fun h => hhere ⟨h.2.1.symm, h.2.2.symm⟩)]
          exact hpt y x hin
    · refine ⟨f, by simp only [hg, if_false]; rfl, hwf', fun y x hin => ?_⟩
      rw [hiff y x (fun h => hg ⟨h.1, by
        obtain ⟨h1, h2, h3, h4⟩ := hin
        rw [h.2.1, h.2.2]
        exact ⟨h3, h4, h1, h2⟩⟩)]
      exact hpt y x hin

/-! ## Construction and the match coordinator -/

theorem NewBoard_eq_initialBoard (s : Nat → Option Tetromino) (w h : Int) (hw : 10 ≤ w)
    (hh : 10 ≤ h) (hasHandler : Bool) (c1 c2 : Tetromino) (h1 : s 0 = some c1)
    (h2 : s 1 = some c2) :
    NewBoard w h s hasHandler = some (initialBoard w h s hasHandler c1 c2) := by
  have hsize : ¬ (w < 10 ∨ h < 10) := by omega
  simp [NewBoard, hsize, h1, h2, initialBoard]

theorem randomSource_some (rng : Rng) (seed : Int) (n : Nat) :
    ∃ t, t ∈ shapes ∧ randomSource rng seed n = some t := by
  obtain ⟨t, ht, hget⟩ := shapes_getElem?_mod (rng seed n)
  exact ⟨t, ht, by rw [randomSource_eq, hget]⟩

theorem NewBoard_randomSource (rng : Rng) (seed : Int) :
    ∃ b, NewBoard 10 24 (randomSource rng seed) true = some b := by
  obtain ⟨c1, _, h1⟩ := randomSource_some rng seed 0
  obtain ⟨c2, _, h2⟩ := randomSource_some rng seed 1
  exact ⟨_, NewBoard_eq_initialBoard _ 10 24 (by decide) (by decide) true c1 c2 h1 h2⟩

/-- `initGame` completes: it builds both boards from two results of the
generator of the room, marks the room started, sends one message to each
player and launches the loops. -/
theorem initGame_eq (r : Room) :
    ∃ b1 b2,
      NewBoard 10 24 (randomSource r.rng (r.randomizer r.randomCalls)) true = some b1 ∧
      NewBoard 10 24 (randomSource r.rng (r.randomizer (r.randomCalls + 1))) true = some b2 ∧
      initGame r = some { r with
        randomCalls := r.randomCalls + 2
        board1 := some b1
        board2 := some b2
        isStarted := true
        sent := r.sent ++
          [(r.player1.ID, Message.InitGame {
              Seed := StringMap.set (StringMap.set [] r.player1.ID
                (r.randomizer r.randomCalls : Int)) r.player2.ID
                (r.randomizer (r.randomCalls + 1) : Int)
              FPS := 24
              Width := 10
              Height := 24 }),
           (r.player2.ID, Message.InitGame {
              Seed := StringMap.set (StringMap.set [] r.player1.ID
                (r.randomizer r.randomCalls : Int)) r.player2.ID
                (r.randomizer (r.randomCalls + 1) : Int)
              FPS := 24
              Width := 10
              Height := 24 })]
        launched := r.launched ++ [24] } := by
  obtain ⟨b1, hb1⟩ := NewBoard_randomSource r.rng (r.randomizer r.randomCalls)
  obtain ⟨b2, hb2⟩ := NewBoard_randomSource r.rng (r.randomizer (r.randomCalls + 1))
  refine ⟨b1, b2, hb1, hb2, ?_⟩
  unfold initGame
  simp only [hb1, hb2, Option.bind_eq_bind, Option.some_bind, Option.pure_def]

theorem StringMap.set_two (a b : String) (x y : Int) (hab : a ≠ b) :
    StringMap.set (StringMap.set ([] : StringMap Int) a x) b y = [(a, x), (b, y)] := by
  simp [StringMap.set, hab]

/-! ## The hard drop -/

theorem rotateTetromino_four (t : Tetromino) :
    rotateTetromino (rotateTetromino (rotateTetromino (rotateTetromino t))) = t := by
  funext i j
  fin_cases i <;> fin_cases j <;> rfl

theorem rotateTetromino_iterate_mod (t : Tetromino) (k : Nat) :
    rotateTetromino^[k] t = rotateTetromino^[k % 4] t := by
  induction k using Nat.strong_induction_on with
  | _ k ih =>
    by_cases hk : k < 4
    · rw [Nat.mod_eq_of_lt hk]
    · have h4 : k = (k - 4) + 4 := by omega
      have hmod : k % 4 = (k - 4) % 4 := by omega
      rw [hmod, ← ih (k - 4) (by omega)]
      conv_lhs => rw [h4, Function.iterate_add_apply]
      congr 1
      exact rotateTetromino_four t

theorem shape_rotations_wellformed (s : Tetromino) (hs : s ∈ shapes) (k : Nat) (hk : k < 4) :
    ColumnsContiguous (rotateTetromino^[k] s) ∧ NonEmptyMask (rotateTetromino^[k] s) := by
  simp only [shapes, List.mem_cons, List.mem_singleton, List.not_mem_nil, or_false] at hs
  interval_cases k <;> rcases hs with rfl | rfl | rfl | rfl | rfl <;>
    exact ⟨by decide, by decide⟩

theorem IsShape.wellformed {m : Tetromino} (h : IsShape m) :
    ColumnsContiguous m ∧ NonEmptyMask m := by
  obtain ⟨s, hs, k, rfl⟩ := h
  rw [rotateTetromino_iterate_mod]
  exact shape_rotations_wellformed s hs (k % 4) (Nat.mod_lt _ (by decide))

theorem column_cases (m : Tetromino) (j : Fin 4) :
    (∀ i : Fin 4, m i j ≠ 1) ∨ ∃ i : Fin 4, LowestCell m i j := by
  by_cases h3 : m 3 j = 1
  · exact Or.inr ⟨3, h3, fun i' hi => absurd hi (by omega)⟩
  · by_cases h2 : m 2 j = 1
    · refine Or.inr ⟨2, h2, fun i' hi => ?_⟩
      have : i' = 3 := by omega
      rw [this]; exact h3
    · by_cases h1 : m 1 j = 1
      · refine Or.inr ⟨1, h1, fun i' hi => ?_⟩
        have : i' = 2 ∨ i' = 3 := by omega
        rcases this with rfl | rfl
        · exact h2
        · exact h3
      · by_cases h0 : m 0 j = 1
        · refine Or.inr ⟨0, h0, fun i' hi => ?_⟩
          have : i' = 1 ∨ i' = 2 ∨ i' = 3 := by omega
          rcases this with rfl | rfl | rfl
          · exact h1
          · exact h2
          · exact h3
        · refine Or.inl fun i => ?_
          fin_cases i
          · exact h0
          · exact h1
          · exact h2
          · exact h3

theorem currentTetrominoBottomY_empty (b : Board) (j : Fin 4)
    (h : ∀ i : Fin 4, b.current i j ≠ 1) : currentTetrominoBottomY b j = 0 := by
  simp [currentTetrominoBottomY, idx4, h]

theorem currentTetrominoBottomY_lowest (b : Board) (i j : Fin 4)
    (h : LowestCell b.current i j) : currentTetrominoBottomY b j = b.currentY + i := by
  obtain ⟨hocc, hlow⟩ := h
  fin_cases i
  · have h1 := hlow 1 (by decide)
    have h2 := hlow 2 (by decide)
    have h3 := hlow 3 (by decide)
    simp at hocc
    simp [currentTetrominoBottomY, idx4, hocc, h1, h2, h3]
  · have h2 := hlow 2 (by decide)
    have h3 := hlow 3 (by decide)
    simp at hocc
    simp [currentTetrominoBottomY, idx4, hocc, h2, h3]
  · have h3 := hlow 3 (by decide)
    simp at hocc
    simp [currentTetrominoBottomY, idx4, hocc, h3]
  · simp at hocc
    simp [currentTetrominoBottomY, idx4, hocc]
    rfl

theorem find_lowest_empty (m : Tetromino) (j : Fin 4) (h : ∀ i : Fin 4, m i j ≠ 1) :
    ([3, 2, 1, 0] : List (Fin 4)).find? (fun y => decide (m y j = 1)) = none := by
  simp [h]

theorem find_lowest (m : Tetromino) (i j : Fin 4) (h : LowestCell m i j) :
    ([3, 2, 1, 0] : List (Fin 4)).find? (fun y => decide (m y j = 1)) = some i := by
  obtain ⟨hocc, hlow⟩ := h
  fin_cases i
  · have h1 := hlow 1 (by decide)
    have h2 := hlow 2 (by decide)
    have h3 := hlow 3 (by decide)
    simp at hocc
    simp [List.find?, hocc, h1, h2, h3]
  · have h2 := hlow 2 (by decide)
    have h3 := hlow 3 (by decide)
    simp at hocc
    simp [List.find?, hocc, h2, h3]
  · have h3 := hlow 3 (by decide)
    simp at hocc
    simp [List.find?, hocc, h3]
  · simp at hocc
    simp [List.find?, hocc]

/-- The scan of a column of a well-formed grid from row `y` completes and
finds the nearest obstruction at or below row `y`. -/
theorem scanGround_spec {t : Grid} {w h : Int} (hwf : GridWF t w h) (col : Int)
    (hc0 : 0 ≤ col) (hc : col < w) (n : Nat) (y : Int) (hy0 : 0 ≤ y) (hyn : y + n = h) :
    ∃ g, scanGround t col h n y = some g ∧ y ≤ g ∧ g ≤ h ∧
      (g = h ∨ tileAt t g col ≠ TileEmpty) ∧
      ∀ r : Int, y ≤ r → r < g → tileAt t r col = TileEmpty := by
  induction n generalizing y with
  | zero =>
    refine ⟨h, rfl, by omega, le_refl _, Or.inl rfl, fun r h1 h2 => ?_⟩
    simp at hyn
    omega
  | succ n ih =>
    have hy : y < h := by push_cast at hyn; omega
    unfold scanGround
    rw [getTile_inGrid hwf hy0 hy hc0 hc]
    simp only [Option.bind_eq_bind, Option.some_bind, Option.pure_def]
    by_cases hv : tileAt t y col ≠ TileEmpty
    · rw [if_pos hv]
      exact ⟨y, rfl, le_refl _, le_of_lt hy, Or.inr hv, fun r h1 h2 => by omega⟩
    · rw [if_neg hv]
      obtain ⟨g, hg, h1, h2, h3, h4⟩ := ih (y + 1) (by omega) (by push_cast at hyn; omega)
      refine ⟨g, hg, by omega, h2, h3, fun r hr1 hr2 => ?_⟩
      by_cases hry : r = y
      · rw [hry]; exact not_not.mp hv
      · exact h4 r (by omega) hr2

/-- The third loop of `applySmash` computes a minimum: the result is at most
the start value and at most the term of every column that has an occupied
cell, and it is the start value or one of these terms. -/
theorem foldl_min_spec (low : Fin 4 → Option (Fin 4)) (term : Fin 4 → Fin 4 → Int)
    (l : List (Fin 4)) (s : Int) :
    l.foldl (fun step x =>
        match low x with
        | some y => minInt step (term x y)
        | none => step) s ≤ s ∧
    (∀ x ∈ l, ∀ y, low x = some y →
      l.foldl (fun step x =>
        match low x with
        | some y => minInt step (term x y)
        | none => step) s ≤ term x y) ∧
    (l.foldl (fun step x =>
        match low x with
        | some y => minInt step (term x y)
        | none => step) s = s ∨
      ∃ x ∈ l, ∃ y, low x = some y ∧
        l.foldl (fun step x =>
          match low x with
          | some y => minInt step (term x y)
          | none => step) s = term x y) := by
  induction l generalizing s with
  | nil => exact ⟨le_refl _, fun x hx => by simp at hx, Or.inl rfl⟩
  | cons a l ih =>
    simp only [List.foldl_cons]
    cases hlow : low a with
    | none =>
      obtain ⟨h1, h2, h3⟩ := ih s
      refine ⟨h1, fun x hx y hy => ?_, ?_⟩
      · rcases List.mem_cons.mp hx with rfl | hx'
        · rw [hlow] at hy; exact absurd hy (by simp)
        · exact h2 x hx' y hy
      · rcases h3 with h3 | ⟨x, hx, y, hy, h3⟩
        · exact Or.inl h3
        · exact Or.inr ⟨x, List.mem_cons_of_mem _ hx, y, hy, h3⟩
    | some ya =>
      obtain ⟨h1, h2, h3⟩ := ih (minInt s (term a ya))
      have hmin1 : minInt s (term a ya) ≤ s := by unfold minInt; split_ifs <;> omega
      have hmin2 : minInt s (term a ya) ≤ term a ya := by unfold minInt; split_ifs <;> omega
      have hmin3 : minInt s (term a ya) = s ∨ minInt s (term a ya) = term a ya := by
        unfold minInt; split_ifs
        · exact Or.inl rfl
        · exact Or.inr rfl
      refine ⟨le_trans h1 hmin1, fun x hx y hy => ?_, ?_⟩
      · rcases List.mem_cons.mp hx with rfl | hx'
        · rw [hlow] at hy
          rw [← Option.some.inj hy]
          exact le_trans h1 hmin2
        · exact h2 x hx' y hy
      · rcases h3 with h3 | ⟨x, hx, y, hy, h3⟩
        · rcases hmin3 with h4 | h4
          · exact Or.inl (by rw [h3, h4])
          · exact Or.inr ⟨a, List.mem_cons_self _ _, ya, hlow, by rw [h3, h4]⟩
        · exact Or.inr ⟨x, List.mem_cons_of_mem _ hx, y, hy, h3⟩

theorem lowestCell_unique {m : Tetromino} {i i' j : Fin 4} (h : LowestCell m i j)
    (h' : LowestCell m i' j) : i = i' := by
  rcases lt_trichotomy i i' with hlt | heq | hgt
  · exact absurd h'.1 (h.2 i' hlt)
  · exact heq
  · exact absurd h.1 (h'.2 i hgt)

theorem obstructionRow_unique {b : Board} {i j : Fin 4} {r r' : Int}
    (h : ObstructionRow b i j r) (h' : ObstructionRow b i j r') : r = r' := by
  obtain ⟨h1, h2, h3, h4⟩ := h
  obtain ⟨h1', h2', h3', h4'⟩ := h'
  rcases lt_trichotomy r r' with hlt | heq | hgt
  · rcases h3 with h3 | h3
    · omega
    · exact absurd (h4' r h1 hlt) h3
  · exact heq
  · rcases h3' with h3' | h3'
    · omega
    · exact absurd (h4 r' h1' hgt) h3'

/-- The second loop of `applySmash` completes on every column; on a column
that holds a cell of a piece that fits, it finds the nearest obstruction
below the lowest occupied cell, which lies strictly below that cell. -/
theorem groundY_spec {b : Board} (hwf : b.WF) (hfit : Fits b b.current) (j : Fin 4) :
    ∃ g, groundY b j = some g ∧
      ∀ i, LowestCell b.current i j → ObstructionRow b i j g ∧ b.currentY + i < g := by
  rcases column_cases b.current j with hempty | ⟨i, hlow⟩
  · unfold groundY
    rw [currentTetrominoBottomY_empty b j hempty]
    by_cases hout : b.currentX + j ≥ b.width ∨ b.currentX + j < 0
    · rw [if_pos hout]
      exact ⟨-1, rfl, fun i hi => absurd hi.1 (hempty i)⟩
    · rw [if_neg hout]
      obtain ⟨g, hg, _⟩ := scanGround_spec hwf (b.currentX + j) (by omega) (by omega)
        (b.height - 0).toNat 0 (le_refl _) (by have := hwf.2.1; omega)
      exact ⟨g, hg, fun i hi => absurd hi.1 (hempty i)⟩
  · obtain ⟨⟨hy0, hy, hx0, hx⟩, htile⟩ := hfit i j hlow.1
    unfold groundY
    rw [currentTetrominoBottomY_lowest b i j hlow, if_neg (by omega)]
    obtain ⟨g, hg, h1, h2, h3, h4⟩ := scanGround_spec hwf (b.currentX + j) hx0 hx
      (b.height - (b.currentY + i)).toNat (b.currentY + i) hy0 (by omega)
    refine ⟨g, hg, fun i' hi' => ?_⟩
    rw [← lowestCell_unique hlow hi']
    refine ⟨⟨h1, h2, h3, h4⟩, ?_⟩
    rcases h3 with h3 | h3
    · omega
    · rcases lt_or_eq_of_le h1 with hlt | heq
      · exact hlt
      · rw [← heq] at h3
        exact absurd htile h3

/-- The first part of `applySmash` on a piece that fits, has contiguous
columns and is not empty: the piece is moved down by the least, over the
columns it occupies, of the distances to the nearest obstruction; down to
there it fits, and there it rests. -/
theorem smashDrop_spec {b : Board} (hwf : b.WF) (hfit : Fits b b.current)
    (hcont : ColumnsContiguous b.current) (hne : NonEmptyMask b.current) :
    ∃ d : Int, 0 ≤ d ∧ smashDrop b = some (b.moveDown d) ∧
      (∀ i j r, LowestCell b.current i j → ObstructionRow b i j r →
        d ≤ r - (b.currentY + i) - 1) ∧
      (∃ i j r, LowestCell b.current i j ∧ ObstructionRow b i j r ∧
        d = r - (b.currentY + i) - 1) ∧
      (∀ d' : Int, 0 ≤ d' → d' ≤ d → Fits (b.moveDown d') b.current) ∧
      Resting (b.moveDown d) ∧
      ¬ Fits (b.moveDown (d + 1)) b.current := by
  choose G hG hobs using fun j => groundY_spec hwf hfit j
  have hGfun : (![G 0, G 1, G 2, G 3] : Fin 4 → Int) = G := by
    funext j; fin_cases j <;> rfl
  have hdrop : smashDrop b = some (b.moveDown (stepToGround b G)) := by
    unfold smashDrop
    simp only [hG, Option.bind_eq_bind, Option.some_bind, Option.pure_def, hGfun]
    rfl
  have hfold := foldl_min_spec
    (fun x => ([3, 2, 1, 0] : List (Fin 4)).find? (fun y => decide (b.current y x = 1)))
    (fun x y => G x - (b.currentY + y) - 1) idx4 b.height
  obtain ⟨_, hterms0, hatt0⟩ := hfold
  have hterms : ∀ x ∈ idx4, ∀ y,
      ([3, 2, 1, 0] : List (Fin 4)).find? (fun y => decide (b.current y x = 1)) = some y →
      stepToGround b G ≤ G x - (b.currentY + y) - 1 := hterms0
  have hatt : stepToGround b G = b.height ∨ ∃ x ∈ idx4, ∃ y,
      ([3, 2, 1, 0] : List (Fin 4)).find? (fun y => decide (b.current y x = 1)) = some y ∧
      stepToGround b G = G x - (b.currentY + y) - 1 := hatt0
  have hmem : ∀ x : Fin 4, x ∈ idx4 := by decide
  -- every lowest cell bounds the distance
  have hbound : ∀ i j, LowestCell b.current i j →
      stepToGround b G ≤ G j - (b.currentY + i) - 1 :=
    fun i j hlow => hterms j (hmem j) i (find_lowest b.current i j hlow)
  -- the distance is attained on some column
  have hattained : ∃ i j, LowestCell b.current i j ∧
      stepToGround b G = G j - (b.currentY + i) - 1 := by
    rcases hatt with hh | ⟨x, _, y, hy, hval⟩
    · obtain ⟨i0, j0, hocc⟩ := hne
      rcases column_cases b.current j0 with hempty | ⟨il, hlow⟩
      · exact absurd hocc (hempty i0)
      · have h1 := hbound il j0 hlow
        have h2 := (hobs j0 il hlow).1.2.1
        have h3 := (hfit il j0 hlow.1).1.1
        omega
    · rcases column_cases b.current x with hempty | ⟨il, hlow⟩
      · rw [find_lowest_empty b.current x hempty] at hy
        exact absurd hy (by simp)
      · rw [find_lowest b.current il x hlow] at hy
        rw [← Option.some.inj hy] at hval
        exact ⟨il, x, hlow, hval⟩
  have hnonneg : 0 ≤ stepToGround b G := by
    obtain ⟨i, j, hlow, hval⟩ := hattained
    have := (hobs j i hlow).2
    omega
  refine ⟨stepToGround b G, hnonneg, hdrop, ?_, ?_, ?_, ?_, ?_⟩
  · intro i j r hlow hr
    rw [obstructionRow_unique hr (hobs j i hlow).1]
    exact hbound i j hlow
  · obtain ⟨i, j, hlow, hval⟩ := hattained
    exact ⟨i, j, G j, hlow, (hobs j i hlow).1, hval⟩
  · intro d' hd0 hd i j hocc
    rcases column_cases b.current j with hempty | ⟨il, hlow⟩
    · exact absurd hocc (hempty i)
    · have hil : i ≤ il := by
        by_contra hcon
        exact absurd hocc (hlow.2 i (not_le.mp hcon))
      have hil' : (i : Nat) ≤ (il : Nat) := hil
      obtain ⟨⟨hy0, hy, hx0, hx⟩, _⟩ := hfit i j hocc
      obtain ⟨⟨_, hg2, _, hg4⟩, hg5⟩ := hobs j il hlow
      have hb := hbound il j hlow
      show InGrid b.width b.height (b.currentY + d' + i) (b.currentX + j) ∧
        tileAt b.tiles (b.currentY + d' + i) (b.currentX + j) = TileEmpty
      refine ⟨⟨by omega, by omega, hx0, hx⟩, ?_⟩
      by_cases hcase : b.currentY + il ≤ b.currentY + d' + i
      · exact hg4 _ hcase (by omega)
      · have hlt : (i : Nat) + d'.toNat < (il : Nat) := by omega
        have hlt4 : (i : Nat) + d'.toNat < 4 := lt_trans hlt il.isLt
        have hocc2 : b.current ⟨(i : Nat) + d'.toNat, hlt4⟩ j = 1 := by
          by_cases hd0' : d'.toNat = 0
          · have : (⟨(i : Nat) + d'.toNat, hlt4⟩ : Fin 4) = i := by
              apply Fin.ext; simp [hd0']
            rw [this]; exact hocc
          · exact hcont j i ⟨(i : Nat) + d'.toNat, hlt4⟩ il
              (by apply Fin.mk_lt_of_lt_val; simp; omega) (by
                show (i : Nat) + d'.toNat < (il : Nat)
                exact hlt) hocc hlow.1
        have := (hfit ⟨(i : Nat) + d'.toNat, hlt4⟩ j hocc2).2
        have heq : b.currentY + ((⟨(i : Nat) + d'.toNat, hlt4⟩ : Fin 4) : Nat) =
            b.currentY + d' + i := by
          push_cast
          omega
        rw [heq] at this
        exact this
  · obtain ⟨i, j, hlow, hval⟩ := hattained
    obtain ⟨⟨_, _, hg3, _⟩, _⟩ := hobs j i hlow
    refine ⟨i, j, hlow.1, ?_⟩
    show ¬ InGrid b.width b.height (b.currentY + stepToGround b G + i) (b.currentX + j) ∨
      tileAt b.tiles (b.currentY + stepToGround b G + i) (b.currentX + j) ≠ TileEmpty ∨
      b.currentY + stepToGround b G + i + 1 ≥ b.height ∨
      tileAt b.tiles (b.currentY + stepToGround b G + i + 1) (b.currentX + j) ≠ TileEmpty
    have heq : b.currentY + stepToGround b G + i + 1 = G j := by omega
    rw [heq]
    rcases hg3 with hg3 | hg3
    · exact Or.inr (Or.inr (Or.inl (by omega)))
    · exact Or.inr (Or.inr (Or.inr hg3))
  · obtain ⟨i, j, hlow, hval⟩ := hattained
    obtain ⟨⟨_, _, hg3, _⟩, _⟩ := hobs j i hlow
    intro hfits
    have := hfits i j hlow.1
    change InGrid b.width b.height (b.currentY + (stepToGround b G + 1) + i)
        (b.currentX + j) ∧
      tileAt b.tiles (b.currentY + (stepToGround b G + 1) + i) (b.currentX + j) =
        TileEmpty at this
    have heq : b.currentY + (stepToGround b G + 1) + i = G j := by omega
    rw [heq] at this
    rcases hg3 with hg3 | hg3
    · have := this.1.2.1
      omega
    · exact hg3 this.2

theorem Board.moveDown_WF {b : Board} (hwf : b.WF) (d : Int) : (b.moveDown d).WF := hwf

theorem not_resting_of_fits {b : Board} (d : Int)
    (h0 : Fits (b.moveDown d) b.current) (h1 : Fits (b.moveDown (d + 1)) b.current) :
    ¬ Resting (b.moveDown d) := by
  rintro ⟨i, j, hocc, hrest⟩
  obtain ⟨hin0, ht0⟩ := h0 i j hocc
  obtain ⟨hin1, ht1⟩ := h1 i j hocc
  change InGrid b.width b.height (b.currentY + d + i) (b.currentX + j) at hin0
  change tileAt b.tiles (b.currentY + d + i) (b.currentX + j) = TileEmpty at ht0
  change InGrid b.width b.height (b.currentY + (d + 1) + i) (b.currentX + j) at hin1
  change tileAt b.tiles (b.currentY + (d + 1) + i) (b.currentX + j) = TileEmpty at ht1
  change ¬ InGrid b.width b.height (b.currentY + d + i) (b.currentX + j) ∨
    tileAt b.tiles (b.currentY + d + i) (b.currentX + j) ≠ TileEmpty ∨
    b.currentY + d + i + 1 ≥ b.height ∨
    tileAt b.tiles (b.currentY + d + i + 1) (b.currentX + j) ≠ TileEmpty at hrest
  have heq : b.currentY + d + i + 1 = b.currentY + (d + 1) + i := by omega
  rw [heq] at hrest
  rcases hrest with h | h | h | h
  · exact h hin0
  · exact h ht0
  · have := hin1.2.1; omega
  · exact h ht1

theorem apply_tick_of_not_resting {b : Board} (hwf : b.WF) (hover : b.isOver = false)
    (hrest : ¬ Resting b) : Apply b Action.ActionTick = some (b.moveDown 1) := by
  have htouch : isTouchGround b = some false := by
    rw [isTouchGround_eq_decide hwf, decide_eq_false hrest]
  have hA : Apply b Action.ActionTick = applyTick b := by simp [Apply, hover]
  rw [hA]
  unfold applyTick
  simp only [htouch, Option.bind_eq_bind, Option.some_bind, Bool.false_eq_true, if_false,
    Option.pure_def, stepDown, Board.moveDown]

/-- While the piece fits one row further down, Tick moves it down: `n` Ticks
move a piece down by `n` rows when it fits at every distance up to `n`. -/
theorem ticks_step_down {b : Board} (hwf : b.WF) (hover : b.isOver = false) (d : Int)
    (hfits : ∀ d' : Int, 0 ≤ d' → d' ≤ d → Fits (b.moveDown d') b.current) (n : Nat)
    (hn : (n : Int) ≤ d) :
    applyAll b (List.replicate n Action.ActionTick) = some (b.moveDown n) := by
  induction n with
  | zero =>
    show some b = some (b.moveDown 0)
    simp [Board.moveDown]
  | succ n ih =>
    have ih' := ih (by push_cast at hn; omega)
    unfold applyAll at ih' ⊢
    rw [List.replicate_succ', List.foldlM_append, ih']
    have hnr : ¬ Resting (b.moveDown n) :=
      not_resting_of_fits (n : Int) (hfits n (by omega) (by push_cast at hn; omega))
        (hfits (n + 1) (by omega) (by push_cast at hn; omega))
    have := apply_tick_of_not_resting (Board.moveDown_WF hwf n) hover hnr
    have harith : b.currentY + (n : Int) + 1 = b.currentY + ((n + 1 : Nat) : Int) := by
      push_cast
      omega
    simp only [List.foldlM_cons, List.foldlM_nil, Option.bind_eq_bind, Option.some_bind]
    rw [this]
    simp only [Option.some_bind, Option.pure_def, Board.moveDown, harith]

/-! ## Rotation -/

theorem rotateTetromino_apply (t : Tetromino) (i j : Fin 4) :
    rotateTetromino t i j = t j (3 - i) := by
  fin_cases i <;> fin_cases j <;> rfl

theorem cells_map_rotatedFrom_perm : (cells.map rotatedFrom).Perm cells := by
  decide

theorem occupiedCells_rotateTetromino (t : Tetromino) :
    occupiedCells (rotateTetromino t) = occupiedCells t := by
  unfold occupiedCells
  have h : (fun c : Fin 4 × Fin 4 => decide (rotateTetromino t c.1 c.2 = 1)) =
      (fun c : Fin 4 × Fin 4 => decide (t c.1 c.2 = 1)) ∘ rotatedFrom := by
    funext c
    simp [rotatedFrom, rotateTetromino_apply]
  rw [h, ← List.countP_map]
  exact cells_map_rotatedFrom_perm.countP_eq _

/-! ## The completion handlers of a room -/

theorem foldlM_const_eq_fillTimes (depth : Nat) (s : Slot) (l : List Nat) (r : Room) :
    l.foldlM (fun r _ => Room.applyTo depth r s Action.ActionFill) r =
      Room.fillTimes depth r s l.length := by
  induction l generalizing r with
  | nil => rfl
  | cons a l ih =>
    simp only [List.foldlM_cons, List.length_cons, Room.fillTimes]
    congr 1
    funext r1
    exact ih r1

theorem Room.onCompleted_eq_fillTimes (depth : Nat) (r : Room) (s : Slot) (k : Nat) :
    Room.onCompleted (fun r s => Room.applyTo depth r s Action.ActionFill) r s k =
      Room.fillTimes depth r s.other k := by
  unfold Room.onCompleted
  rw [foldlM_const_eq_fillTimes]
  simp

/-- The row clearing of a room board with a handler runs the handler once,
with the number of completed rows, on the room that holds the cleared board. -/
theorem Room.popCompletedRows_runs_handler (fillOther : Room → Slot → Except Fault Room)
    (r : Room) (s : Slot) (b : Board) (hwf : b.WF) (hhandler : b.hasHandler = true) :
    ∃ t', popLoop b.tiles b.width b.height = some (t', (completedRows b.tiles : Int)) ∧
      Room.popCompletedRows fillOther r s b =
        Room.onCompleted fillOther
          (r.setBoard s { b with
            tiles := t'
            reported := b.reported ++ [(completedRows b.tiles : Int)] })
          s (completedRows b.tiles) := by
  obtain ⟨t', hrun, _, _⟩ := popCompletedRows_spec hwf
  refine ⟨t', hrun, ?_⟩
  unfold Room.popCompletedRows Room.onCompleted
  simp [hrun, orPanic, hhandler, bind, Except.bind]

/-- `Apply(ActionFill)` on a room board that is over changes nothing; on a
board that is not over and whose piece is not resting it is the `Apply` of the
board engine, and no handler runs. -/
theorem Room.applyTo_fill (depth : Nat) (r : Room) (s : Slot) (b : Board)
    (hb : r.board s = some b) :
    (b.isOver = true → Room.applyTo depth r s Action.ActionFill = Except.ok r) ∧
    (b.isOver = false → b.WF → 0 < b.height → ¬ Resting b →
      ∃ b', Apply b Action.ActionFill = some b' ∧
        Room.applyTo depth r s Action.ActionFill = Except.ok (r.setBoard s b')) := by
  constructor
  · intro hover
    cases depth <;>
      simp [Room.applyTo, Room.applyWith, hb, orPanic, hover, bind, Except.bind, pure,
        Except.pure]
  · intro hover hwf hh hrest
    obtain ⟨t', hraise, _, _⟩ := raiseGround_spec hwf hh
    have htouch : isTouchGround b = some false := by
      rw [isTouchGround_eq_decide hwf, decide_eq_false hrest]
    have hA : Apply b Action.ActionFill = some { b with tiles := t' } := by
      have : Apply b Action.ActionFill = applyFill b := by simp [Apply, hover]
      rw [this]
      unfold applyFill
      simp only [htouch, Option.bind_eq_bind, Option.some_bind, Bool.false_eq_true, if_false,
        hraise]
    refine ⟨_, hA, ?_⟩
    cases depth <;>
      simp [Room.applyTo, Room.applyWith, hb, orPanic, hover, htouch, hraise, bind, Except.bind,
        pure, Except.pure]

/-! ## The placement of the active piece under the moves that do not lock -/

theorem fits_of_not_blockedLeft {b : Board} (hfit : Fits b b.current) (h : ¬ BlockedLeft b) :
    Fits { b with currentX := b.currentX - 1 } b.current := by
  intro i j hocc
  obtain ⟨⟨hy0, hy1, hx0, hx1⟩, _⟩ := hfit i j hocc
  have hb : ¬ (b.currentX + j = 0 ∨
      tileAt b.tiles (b.currentY + i) (b.currentX + j - 1) ≠ TileEmpty) :=
    fun hb => h ⟨i, j, hocc, hb⟩
  have hne : b.currentX + (j : Int) ≠ 0 := fun h0 => hb (Or.inl h0)
  have ht : tileAt b.tiles (b.currentY + i) (b.currentX + j - 1) = TileEmpty :=
    not_not.mp fun h1 => hb (Or.inr h1)
  have harith : b.currentX - 1 + (j : Int) = b.currentX + j - 1 := by ring
  show InGrid b.width b.height (b.currentY + i) (b.currentX - 1 + j) ∧
    tileAt b.tiles (b.currentY + i) (b.currentX - 1 + j) = TileEmpty
  rw [harith]
  exact ⟨⟨hy0, hy1, by omega, by omega⟩, ht⟩

theorem fits_of_not_blockedRight {b : Board} (hfit : Fits b b.current) (h : ¬ BlockedRight b) :
    Fits { b with currentX := b.currentX + 1 } b.current := by
  intro i j hocc
  obtain ⟨⟨hy0, hy1, hx0, hx1⟩, _⟩ := hfit i j hocc
  have hb : ¬ (b.currentX + j = b.width - 1 ∨
      tileAt b.tiles (b.currentY + i) (b.currentX + j + 1) ≠ TileEmpty) :=
    fun hb => h ⟨i, j, hocc, hb⟩
  have hne : b.currentX + (j : Int) ≠ b.width - 1 := fun h0 => hb (Or.inl h0)
  have ht : tileAt b.tiles (b.currentY + i) (b.currentX + j + 1) = TileEmpty :=
    not_not.mp fun h1 => hb (Or.inr h1)
  have harith : b.currentX + 1 + (j : Int) = b.currentX + j + 1 := by ring
  show InGrid b.width b.height (b.currentY + i) (b.currentX + 1 + j) ∧
    tileAt b.tiles (b.currentY + i) (b.currentX + 1 + j) = TileEmpty
  rw [harith]
  exact ⟨⟨hy0, hy1, by omega, by omega⟩, ht⟩

/-- The cells below the cells of a piece that is not resting. -/
theorem below_of_not_resting {b : Board} (hfit : Fits b b.current) (h : ¬ Resting b)
    (i j : Fin 4) (hocc : b.current i j = 1) :
    InGrid b.width b.height (b.currentY + i + 1) (b.currentX + j) ∧
      tileAt b.tiles (b.currentY + i + 1) (b.currentX + j) = TileEmpty := by
  obtain ⟨⟨hy0, hy1, hx0, hx1⟩, _⟩ := hfit i j hocc
  have hb : ¬ (b.currentY + i + 1 ≥ b.height ∨
      tileAt b.tiles (b.currentY + i + 1) (b.currentX + j) ≠ TileEmpty) :=
    fun hb => h ⟨i, j, hocc, Or.inr (Or.inr hb)⟩
  have hlt : ¬ b.currentY + (i : Int) + 1 ≥ b.height := fun h0 => hb (Or.inl h0)
  have ht : tileAt b.tiles (b.currentY + i + 1) (b.currentX + j) = TileEmpty :=
    not_not.mp fun h1 => hb (Or.inr h1)
  exact ⟨⟨by omega, by omega, hx0, hx1⟩, ht⟩

theorem fits_stepDown_of_not_resting {b : Board} (hfit : Fits b b.current) (h : ¬ Resting b) :
    Fits { b with currentY := b.currentY + 1 } b.current := by
  intro i j hocc
  have harith : b.currentY + 1 + (i : Int) = b.currentY + i + 1 := by ring
  show InGrid b.width b.height (b.currentY + 1 + i) (b.currentX + j) ∧
    tileAt b.tiles (b.currentY + 1 + i) (b.currentX + j) = TileEmpty
  rw [harith]
  exact below_of_not_resting hfit h i j hocc

theorem fits_raised_of_not_resting {b : Board} {t' : Grid} (hfit : Fits b b.current)
    (h : ¬ Resting b)
    (hpt : ∀ y' x' : Int, InGrid b.width b.height y' x' →
      (y' < b.height - 1 → tileAt t' y' x' = tileAt b.tiles (y' + 1) x') ∧
      (y' = b.height - 1 → tileAt t' y' x' = TileAdditionalBlock)) :
    Fits { b with tiles := t' } b.current := by
  intro i j hocc
  obtain ⟨hin, _⟩ := hfit i j hocc
  obtain ⟨⟨_, hy1, _, _⟩, ht⟩ := below_of_not_resting hfit h i j hocc
  refine ⟨hin, ?_⟩
  show tileAt t' (b.currentY + i) (b.currentX + j) = TileEmpty
  rw [(hpt _ _ hin).1 (by omega)]
  exact ht

theorem pieceInGrid_of_fits {b : Board} (hfit : Fits b b.current) : PieceInGrid b :=
  fun i j hocc => (hfit i j hocc).1

/-! ## The periodic loops -/

theorem gameLoopStep_fails_without_board (depth : Nat) (r : Room)
    (ht : r.gameTicker = Ticker.running) (hb : r.board1 = none) :
    gameLoopStep depth r = Except.error Fault.panic := by
  unfold gameLoopStep
  rw [if_pos ht]
  cases depth <;>
    simp [Room.applyTo, Room.applyWith, Room.board, hb, orPanic, bind, Except.bind]

theorem gameLoop_fails_of_loopState (o : Option Room) (started b2 : Bool) (u : Ticker)
    (h : o.map Room.loopState = some (started, false, b2, u, Ticker.running)) (depth : Nat) :
    o.map (fun r => faultOf (gameLoopStep depth r)) = some (some Fault.panic) := by
  cases o with
  | none => simp at h
  | some r =>
    simp only [Option.map_some', Option.some.injEq, Room.loopState, Prod.mk.injEq] at h
    obtain ⟨_, hb1, _, _, ht⟩ := h
    have hb : r.board1 = none := by
      cases hb : r.board1 with
      | none => rfl
      | some b => rw [hb] at hb1; simp at hb1
    simp only [Option.map_some', gameLoopStep_fails_without_board depth r ht hb]
    rfl

/-! ## Joins and leaves -/

theorem RoomInv_NewRoom (rng : Rng) (seed : Int) : RoomInv (NewRoom rng seed) := by
  refine ⟨fun h => absurd rfl h, fun h => absurd rfl h.1, fun _ => ⟨rfl, rfl, rfl⟩⟩

theorem RoomInv_call (r : Room) (hinv : RoomInv r) (c : RoomCall) :
    ∃ r', r.call c = some r' ∧ RoomInv r' := by
  obtain ⟨h21, hboth, hnot⟩ := hinv
  cases c with
  | join player =>
    unfold Room.call OnPlayerJoin
    by_cases hbad : player.ID = "" ∨ player.Name = ""
    · exact ⟨r, by simp [hbad], h21, hboth, hnot⟩
    · have hid : player.ID ≠ "" := fun h => hbad (Or.inl h)
      by_cases h1 : r.player1.ID = ""
      · have h2 : r.player2.ID = "" := by
          by_contra h2
          exact h21 h2 h1
        have hn := hnot (fun h => h.1 h1)
        exact ⟨{ r with player1 := player }, by simp [hbad, h1], fun _ => hid,
          fun h => absurd h2 h.2, fun _ => hn⟩
      · by_cases h2 : r.player2.ID = ""
        · obtain ⟨b1, b2, _, _, hinit⟩ := initGame_eq { r with player2 := player }
          obtain ⟨r1, hr1, hs, hb1, hb2, hp1, hp2⟩ :
              ∃ r1, initGame { r with player2 := player } = some r1 ∧ r1.isStarted = true ∧
                r1.board1 ≠ none ∧ r1.board2 ≠ none ∧ r1.player1 = r.player1 ∧
                r1.player2 = player :=
            ⟨_, hinit, rfl, by simp, by simp, rfl, rfl⟩
          have hocc1 : Occupied r1.player1 := by rw [hp1]; exact h1
          have hocc2 : Occupied r1.player2 := by rw [hp2]; exact hid
          exact ⟨r1, by simp [hbad, h1, h2, hr1], fun _ => hocc1, fun _ => ⟨hs, hb1, hb2⟩,
            fun h => absurd ⟨hocc1, hocc2⟩ h⟩
        · exact ⟨r, by simp [hbad, h1, h2], h21, hboth, hnot⟩
  | leave player =>
    have hempty : ¬ Occupied ({ ID := "", Name := "" } : Player) := fun h => h rfl
    refine ⟨(OnPlayerLeave r player).1, rfl, ?_⟩
    unfold OnPlayerLeave
    by_cases h1 : r.player1 = player
    · rw [if_pos h1]
      exact ⟨fun h => absurd h hempty, fun h => absurd h.2 hempty, fun _ => ⟨rfl, rfl, rfl⟩⟩
    · by_cases h2 : r.player2 = player
      · rw [if_neg h1, if_pos h2]
        exact ⟨fun h => absurd h hempty, fun h => absurd h.2 hempty, fun _ => ⟨rfl, rfl, rfl⟩⟩
      · rw [if_neg h1, if_neg h2]
        exact ⟨h21, hboth, hnot⟩

theorem RoomInv_calls (r : Room) (hinv : RoomInv r) (cs : List RoomCall) :
    ∃ r', r.calls cs = some r' ∧ RoomInv r' := by
  induction cs generalizing r with
  | nil => exact ⟨r, rfl, hinv⟩
  | cons c cs ih =>
    obtain ⟨r1, hr1, hinv1⟩ := RoomInv_call r hinv c
    obtain ⟨r', hr', hinv'⟩ := ih r1 hinv1
    refine ⟨r', ?_, hinv'⟩
    unfold Room.calls at hr' ⊢
    rw [List.foldlM_cons, hr1]
    exact hr'

/-! ## The top row and the row clearing -/

/-- A top row that holds a tile other than NormalBlock is not completed. -/
theorem top_row_open_of_tile {t : Grid} {w h : Int} (hwf : GridWF t w h) {x : Int}
    (hx0 : 0 ≤ x) (hx : x < w) (hne : tileAt t 0 x ≠ TileNormalBlock) :
    ∀ r, t[0]? = some r → rowDone r = false := by
  intro r hr
  obtain ⟨hlen, hget⟩ := List.getElem?_eq_some_iff.mp hr
  have hrow : r.length = w.toNat := by
    rw [← hget]
    exact hwf.row_length hlen
  have hxr : x.toNat < (t[0]).length := by
    rw [hget, hrow]
    omega
  have htile : tileAt t 0 x = (t[0])[x.toNat] := by
    have h := tileAt_eq_getElem (t := t) (i := 0) (j := x.toNat) hlen hxr
    have hcast : ((x.toNat : Nat) : Int) = x := Int.toNat_of_nonneg hx0
    rw [hcast] at h
    exact h
  by_contra hdone
  have hall : rowDone r = true := by
    cases hd : rowDone r with
    | true => rfl
    | false => exact absurd hd hdone
  unfold rowDone at hall
  rw [List.all_eq_true] at hall
  have hmem : (t[0])[x.toNat] ∈ r := by
    rw [← hget]
    exact List.getElem_mem _
  have := hall _ hmem
  rw [decide_eq_true_eq] at this
  exact hne (htile.trans this)

/-! ## Tick on a resting piece -/

/-- `Apply(Tick)` on a resting piece, step by step: on a board that is not
over whose active piece is resting and lies inside the grid (the grid having
the configured size, the piece source not dry), `Apply(Tick)` completes: it
writes NormalBlock at exactly the occupied cells of the piece (grid `tl`), runs
the row-clearing loop on the result (when the top row of `tl` is not completed,
the new grid is one blank row for each completed row of `tl`, followed by the
other rows of `tl` in their order), makes the former next piece the active
piece at offset `(width / 2 - 1, 0)`, draws one piece from the source as the
new next piece, and sets the game-over flag if and only if the new active piece
has an occupied cell outside the grid or on a non-Empty tile. -/
theorem applyTick_resting_steps (b : Board) (hwf : b.WF) (hover : b.isOver = false)
    (hrest : Resting b) (hin : PieceInGrid b) (n : Tetromino)
    (hsrc : b.source b.drawn = some n) :
    ∃ tl b',
      fillTilesWithCurrentTetromino b = some { b with tiles := tl } ∧
      (∀ y x : Int, 0 ≤ y → 0 ≤ x →
        (Occupies b y x → tileAt tl y x = TileNormalBlock) ∧
        (¬ Occupies b y x → tileAt tl y x = tileAt b.tiles y x)) ∧
      Apply b Action.ActionTick = some b' ∧
      popLoop tl b.width b.height = some (b'.tiles, (completedRows tl : Int)) ∧
      ((∀ r, tl[0]? = some r → rowDone r = false) →
        b'.tiles = List.replicate (completedRows tl) (blankRow b.width) ++
          tl.filter (fun r => !rowDone r)) ∧
      b'.reported =
        (if b.hasHandler then b.reported ++ [(completedRows tl : Int)] else b.reported) ∧
      b'.current = b.next ∧ b'.currentX = b.width.tdiv 2 - 1 ∧ b'.currentY = 0 ∧
      b'.next = n ∧ b'.drawn = b.drawn + 1 ∧
      (b'.isOver = true ↔ Overlaps b') ∧
      b'.width = b.width ∧ b'.height = b.height ∧ b'.source = b.source ∧
      b'.hasHandler = b.hasHandler := by
  obtain ⟨tl, hfill, hwfl, hpt⟩ := fillTilesWithCurrentTetromino_spec hwf hin
  have hwf1 : ({ b with tiles := tl } : Board).WF := hwfl
  obtain ⟨t', hrun, hwf', hpop⟩ := popCompletedRows_spec hwf1
  have htouch : isTouchGround b = some true := by
    rw [isTouchGround_eq_decide hwf, decide_eq_true hrest]
  have hA : Apply b Action.ActionTick = applyTick b := by simp [Apply, hover]
  have hwf3 : ({ b with
      tiles := t'
      reported := if b.hasHandler then b.reported ++ [(completedRows tl : Int)] else b.reported
      current := b.next
      next := n
      drawn := b.drawn + 1
      currentY := 0
      currentX := b.width.tdiv 2 - 1 } : Board).WF := hwf'
  have hog := isOverlapGround_eq_decide hwf3
  have hclean : (∀ r, tl[0]? = some r → rowDone r = false) →
      t' = List.replicate (completedRows tl) (blankRow b.width) ++
        tl.filter (fun r => !rowDone r) := by
    intro htop
    have h := popLoop_clean hwfl htop
    rw [hrun] at h
    exact (Prod.mk.inj (Option.some.inj h)).1
  by_cases hov : Overlaps ({ b with
      tiles := t'
      reported := if b.hasHandler then b.reported ++ [(completedRows tl : Int)] else b.reported
      current := b.next
      next := n
      drawn := b.drawn + 1
      currentY := 0
      currentX := b.width.tdiv 2 - 1 } : Board)
  · refine ⟨tl, { b with
      tiles := t'
      reported := if b.hasHandler then b.reported ++ [(completedRows tl : Int)] else b.reported
      current := b.next
      next := n
      drawn := b.drawn + 1
      currentY := 0
      currentX := b.width.tdiv 2 - 1
      isOver := true }, hfill, hpt, ?_, hrun, hclean, rfl, rfl, rfl, rfl, rfl, rfl,
      ⟨fun _ => hov, fun _ => rfl⟩, rfl, rfl, rfl, rfl⟩
    rw [decide_eq_true hov] at hog
    rw [hA]
    unfold applyTick
    simp only [htouch, hfill, hpop, Option.bind_eq_bind, Option.some_bind, if_true,
      setupNextTetromino, hsrc, Option.pure_def, hog]
  · refine ⟨tl, { b with
      tiles := t'
      reported := if b.hasHandler then b.reported ++ [(completedRows tl : Int)] else b.reported
      current := b.next
      next := n
      drawn := b.drawn + 1
      currentY := 0
      currentX := b.width.tdiv 2 - 1 }, hfill, hpt, ?_, hrun, hclean, rfl, rfl, rfl, rfl, rfl, rfl,
      ⟨fun h => ?_, fun h => absurd h hov⟩, rfl, rfl, rfl, rfl⟩
    · rw [decide_eq_false hov] at hog
      rw [hA]
      unfold applyTick
      simp only [htouch, hfill, hpop, Option.bind_eq_bind, Option.some_bind, if_true,
        setupNextTetromino, hsrc, Option.pure_def, hog, Bool.false_eq_true, if_false]
    · simp only [hover] at h
      exact absurd h (by simp)

theorem applyTick_resting_steps_landedBoard :
    landedBoard.WF ∧ landedBoard.isOver = false ∧ Resting landedBoard ∧
    PieceInGrid landedBoard ∧ landedBoard.source landedBoard.drawn = some TetrominoI ∧
    ∃ b', Apply landedBoard Action.ActionTick = some b' ∧
      b'.current = landedBoard.next ∧ b'.next = TetrominoI ∧
      b'.currentX = 4 ∧ b'.currentY = 0 ∧ (b'.isOver = true ↔ Overlaps b') := by
  refine ⟨by decide, rfl, by decide, by decide, rfl, ?_⟩
  obtain ⟨_, b', _, _, h1, _, _, _, h2, h3, h4, h5, _, h6, _⟩ :=
    applyTick_resting_steps landedBoard (by decide) rfl (by decide) (by decide) TetrominoI rfl
  exact ⟨b', h1, h2, h5, h3, h4, h6⟩

/-! ## The claims -/

/-- C1 fails on the code: on the 10 x 10 board that `NewBoard` builds from a
source of I pieces, two `Apply(Smash)` calls complete and leave a board that
is not over; in the third call the piece is moved to offset row -1 and the
call fails, locking the piece at grid row -1. -/
theorem apply_smash_third_call_fails :
    ((NewBoard 10 10 sourceI true).bind fun b =>
        applyAll b [Action.ActionSmash, Action.ActionSmash]).map
      (fun b => b.isOver) = some false ∧
    (((NewBoard 10 10 sourceI true).bind fun b =>
        applyAll b [Action.ActionSmash, Action.ActionSmash]).bind smashDrop).map
      (fun b => b.currentY) = some (-1) ∧
    ((NewBoard 10 10 sourceI true).bind fun b =>
        applyAll b [Action.ActionSmash, Action.ActionSmash, Action.ActionSmash]).isSome
      = false := by
  decide

/-- C2 fails on the code: on the 10 x 10 board whose top row alone is
completed, `popCompletedRows` reports one row and leaves the grid as it was,
the top row still completed; and the 41 actions of `fillTopRows`, applied to
the board that `NewBoard` builds from a source of I pieces, end in a lock that
reports four rows and leaves a completed row at row 3. -/
theorem popCompletedRows_keeps_completed_top_row :
    (popCompletedRows topRowBoard).map (fun b => (b.tiles, b.reported)) =
      some (topRowBoard.tiles, [1]) ∧
    rowDone (topRowBoard.tiles.getD 0 []) = true ∧
    ((NewBoard 10 10 sourceI true).bind fun b => applyAll b fillTopRows).map
      (fun b => (b.tiles, b.reported.getLast?)) =
      some (List.replicate 3 (List.replicate 10 TileEmpty) ++
          [List.replicate 10 TileNormalBlock] ++
          List.replicate 6 (List.replicate 10 TileAdditionalBlock),
        some 4) := by
  decide

/-- C4 fails on the code: on the 10 x 10 board that `NewBoard` builds from a
source of pieces I, I, O, T, .., three `Apply(Smash)` calls complete and leave
a board that is not over; the fourth call completes as well, after it has
moved the T piece to offset `(4, -1)`, where the piece occupies the cell in
row 0, column 5, a tile that held a NormalBlock before the call. -/
theorem apply_smash_locks_on_block :
    ((NewBoard 10 10 sourceIIOT true).bind fun b =>
        applyAll b [Action.ActionSmash, Action.ActionSmash, Action.ActionSmash]).map
      (fun b => (b.isOver, tileAt b.tiles 0 5, (Apply b Action.ActionSmash).isSome)) =
      some (false, TileNormalBlock, true) ∧
    (((NewBoard 10 10 sourceIIOT true).bind fun b =>
        applyAll b [Action.ActionSmash, Action.ActionSmash, Action.ActionSmash]).bind
        smashDrop).map
      (fun b => (b.currentX, b.currentY, decide (Occupies b 0 5))) = some (4, -1, true) := by
  decide

/-- C5 fails on the code: on the 10 x 10 board that `NewBoard` builds from a
source of I pieces, after two `Apply(Smash)` calls the freshly spawned piece
overlaps locked blocks and the game-over flag is not set. -/
theorem apply_smash_skips_game_over_check :
    ((NewBoard 10 10 sourceI true).bind fun b =>
        applyAll b [Action.ActionSmash, Action.ActionSmash]).map
      (fun b => (decide (Overlaps b), b.isOver)) = some (true, false) := by
  decide

/-- C6 fails on the code: on `lastColumnBoard`, the board reached by 40 `Apply`
calls from the board that `NewBoard` builds from a source of I pieces, which
is not over and whose I piece is resting inside the grid, the lock of
`Apply(Tick)` completes rows 0 to 3; `Apply(Tick)` reports four rows and
blanks rows 0 to 2 only: row 3 of the grid it leaves is still completed. -/
theorem apply_tick_keeps_completed_top_row :
    lastColumnBoard.map
        (fun b => (decide b.WF, b.isOver, decide (Resting b), decide (PieceInGrid b),
          (b.source b.drawn).isSome)) =
      some (true, false, true, true, true) ∧
    (lastColumnBoard.bind fillTilesWithCurrentTetromino).map
        (fun b => completedRows b.tiles) = some 4 ∧
    (lastColumnBoard.bind fun b => Apply b Action.ActionTick).map
        (fun b => (b.tiles, b.reported.getLast?, completedRows b.tiles)) =
      some (List.replicate 3 (List.replicate 10 TileEmpty) ++
          [List.replicate 10 TileNormalBlock] ++
          List.replicate 6 (List.replicate 10 TileAdditionalBlock),
        some 4, 1) := by
  refine ⟨by decide, by decide, by decide⟩

/-- C7 fails as stated: on `stackedBoard`, which is not over and whose O piece
rests on the floor, `Apply(Fill)` and the order of the specification (lock,
clear, then raise) yield different grids: the tile in row 0, column 0 is Empty
after `Apply(Fill)` and NormalBlock in the order of the specification. -/
theorem applyFill_resting_order_counterexample :
    stackedBoard.WF ∧ stackedBoard.isOver = false ∧ Resting stackedBoard ∧
    PieceInGrid stackedBoard ∧
    (Apply stackedBoard Action.ActionFill).map (fun b => tileAt b.tiles 0 0) =
      some TileEmpty ∧
    (specFillResting stackedBoard).map (fun b => tileAt b.tiles 0 0) =
      some TileNormalBlock ∧
    ¬ ((Apply stackedBoard Action.ActionFill).map (fun b => b.tiles) =
      (specFillResting stackedBoard).map (fun b => b.tiles)) := by
  decide

/-- C3: on a board with a completion handler (its grid having the configured
size) `popCompletedRows` completes and calls the handler exactly once, with
the number of rows that consisted entirely of NormalBlock tiles before the
clearing; a row that holds an AdditionalBlock tile is not counted; the
single-player handler then adds `k * (k + 1)` to the score for the reported
`k`, that is 2, 6, 12, 20 for `k = 1, 2, 3, 4`. -/
theorem popCompletedRows_reports_completed (b : Board) (hwf : b.WF)
    (hhandler : b.hasHandler = true) :
    ∃ b', popCompletedRows b = some b' ∧
      b'.reported = b.reported ++ [(completedRows b.tiles : Int)] ∧
      (∀ r ∈ b.tiles, TileAdditionalBlock ∈ r → rowDone r = false) ∧
      (∀ score : Int, scoreAfter score b'.reported =
        scoreAfter score b.reported + completedRows b.tiles * (completedRows b.tiles + 1)) ∧
      (∀ score : Int, scoreOnCompleted score 1 = score + 2 ∧
        scoreOnCompleted score 2 = score + 6 ∧ scoreOnCompleted score 3 = score + 12 ∧
        scoreOnCompleted score 4 = score + 20) := by
  obtain ⟨t', _, _, hpop⟩ := popCompletedRows_spec hwf
  refine ⟨_, hpop, by simp [hhandler], ?_, ?_, ?_⟩
  · intro r _ hr
    unfold rowDone
    rw [List.all_eq_false]
    exact ⟨TileAdditionalBlock, hr, by decide⟩
  · intro score
    simp [hhandler, scoreAfter, List.foldl_append, scoreOnCompleted]
  · intro score
    simp [scoreOnCompleted]

theorem popCompletedRows_reports_completed_witness :
    topRowBoard.WF ∧ topRowBoard.hasHandler = true ∧
    ∃ b', popCompletedRows topRowBoard = some b' ∧
      b'.reported = topRowBoard.reported ++ [(completedRows topRowBoard.tiles : Int)] ∧
      (∀ r ∈ topRowBoard.tiles, TileAdditionalBlock ∈ r → rowDone r = false) ∧
      (∀ score : Int, scoreAfter score b'.reported =
        scoreAfter score topRowBoard.reported +
          completedRows topRowBoard.tiles * (completedRows topRowBoard.tiles + 1)) ∧
      (∀ score : Int, scoreOnCompleted score 1 = score + 2 ∧
        scoreOnCompleted score 2 = score + 6 ∧ scoreOnCompleted score 3 = score + 12 ∧
        scoreOnCompleted score 4 = score + 20) :=
  ⟨by decide, rfl, popCompletedRows_reports_completed topRowBoard (by decide) rfl⟩

/-- C7, as the code has it: on a board that is not over whose active piece is
resting and lies inside the grid (the grid having the configured size, the
piece source not dry), and in which some column `x` has, in row 1, a tile
other than NormalBlock that no occupied cell of the piece covers (so that the
top row is not completed once the rows are shifted up; on a grid of a single
row any column will do), `Apply(Fill)` completes, and its grid and the row
count it reports are those obtained by first locking the piece (grid `tl`),
then shifting every row up by one, the top row being discarded, and writing a
full bottom row of AdditionalBlock tiles (grid `tr`), and only then clearing
the completed rows: the new grid is one blank row for each completed row of
`tr`, followed by the other rows of `tr` in their order, and the count is the
number of completed rows of `tr`. -/
theorem applyFill_resting_spec (b : Board) (hwf : b.WF) (hover : b.isOver = false)
    (hrest : Resting b) (hin : PieceInGrid b) (n : Tetromino)
    (hsrc : b.source b.drawn = some n)
    (htop : ∃ x : Int, 0 ≤ x ∧ x < b.width ∧
      (1 < b.height → tileAt b.tiles 1 x ≠ TileNormalBlock ∧ ¬ Occupies b 1 x)) :
    ∃ tl tr b',
      fillTilesWithCurrentTetromino b = some { b with tiles := tl } ∧
      GridWF tl b.width b.height ∧
      (∀ y x : Int, 0 ≤ y → 0 ≤ x →
        (Occupies b y x → tileAt tl y x = TileNormalBlock) ∧
        (¬ Occupies b y x → tileAt tl y x = tileAt b.tiles y x)) ∧
      (∀ y x : Int, InGrid b.width b.height y x →
        (y < b.height - 1 → tileAt tr y x = tileAt tl (y + 1) x) ∧
        (y = b.height - 1 → tileAt tr y x = TileAdditionalBlock)) ∧
      GridWF tr b.width b.height ∧
      Apply b Action.ActionFill = some b' ∧
      b'.tiles = List.replicate (completedRows tr) (blankRow b.width) ++
        tr.filter (fun r => !rowDone r) ∧
      b'.reported =
        (if b.hasHandler then b.reported ++ [(completedRows tr : Int)] else b.reported) := by
  obtain ⟨tl, hfill, hwfl, hpt⟩ := fillTilesWithCurrentTetromino_spec hwf hin
  have hwf1 : ({ b with tiles := tl } : Board).WF := hwfl
  have hh : 0 < b.height := by
    obtain ⟨i, j, hocc, _⟩ := hrest
    have := hin i j hocc
    unfold InGrid at this
    omega
  obtain ⟨tr, hraise, hwfr, hptr⟩ := raiseGround_spec hwf1 hh
  have hwf2 : ({ b with tiles := tr } : Board).WF := hwfr
  obtain ⟨t', hrun, hwf', hpop⟩ := popCompletedRows_spec hwf2
  have htouch : isTouchGround b = some true := by
    rw [isTouchGround_eq_decide hwf, decide_eq_true hrest]
  have hA : Apply b Action.ActionFill = applyFill b := by simp [Apply, hover]
  have hwf3 : ({ b with
      tiles := t'
      reported := if b.hasHandler then b.reported ++ [(completedRows tr : Int)] else b.reported
      current := b.next
      next := n
      drawn := b.drawn + 1
      currentY := 0
      currentX := b.width.tdiv 2 - 1 } : Board).WF := hwf'
  have hog := isOverlapGround_eq_decide hwf3
  have hrun' : Apply b Action.ActionFill =
      some (if Overlaps ({ b with
          tiles := t'
          reported :=
            if b.hasHandler then b.reported ++ [(completedRows tr : Int)] else b.reported
          current := b.next
          next := n
          drawn := b.drawn + 1
          currentY := 0
          currentX := b.width.tdiv 2 - 1 } : Board) then
        { b with
          tiles := t'
          reported :=
            if b.hasHandler then b.reported ++ [(completedRows tr : Int)] else b.reported
          current := b.next
          next := n
          drawn := b.drawn + 1
          currentY := 0
          currentX := b.width.tdiv 2 - 1
          isOver := true }
      else
        { b with
          tiles := t'
          reported :=
            if b.hasHandler then b.reported ++ [(completedRows tr : Int)] else b.reported
          current := b.next
          next := n
          drawn := b.drawn + 1
          currentY := 0
          currentX := b.width.tdiv 2 - 1 }) := by
    rw [hA]
    unfold applyFill
    simp only [htouch, hfill, hraise, hpop, Option.bind_eq_bind, Option.some_bind, if_true,
      setupNextTetromino, hsrc, Option.pure_def, hog]
    split_ifs <;> simp_all
  have hopen : ∀ r, tr[0]? = some r → rowDone r = false := by
    obtain ⟨x, hx0, hx, hrow⟩ := htop
    have hcell : InGrid b.width b.height 0 x := ⟨le_refl 0, hh, hx0, hx⟩
    refine top_row_open_of_tile hwfr hx0 hx ?_
    by_cases h1 : 1 < b.height
    · obtain ⟨hne, hocc⟩ := hrow h1
      have hup : tileAt tr 0 x = tileAt tl (0 + 1) x :=
        (hptr 0 x hcell).1 (show (0 : Int) < b.height - 1 by omega)
      rw [hup, zero_add, (hpt 1 x (by omega) hx0).2 hocc]
      exact hne
    · have hlast : tileAt tr 0 x = TileAdditionalBlock :=
        (hptr 0 x hcell).2 (show (0 : Int) = b.height - 1 by omega)
      rw [hlast]
      decide
  have hclean : t' = List.replicate (completedRows tr) (blankRow b.width) ++
      tr.filter (fun r => !rowDone r) := by
    have h := popLoop_clean hwfr hopen
    rw [hrun] at h
    exact (Prod.mk.inj (Option.some.inj h)).1
  refine ⟨tl, tr, _, hfill, hwfl, hpt, hptr, hwfr, hrun', ?_, ?_⟩
  · split_ifs <;> exact hclean
  · split_ifs <;> rfl

theorem applyFill_resting_spec_witness :
    landedBoard.WF ∧ landedBoard.isOver = false ∧ Resting landedBoard ∧
    PieceInGrid landedBoard ∧ landedBoard.source landedBoard.drawn = some TetrominoI ∧
    (1 < landedBoard.height →
      tileAt landedBoard.tiles 1 0 ≠ TileNormalBlock ∧ ¬ Occupies landedBoard 1 0) ∧
    ∃ tr b', Apply landedBoard Action.ActionFill = some b' ∧
      b'.tiles = List.replicate (completedRows tr) (blankRow landedBoard.width) ++
        tr.filter (fun r => !rowDone r) ∧
      b'.reported = landedBoard.reported ++ [(completedRows tr : Int)] := by
  refine ⟨by decide, rfl, by decide, by decide, rfl, by decide, ?_⟩
  obtain ⟨_, tr, b', _, _, _, _, _, h1, h2, h3⟩ :=
    applyFill_resting_spec landedBoard (by decide) rfl (by decide) (by decide) TetrominoI rfl
      ⟨0, by decide, by decide, by decide⟩
  exact ⟨tr, b', h1, h2, h3⟩

/-- C8: on a board that is not over whose active piece is not resting (the
grid having the configured size, of positive height), `Apply(Fill)` completes
and changes the grid only: row `y` of the new grid is the previous row `y + 1`
for every `0 <= y < height - 1`, the previous top row being discarded, and the
bottom row is AdditionalBlock throughout; the active mask, the next mask, the
offset and the game-over flag are unchanged, no piece is drawn from the source
and the completion handler is not called. -/
theorem applyFill_not_resting_spec (b : Board) (hwf : b.WF) (hh : 0 < b.height)
    (hover : b.isOver = false) (hrest : ¬ Resting b) :
    ∃ t', Apply b Action.ActionFill = some { b with tiles := t' } ∧
      GridWF t' b.width b.height ∧
      ∀ y x : Int, InGrid b.width b.height y x →
        (y < b.height - 1 → tileAt t' y x = tileAt b.tiles (y + 1) x) ∧
        (y = b.height - 1 → tileAt t' y x = TileAdditionalBlock) := by
  obtain ⟨t', hraise, hwf', hpt⟩ := raiseGround_spec hwf hh
  have htouch : isTouchGround b = some false := by
    rw [isTouchGround_eq_decide hwf, decide_eq_false hrest]
  have hA : Apply b Action.ActionFill = applyFill b := by simp [Apply, hover]
  refine ⟨t', ?_, hwf', hpt⟩
  rw [hA]
  unfold applyFill
  simp only [htouch, Option.bind_eq_bind, Option.some_bind, Bool.false_eq_true, if_false, hraise]

theorem applyFill_not_resting_spec_witness :
    freshBoard.WF ∧ 0 < freshBoard.height ∧ freshBoard.isOver = false ∧ ¬ Resting freshBoard ∧
    ∃ t', Apply freshBoard Action.ActionFill = some { freshBoard with tiles := t' } ∧
      GridWF t' freshBoard.width freshBoard.height ∧
      ∀ y x : Int, InGrid freshBoard.width freshBoard.height y x →
        (y < freshBoard.height - 1 → tileAt t' y x = tileAt freshBoard.tiles (y + 1) x) ∧
        (y = freshBoard.height - 1 → tileAt t' y x = TileAdditionalBlock) :=
  ⟨by decide, by decide, rfl, by decide,
    applyFill_not_resting_spec freshBoard (by decide) (by decide) rfl (by decide)⟩

/-- C9: on a board that is not over (its grid having the configured size),
`Apply(Rotate)` completes; the active mask becomes `rotateTetromino` of the old
mask if the rotated mask, placed at the current offset, has every occupied
cell inside the grid on an Empty tile, and stays the old mask otherwise; every
other field (grid, offset, next piece, game-over flag, piece source) is
unchanged. -/
theorem applyRotate_spec (b : Board) (hwf : b.WF) (hover : b.isOver = false) :
    Apply b Action.ActionRotate =
      some { b with
        current :=
          if Fits b (rotateTetromino b.current) then rotateTetromino b.current
          else b.current } := by
  have hwf1 : ({ b with current := rotateTetromino b.current } : Board).WF := hwf
  have hA : Apply b Action.ActionRotate = applyRotate b := by simp [Apply, hover]
  rw [hA]
  unfold applyRotate
  by_cases hfit : Fits b (rotateTetromino b.current)
  · have h := (isOverlapGround_false_iff hwf1).mpr hfit
    simp [h, hfit]
  · have h := (isOverlapGround_true_iff hwf1).mpr hfit
    simp [h, hfit]

theorem applyRotate_spec_witness :
    freshBoard.WF ∧ freshBoard.isOver = false ∧
    Apply freshBoard Action.ActionRotate =
      some { freshBoard with
        current :=
          if Fits freshBoard (rotateTetromino freshBoard.current) then
            rotateTetromino freshBoard.current
          else freshBoard.current } :=
  ⟨by decide, rfl, applyRotate_spec freshBoard (by decide) rfl⟩

/-- C10: on a board that is not over whose active piece lies inside the grid,
`Apply(GoLeft)` decreases `currentX` by exactly one and changes nothing else
if no occupied cell of the piece is in column 0 or has a non-Empty tile
immediately to its left, and otherwise leaves the whole state unchanged;
`Apply(GoRight)` increases `currentX` by one unless some occupied cell is in
the last column or has a non-Empty tile immediately to its right.  Each side
is decided by its own condition alone. -/
theorem applyGoLeft_applyGoRight_spec (b : Board) (hwf : b.WF) (hover : b.isOver = false)
    (hin : PieceInGrid b) :
    Apply b Action.ActionGoLeft =
        some (if BlockedLeft b then b else { b with currentX := b.currentX - 1 }) ∧
    Apply b Action.ActionGoRight =
        some (if BlockedRight b then b else { b with currentX := b.currentX + 1 }) := by
  have hL : Apply b Action.ActionGoLeft = applyGoLeft b := by simp [Apply, hover]
  have hR : Apply b Action.ActionGoRight = applyGoRight b := by simp [Apply, hover]
  rw [hL, hR]
  unfold applyGoLeft applyGoRight
  rw [isHitWallOrTile_eq hwf hin]
  constructor
  · by_cases h : BlockedLeft b <;> simp [h]
  · by_cases h : BlockedRight b <;> simp [h]

theorem applyGoLeft_applyGoRight_spec_witness :
    freshBoard.WF ∧ freshBoard.isOver = false ∧ PieceInGrid freshBoard ∧
    Apply freshBoard Action.ActionGoLeft =
        some (if BlockedLeft freshBoard then freshBoard
          else { freshBoard with currentX := freshBoard.currentX - 1 }) ∧
    Apply freshBoard Action.ActionGoRight =
        some (if BlockedRight freshBoard then freshBoard
          else { freshBoard with currentX := freshBoard.currentX + 1 }) :=
  ⟨by decide, rfl, by decide, applyGoLeft_applyGoRight_spec freshBoard (by decide) rfl (by decide)⟩

/-- C11: on a board whose game-over flag is set, `Apply` completes for every
action and returns the board as it was: grid, active mask, next mask, offset
and flag are unchanged and no piece is drawn; hence every sequence of `Apply`
calls leaves the board as it was, and a sequence of calls that has reached
such a board stays at it, so the flag, once true, never becomes false. -/
theorem apply_game_over_noop (b : Board) (hover : b.isOver = true) :
    (∀ a : Action, Apply b a = some b) ∧
    (∀ actions : List Action, applyAll b actions = some b) ∧
    (∀ (b0 : Board) (before after : List Action),
      applyAll b0 before = some b → applyAll b0 (before ++ after) = some b) := by
  have h1 : ∀ a : Action, Apply b a = some b := fun a => by simp [Apply, hover]
  have h2 : ∀ actions : List Action, applyAll b actions = some b := by
    intro actions
    induction actions with
    | nil => rfl
    | cons a as ih =>
      unfold applyAll at ih ⊢
      rw [List.foldlM_cons, h1 a]
      exact ih
  refine ⟨h1, h2, fun b0 before after hb => ?_⟩
  unfold applyAll at hb ⊢
  rw [List.foldlM_append, hb]
  exact h2 after

theorem apply_game_over_noop_witness :
    overBoard.isOver = true ∧
    (∀ a : Action, Apply overBoard a = some overBoard) ∧
    (∀ actions : List Action, applyAll overBoard actions = some overBoard) ∧
    (∀ (b0 : Board) (before after : List Action),
      applyAll b0 before = some overBoard →
        applyAll b0 (before ++ after) = some overBoard) :=
  ⟨rfl, apply_game_over_noop overBoard rfl⟩

/-- C16: on a board that is not over whose active piece is not resting (no
occupied cell is outside the grid or on a non-Empty tile, and none has the
floor or a non-Empty tile directly below it; the grid having the configured
size), `Apply(Tick)` completes and increases `currentY` by exactly one; the
grid, the active mask, the next mask, `currentX` and the game-over flag are
unchanged, no piece is drawn and the completion handler is not called. -/
theorem applyTick_not_resting_spec (b : Board) (hwf : b.WF) (hover : b.isOver = false)
    (hrest : ¬ Resting b) :
    Apply b Action.ActionTick = some { b with currentY := b.currentY + 1 } := by
  have htouch : isTouchGround b = some false := by
    rw [isTouchGround_eq_decide hwf, decide_eq_false hrest]
  have hA : Apply b Action.ActionTick = applyTick b := by simp [Apply, hover]
  rw [hA]
  unfold applyTick
  simp only [htouch, Option.bind_eq_bind, Option.some_bind, Bool.false_eq_true, if_false,
    Option.pure_def, stepDown]

theorem applyTick_not_resting_spec_witness :
    freshBoard.WF ∧ freshBoard.isOver = false ∧ ¬ Resting freshBoard ∧
    Apply freshBoard Action.ActionTick =
      some { freshBoard with currentY := freshBoard.currentY + 1 } :=
  ⟨by decide, rfl, by decide, applyTick_not_resting_spec freshBoard (by decide) rfl (by decide)⟩

/-- C18: `NewBoard` with size `w` x `h` (`w, h >= 10`) and a piece source `s`
whose first two pieces are `c1` and `c2` returns a board whose grid has `h`
rows of `w` tiles, all Empty, whose active piece is `c1` and next piece `c2`,
whose offset is `(w / 2 - 1, 0)` with integer division and whose game-over
flag is false; without the size option the board is 10 x 24; a handler option
changes the handler only. -/
theorem NewBoard_spec (defaultSource s : Nat → Option Tetromino) (w h : Int)
    (hw : 10 ≤ w) (hh : 10 ≤ h) (c1 c2 : Tetromino) (h1 : s 0 = some c1)
    (h2 : s 1 = some c2) :
    NewBoardWith defaultSource [BoardOption.WithSize w h, BoardOption.WithGetter s] =
      some (initialBoard w h s false c1 c2) ∧
    NewBoardWith defaultSource [BoardOption.WithGetter s] =
      some (initialBoard 10 24 s false c1 c2) ∧
    NewBoardWith defaultSource
        [BoardOption.WithSize w h, BoardOption.WithGetter s, BoardOption.WithCompleteHandler] =
      some (initialBoard w h s true c1 c2) ∧
    (∀ hasHandler, NewBoard w h s hasHandler = some (initialBoard w h s hasHandler c1 c2)) ∧
    (∀ hasHandler,
      (initialBoard w h s hasHandler c1 c2).WF ∧
      (initialBoard w h s hasHandler c1 c2).tiles.length = h.toNat ∧
      (∀ row ∈ (initialBoard w h s hasHandler c1 c2).tiles,
        row.length = w.toNat ∧ ∀ v ∈ row, v = TileEmpty) ∧
      (initialBoard w h s hasHandler c1 c2).current = c1 ∧
      (initialBoard w h s hasHandler c1 c2).next = c2 ∧
      (initialBoard w h s hasHandler c1 c2).currentX = w.tdiv 2 - 1 ∧
      (initialBoard w h s hasHandler c1 c2).currentY = 0 ∧
      (initialBoard w h s hasHandler c1 c2).isOver = false) := by
  have hsize : ¬ (w < 10 ∨ h < 10) := by omega
  refine ⟨?_, ?_, ?_, ?_, ?_⟩
  · simp [NewBoardWith, BoardOption.run, hsize, h1, h2, initialBoard]
  · simp [NewBoardWith, BoardOption.run, h1, h2, initialBoard]
  · simp [NewBoardWith, BoardOption.run, hsize, h1, h2, initialBoard]
  · intro hasHandler
    simp [NewBoard, hsize, h1, h2, initialBoard]
  · intro hasHandler
    refine ⟨⟨show 0 ≤ w by omega, show 0 ≤ h by omega, by simp [initialBoard], ?_⟩,
      by simp [initialBoard], ?_, rfl, rfl, rfl, rfl, rfl⟩
    · intro r hr
      simp only [initialBoard] at hr
      rw [List.eq_of_mem_replicate hr]
      show (List.replicate w.toNat TileEmpty).length = w.toNat
      simp
    · intro r hr
      simp only [initialBoard] at hr
      rw [List.eq_of_mem_replicate hr]
      exact ⟨by simp, fun v hv => List.eq_of_mem_replicate hv⟩

theorem NewBoard_spec_witness :
    (10 : Int) ≤ 10 ∧ (10 : Int) ≤ 10 ∧ freshBoard.source 0 = some TetrominoT ∧
    freshBoard.source 1 = some TetrominoL ∧
    NewBoard 10 10 freshBoard.source true =
      some (initialBoard 10 10 freshBoard.source true TetrominoT TetrominoL) :=
  ⟨by decide, by decide, rfl, rfl,
    (NewBoard_spec sourceI freshBoard.source 10 10 (by decide) (by decide) TetrominoT
      TetrominoL rfl rfl).2.2.2.1 true⟩

/-- C19: two `RandomGetter` instances built with the same seed return the same
piece on call number `n` of `Next`, for every `n` (so their sequences agree,
in particular on the first 1000 draws), every call completes, and every piece
returned is one of the five canonical shapes T, L, Z, O, I.  The seeded
generator of the Go library is a parameter `rng`. -/
theorem randomGetter_same_seed (rng : Rng) (seed1 seed2 : Int) (hseed : seed1 = seed2)
    (n : Nat) :
    (NewRandomGetter rng seed1).nth n = (NewRandomGetter rng seed2).nth n ∧
    (∃ t, t ∈ shapes ∧ (NewRandomGetter rng seed1).nth n = some t) ∧
    (List.range 1000).map (NewRandomGetter rng seed1).nth =
      (List.range 1000).map (NewRandomGetter rng seed2).nth := by
  subst hseed
  refine ⟨rfl, ?_, rfl⟩
  obtain ⟨t, ht, hget⟩ := shapes_getElem?_mod (rng seed1 n)
  exact ⟨t, ht, by rw [← hget]; exact randomSource_eq rng seed1 n⟩

theorem randomGetter_same_seed_witness :
    (7 : Int) = 7 ∧
    (NewRandomGetter demoRng 7).nth 3 = (NewRandomGetter demoRng 7).nth 3 ∧
    (∃ t, t ∈ shapes ∧ (NewRandomGetter demoRng 7).nth 3 = some t) ∧
    (List.range 1000).map (NewRandomGetter demoRng 7).nth =
      (List.range 1000).map (NewRandomGetter demoRng 7).nth :=
  ⟨rfl, randomGetter_same_seed demoRng 7 7 rfl 3⟩

/-- C17: on a board whose grid and frame have the configured size, `Render`
completes; at every cell `(y, x)` of the grid the returned frame holds
TileTetromino if the active mask has an occupied cell at
`(y - currentY, x - currentX)`, and the tile of the locked grid otherwise; the
locked grid, the pieces, the offset and the game-over flag are unchanged: only
the frame of the board, which is the returned slice, is written. -/
theorem Render_spec (b : Board) (hwf : b.WF)
    (hframe : GridWF b.renderFrame b.width b.height) :
    ∃ f, Render b = some (f, { b with renderFrame := f }) ∧
      GridWF f b.width b.height ∧
      ∀ y x : Int, InGrid b.width b.height y x →
        (Occupies b y x → tileAt f y x = TileTetromino) ∧
        (¬ Occupies b y x → tileAt f y x = tileAt b.tiles y x) := by
  obtain ⟨f1, hf1, hwf1, hpt1⟩ := copyFrame_spec hframe hwf
  obtain ⟨f2, hf2, hwf2, hpt2⟩ := overlay_loop (b := b) hwf1
  refine ⟨f2, ?_, hwf2, fun y x hin => ⟨(hpt2 y x hin).1, fun hno => ?_⟩⟩
  · unfold Render
    rw [hf1]
    simp only [Option.bind_eq_bind, Option.some_bind]
    rw [hf2]
    rfl
  · rw [(hpt2 y x hin).2 hno, hpt1 y x hin]

theorem Render_spec_witness :
    freshBoard.WF ∧ GridWF freshBoard.renderFrame freshBoard.width freshBoard.height ∧
    ∃ f, Render freshBoard = some (f, { freshBoard with renderFrame := f }) ∧
      GridWF f freshBoard.width freshBoard.height ∧
      ∀ y x : Int, InGrid freshBoard.width freshBoard.height y x →
        (Occupies freshBoard y x → tileAt f y x = TileTetromino) ∧
        (¬ Occupies freshBoard y x → tileAt f y x = tileAt freshBoard.tiles y x) :=
  ⟨by decide, by decide, Render_spec freshBoard (by decide) (by decide)⟩

/-- C13: `OnPlayerJoin(player)` completes in every room; it returns an error
if and only if the id or the name of the player is empty or both slots are
occupied (a slot is occupied when the id of its player is not empty), the
error on a full room being the room-full error; on an error the room is
unchanged; otherwise the player is stored in the first empty slot: in slot one
with nothing else changed, or in slot two, and then, and only then, the match
is started by `initGame` (both boards created, the room marked started). -/
theorem OnPlayerJoin_spec (r : Room) (player : Player) :
    ∃ r' err, OnPlayerJoin r player = some (r', err) ∧
      (err ≠ none ↔
        (player.ID = "" ∨ player.Name = "" ∨ (r.player1.ID ≠ "" ∧ r.player2.ID ≠ ""))) ∧
      (err ≠ none → r' = r) ∧
      (player.ID ≠ "" → player.Name ≠ "" → r.player1.ID ≠ "" → r.player2.ID ≠ "" →
        err = some "room already full") ∧
      (err = none → r.player1.ID = "" → r' = { r with player1 := player }) ∧
      (err = none → r.player1.ID ≠ "" →
        initGame { r with player2 := player } = some r' ∧
        r'.player1 = r.player1 ∧ r'.player2 = player ∧ r'.isStarted = true ∧
        r'.board1 ≠ none ∧ r'.board2 ≠ none) := by
  unfold OnPlayerJoin
  by_cases hbad : player.ID = "" ∨ player.Name = ""
  · refine ⟨r, _, by rw [if_pos hbad], ?_, fun _ => rfl, ?_, ?_, ?_⟩
    · simp only [ne_eq, not_false_eq_true, reduceCtorEq, true_iff]
      rcases hbad with h | h
      · exact Or.inl h
      · exact Or.inr (Or.inl h)
    · intro h1 h2
      rcases hbad with h | h
      · exact absurd h h1
      · exact absurd h h2
    · intro h; exact absurd h (by simp)
    · intro h; exact absurd h (by simp)
  · have hid : player.ID ≠ "" := fun h => hbad (Or.inl h)
    have hname : player.Name ≠ "" := fun h => hbad (Or.inr h)
    by_cases h1 : r.player1.ID = ""
    · refine ⟨{ r with player1 := player }, none, by rw [if_neg hbad, if_pos h1], ?_,
        fun h => absurd rfl h, fun _ _ h => absurd h1 h, fun _ _ => rfl,
        fun _ h => absurd h1 h⟩
      simp [hid, hname, h1]
    · by_cases h2 : r.player2.ID = ""
      · obtain ⟨b1, b2, _, _, hinit⟩ := initGame_eq { r with player2 := player }
        refine ⟨_, none, by rw [if_neg hbad, if_neg h1, if_pos h2, hinit]; rfl, ?_,
          fun h => absurd rfl h, fun _ _ _ h => absurd h2 h, fun _ h => absurd h h1,
          fun _ _ => ⟨hinit, rfl, rfl, rfl, by simp, by simp⟩⟩
        simp [hid, hname, h2]
      · refine ⟨r, _, by rw [if_neg hbad, if_neg h1, if_neg h2], ?_, fun _ => rfl,
          fun _ _ _ _ => rfl, ?_, ?_⟩
        · simp [h1, h2]
        · intro h; exact absurd h (by simp)
        · intro h; exact absurd h (by simp)

/-- C14 fails as stated: in a room whose slot one holds the player with id
`a` and name `Alice`, `OnPlayerLeave` of a player with the same id `a` and the
name `Bob` returns the no-such-player error and leaves the player in slot
one, although an occupied slot holds a player with that identifier. -/
theorem OnPlayerLeave_compares_names :
    waitingRoom.player1.ID = "a" ∧
    (OnPlayerLeave waitingRoom { ID := "a", Name := "Bob" }).2 = some "no such player" ∧
    (OnPlayerLeave waitingRoom { ID := "a", Name := "Bob" }).1.player1 =
      { ID := "a", Name := "Alice" } := by
  decide

/-- C14, as the code has it: for a player with a non-empty identifier,
`OnPlayerLeave(player)` returns an error if and only if neither slot holds a
player equal to the given one in identifier and in name, and then the room is
unchanged; a slot that holds such a player is occupied; otherwise the slot of
the player is vacated: when the player was in slot one, the player of slot two
is promoted to slot one and slot two becomes empty, and the game is stopped. -/
theorem OnPlayerLeave_spec (r : Room) (player : Player) (hid : player.ID ≠ "") :
    ((OnPlayerLeave r player).2 ≠ none ↔ (r.player1 ≠ player ∧ r.player2 ≠ player)) ∧
    (r.player1 = player →
      r.player1.ID ≠ "" ∧
      OnPlayerLeave r player =
        (stopGame { r with player1 := r.player2, player2 := { ID := "", Name := "" } },
          none) ∧
      (OnPlayerLeave r player).1.player1 = r.player2 ∧
      (OnPlayerLeave r player).1.player2 = { ID := "", Name := "" }) ∧
    (r.player1 ≠ player → r.player2 = player →
      r.player2.ID ≠ "" ∧
      OnPlayerLeave r player =
        (stopGame { r with player2 := { ID := "", Name := "" } }, none) ∧
      (OnPlayerLeave r player).1.player1 = r.player1 ∧
      (OnPlayerLeave r player).1.player2 = { ID := "", Name := "" }) ∧
    (r.player1 ≠ player → r.player2 ≠ player →
      OnPlayerLeave r player = (r, some "no such player")) := by
  unfold OnPlayerLeave
  by_cases h1 : r.player1 = player
  · refine ⟨by simp [h1], fun _ => ⟨by rw [h1]; exact hid, by rw [if_pos h1],
      by rw [if_pos h1]; rfl, by rw [if_pos h1]; rfl⟩, fun h => absurd h1 h,
      fun h => absurd h1 h⟩
  · by_cases h2 : r.player2 = player
    · refine ⟨by simp [h1, h2], fun h => absurd h h1,
        fun _ _ => ⟨by rw [h2]; exact hid, by rw [if_neg h1, if_pos h2],
          by rw [if_neg h1, if_pos h2]; rfl, by rw [if_neg h1, if_pos h2]; rfl⟩,
        fun _ h => absurd h2 h⟩
    · refine ⟨by simp [h1, h2], fun h => absurd h h1, fun _ h => absurd h h2,
        fun _ _ => by rw [if_neg h1, if_neg h2]⟩

theorem OnPlayerLeave_spec_witness :
    ({ ID := "a", Name := "Alice" } : Player).ID ≠ "" ∧
    waitingRoom.player1 = { ID := "a", Name := "Alice" } ∧
    (OnPlayerLeave waitingRoom { ID := "a", Name := "Alice" }).1.player1 =
      waitingRoom.player2 ∧
    (OnPlayerLeave waitingRoom { ID := "a", Name := "Alice" }).1.player2 =
      { ID := "", Name := "" } :=
  ⟨by decide, rfl,
    ((OnPlayerLeave_spec waitingRoom { ID := "a", Name := "Alice" } (by decide)).2.1 rfl).2.2⟩

/-- C15 fails on the code: in a room that only player `a` has joined, a
message of `a` that decodes to Tick makes `OnMessage` fail, board one being
nil; so does, in the empty room, a message with the empty id; and
`OnUserMessage` fails on a decodable message of a user that no room is known
for, the room being nil. -/
theorem OnMessage_fails_on_nil_board :
    (∀ depth, OnMessage depth waitingRoom "a" (some Action.ActionTick) =
      Except.error Fault.panic) ∧
    (∀ depth, OnMessage depth (NewRoom demoRng 1) "" (some Action.ActionTick) =
      Except.error Fault.panic) ∧
    (∀ depth, OnUserMessage depth emptyServer "zed" (some Action.ActionTick) =
      Except.error Fault.panic) := by
  refine ⟨fun depth => ?_, fun depth => ?_, fun depth => ?_⟩
  · cases depth <;> rfl
  · cases depth <;> rfl
  · rfl

/-- C20: when a player with a non-empty id and name, and an id different from
that of the player in slot one, joins a room whose slot two is empty,
`OnPlayerJoin` completes without error and sends exactly two messages, the
same match-start message to the player of slot one and to the joining player;
the seed map of the message has exactly the two ids as keys and maps each id
to the seed from which the board of that player is built, and the message
carries tick rate 24, width 10 and height 24. -/
theorem second_join_sends_match_start (r : Room) (player : Player)
    (h1 : r.player1.ID ≠ "") (h2 : r.player2.ID = "") (hid : player.ID ≠ "")
    (hname : player.Name ≠ "") (hne : r.player1.ID ≠ player.ID) :
    ∃ (r' : Room) (seedA seedB : Int) (b1 b2 : Board),
      OnPlayerJoin r player = some (r', none) ∧
      r'.sent = r.sent ++
        [(r.player1.ID, Message.InitGame {
            Seed := [(r.player1.ID, seedA), (player.ID, seedB)]
            FPS := 24
            Width := 10
            Height := 24 }),
         (player.ID, Message.InitGame {
            Seed := [(r.player1.ID, seedA), (player.ID, seedB)]
            FPS := 24
            Width := 10
            Height := 24 })] ∧
      StringMap.get? [(r.player1.ID, seedA), (player.ID, seedB)] r.player1.ID = some seedA ∧
      StringMap.get? [(r.player1.ID, seedA), (player.ID, seedB)] player.ID = some seedB ∧
      (∀ key, StringMap.get? [(r.player1.ID, seedA), (player.ID, seedB)] key ≠ none ↔
        (key = r.player1.ID ∨ key = player.ID)) ∧
      r'.board1 = some b1 ∧ r'.board2 = some b2 ∧
      NewBoard 10 24 (randomSource r.rng seedA) true = some b1 ∧
      NewBoard 10 24 (randomSource r.rng seedB) true = some b2 ∧
      b1.width = 10 ∧ b1.height = 24 ∧ b2.width = 10 ∧ b2.height = 24 := by
  obtain ⟨b1, b2, hb1, hb2, hinit⟩ := initGame_eq { r with player2 := player }
  have hbad : ¬ (player.ID = "" ∨ player.Name = "") := by
    rintro (h | h)
    · exact hid h
    · exact hname h
  have hsize : ∀ (s : Nat → Option Tetromino) (b : Board),
      NewBoard 10 24 s true = some b → b.width = 10 ∧ b.height = 24 := by
    intro s b hb
    unfold NewBoard at hb
    rw [if_neg (by decide)] at hb
    cases hs0 : s 0 with
    | none => simp [hs0] at hb
    | some c1 =>
      cases hs1 : s 1 with
      | none => simp [hs0, hs1] at hb
      | some c2 =>
        simp only [hs0, hs1, Option.bind_eq_bind, Option.some_bind, Option.pure_def,
          Option.some.injEq] at hb
        subst hb
        exact ⟨rfl, rfl⟩
  obtain ⟨r', hr', hsent, hbd1, hbd2⟩ : ∃ r' : Room,
      initGame { r with player2 := player } = some r' ∧
      r'.sent = r.sent ++
        [(r.player1.ID, Message.InitGame {
            Seed := StringMap.set (StringMap.set [] r.player1.ID
              (r.randomizer r.randomCalls : Int)) player.ID
              (r.randomizer (r.randomCalls + 1) : Int)
            FPS := 24
            Width := 10
            Height := 24 }),
         (player.ID, Message.InitGame {
            Seed := StringMap.set (StringMap.set [] r.player1.ID
              (r.randomizer r.randomCalls : Int)) player.ID
              (r.randomizer (r.randomCalls + 1) : Int)
            FPS := 24
            Width := 10
            Height := 24 })] ∧
      r'.board1 = some b1 ∧ r'.board2 = some b2 := ⟨_, hinit, rfl, rfl, rfl⟩
  refine ⟨r', (r.randomizer r.randomCalls : Int), (r.randomizer (r.randomCalls + 1) : Int),
    b1, b2, ?_, ?_, ?_, ?_, ?_, hbd1, hbd2, hb1, hb2, (hsize _ _ hb1).1, (hsize _ _ hb1).2,
    (hsize _ _ hb2).1, (hsize _ _ hb2).2⟩
  · unfold OnPlayerJoin
    rw [if_neg hbad, if_neg h1, if_pos h2, hr']
    rfl
  · rw [hsent, StringMap.set_two _ _ _ _ hne]
  · simp [StringMap.get?]
  · simp [StringMap.get?, hne]
  · intro key
    by_cases hk1 : r.player1.ID = key
    · simp [StringMap.get?, hk1]
    · by_cases hk2 : player.ID = key
      · simp [StringMap.get?, hk1, hk2]
      · simp [StringMap.get?, hk1, hk2, Ne.symm hk1, Ne.symm hk2]

theorem second_join_sends_match_start_witness :
    waitingRoom.player1.ID ≠ "" ∧ waitingRoom.player2.ID = "" ∧
    ({ ID := "b", Name := "Bob" } : Player).ID ≠ "" ∧
    ({ ID := "b", Name := "Bob" } : Player).Name ≠ "" ∧
    waitingRoom.player1.ID ≠ ({ ID := "b", Name := "Bob" } : Player).ID ∧
    ∃ (r' : Room) (seedA seedB : Int),
      OnPlayerJoin waitingRoom { ID := "b", Name := "Bob" } = some (r', none) ∧
      r'.sent = waitingRoom.sent ++
        [("a", Message.InitGame {
            Seed := [("a", seedA), ("b", seedB)]
            FPS := 24
            Width := 10
            Height := 24 }),
         ("b", Message.InitGame {
            Seed := [("a", seedA), ("b", seedB)]
            FPS := 24
            Width := 10
            Height := 24 })] := by
  refine ⟨by decide, by decide, by decide, by decide, by decide, ?_⟩
  obtain ⟨r', seedA, seedB, _, _, hjoin, hsent, _⟩ :=
    second_join_sends_match_start waitingRoom { ID := "b", Name := "Bob" } (by decide)
      (by decide) (by decide) (by decide) (by decide)
  exact ⟨r', seedA, seedB, hjoin, hsent⟩

/-- C12: on a board that is not over whose active piece is one of the five
shapes in any rotation and fits (every occupied cell inside the grid on an
Empty tile; the grid having the configured size, the piece source not dry),
`Apply(Smash)` completes and locks the piece at `currentY + d`, where `d >= 0`
is the largest distance such that the piece, translated straight down by every
`d' <= d`, still fits: it does not fit at `d + 1`.  The distance `d` is the
minimum, over the lowest occupied cells of the columns of the piece, of (row
of the nearest obstruction below the cell - row of the cell - 1); it is the
number of rows that repeated Tick moves the piece down before the piece rests
and the next Tick locks it, into the same grid. -/
theorem applySmash_spec (b : Board) (hwf : b.WF) (hover : b.isOver = false)
    (hshape : IsShape b.current) (hfit : Fits b b.current) (n : Tetromino)
    (hsrc : b.source b.drawn = some n) :
    ∃ d : Int, 0 ≤ d ∧ smashDrop b = some (b.moveDown d) ∧
      (∀ d' : Int, 0 ≤ d' → d' ≤ d → Fits (b.moveDown d') b.current) ∧
      ¬ Fits (b.moveDown (d + 1)) b.current ∧
      (∀ i j r, LowestCell b.current i j → ObstructionRow b i j r →
        d ≤ r - (b.currentY + i) - 1) ∧
      (∃ i j r, LowestCell b.current i j ∧ ObstructionRow b i j r ∧
        d = r - (b.currentY + i) - 1) ∧
      applyAll b (List.replicate d.toNat Action.ActionTick) = some (b.moveDown d) ∧
      Resting (b.moveDown d) ∧
      ∃ tl b' b'',
        fillTilesWithCurrentTetromino (b.moveDown d) = some { b.moveDown d with tiles := tl } ∧
        (∀ y x : Int, 0 ≤ y → 0 ≤ x →
          (Occupies (b.moveDown d) y x → tileAt tl y x = TileNormalBlock) ∧
          (¬ Occupies (b.moveDown d) y x → tileAt tl y x = tileAt b.tiles y x)) ∧
        Apply b Action.ActionSmash = some b' ∧
        popLoop tl b.width b.height = some (b'.tiles, (completedRows tl : Int)) ∧
        b'.current = b.next ∧ b'.next = n ∧ b'.currentX = b.width.tdiv 2 - 1 ∧
        b'.currentY = 0 ∧ b'.drawn = b.drawn + 1 ∧
        Apply (b.moveDown d) Action.ActionTick = some b'' ∧ b''.tiles = b'.tiles := by
  obtain ⟨hcont, hne⟩ := hshape.wellformed
  obtain ⟨d, hd0, hdrop, hmin, hatt, hfits, hrest, hnofit⟩ :=
    smashDrop_spec hwf hfit hcont hne
  have hwfd : (b.moveDown d).WF := Board.moveDown_WF hwf d
  have hin : PieceInGrid (b.moveDown d) := fun i j hocc => (hfits d hd0 (le_refl d) i j hocc).1
  obtain ⟨tl, hfill, hwfl, hpt⟩ := fillTilesWithCurrentTetromino_spec hwfd hin
  have hwf1 : ({ b.moveDown d with tiles := tl } : Board).WF := hwfl
  obtain ⟨t', hrun, hwf', hpop⟩ := popCompletedRows_spec hwf1
  have hticks := ticks_step_down hwf hover d hfits d.toNat (by omega)
  have hcast : ((d.toNat : Nat) : Int) = d := Int.toNat_of_nonneg hd0
  rw [hcast] at hticks
  have hA : Apply b Action.ActionSmash = applySmash b := by simp [Apply, hover]
  have hT : Apply (b.moveDown d) Action.ActionTick = applyTick (b.moveDown d) := by
    have : (b.moveDown d).isOver = false := hover
    simp [Apply, this]
  have htouch : isTouchGround (b.moveDown d) = some true := by
    rw [isTouchGround_eq_decide hwfd, decide_eq_true hrest]
  have hsrc' : (b.moveDown d).source (b.moveDown d).drawn = some n := hsrc
  have hwf3 : ({ b.moveDown d with
      tiles := t'
      reported :=
        if b.hasHandler then b.reported ++ [(completedRows tl : Int)] else b.reported
      current := b.next
      next := n
      drawn := b.drawn + 1
      currentY := 0
      currentX := b.width.tdiv 2 - 1 } : Board).WF := hwf'
  have hog := isOverlapGround_eq_decide hwf3
  have hsmash : applySmash b = some { b.moveDown d with
      tiles := t'
      reported :=
        if b.hasHandler then b.reported ++ [(completedRows tl : Int)] else b.reported
      current := b.next
      next := n
      drawn := b.drawn + 1
      currentY := 0
      currentX := b.width.tdiv 2 - 1 } := by
    unfold applySmash
    simp only [hdrop, hfill, hpop, Option.bind_eq_bind, Option.some_bind, setupNextTetromino]
    simp only [Board.moveDown, hsrc, Option.some_bind, Option.pure_def]
  obtain ⟨b'', hb'', htiles⟩ : ∃ b'', applyTick (b.moveDown d) = some b'' ∧ b''.tiles = t' := by
    unfold applyTick
    simp only [htouch, hfill, hpop, Option.bind_eq_bind, Option.some_bind, if_true,
      setupNextTetromino, hsrc', Option.pure_def]
    simp only [Board.moveDown] at hog ⊢
    rw [hog]
    simp only [Option.some_bind]
    split_ifs <;> exact ⟨_, rfl, rfl⟩
  obtain ⟨b', hb', ht', hc1, hc2, hc3, hc4, hc5⟩ : ∃ b' : Board,
      applySmash b = some b' ∧ b'.tiles = t' ∧ b'.current = b.next ∧ b'.next = n ∧
      b'.currentX = b.width.tdiv 2 - 1 ∧ b'.currentY = 0 ∧ b'.drawn = b.drawn + 1 :=
    ⟨_, hsmash, rfl, rfl, rfl, rfl, rfl, rfl⟩
  have hrun' : popLoop tl b.width b.height = some (b'.tiles, (completedRows tl : Int)) := by
    rw [ht']; exact hrun
  exact ⟨d, hd0, hdrop, hfits, hnofit, hmin, hatt, hticks, hrest, tl, b', b'', hfill, hpt,
    by rw [hA, hb'], hrun', hc1, hc2, hc3, hc4, hc5, by rw [hT, hb''], by rw [htiles, ht']⟩

theorem applySmash_spec_witness :
    freshBoard.WF ∧ freshBoard.isOver = false ∧ IsShape freshBoard.current ∧
    Fits freshBoard freshBoard.current ∧
    freshBoard.source freshBoard.drawn = some TetrominoI ∧
    ∃ d : Int, 0 ≤ d ∧ smashDrop freshBoard = some (freshBoard.moveDown d) ∧
      ¬ Fits (freshBoard.moveDown (d + 1)) freshBoard.current ∧
      applyAll freshBoard (List.replicate d.toNat Action.ActionTick) =
        some (freshBoard.moveDown d) := by
  have hshape : IsShape freshBoard.current :=
    ⟨TetrominoT, by simp [shapes], 0, rfl⟩
  refine ⟨by decide, rfl, hshape, by decide, rfl, ?_⟩
  obtain ⟨d, h1, h2, _, h3, _, _, h4, _⟩ :=
    applySmash_spec freshBoard (by decide) rfl hshape (by decide) TetrominoI rfl
  exact ⟨d, h1, h2, h3, h4⟩

/-- C21: in a room, the completion handler of the board of slot `s`, invoked
with `k` cleared rows, is `Apply(Fill)` on the board of the other slot, `k`
times in turn (board two for the handler of board one, board one for the
handler of board two); with `k = 0` the room, and with it the other board, is
as before; with `k = 1` and the other board not over, its piece not resting,
the other board becomes what `Apply(Fill)` of the engine returns and nothing
else changes.  The row clearing of a board with a handler invokes the handler
once, with the number of completed rows, after the cleared grid is stored. -/
theorem onCompleted_fills_other_board (depth : Nat) (r : Room) (s : Slot) :
    (∀ k : Nat,
      Room.onCompleted (fun r s => Room.applyTo depth r s Action.ActionFill) r s k =
        Room.fillTimes depth r s.other k) ∧
    Room.onCompleted (fun r s => Room.applyTo depth r s Action.ActionFill) r s 0 =
      Except.ok r ∧
    (∀ b : Board, r.board s.other = some b → b.isOver = false → b.WF → 0 < b.height →
      ¬ Resting b →
      ∃ b', Apply b Action.ActionFill = some b' ∧
        Room.onCompleted (fun r s => Room.applyTo depth r s Action.ActionFill) r s 1 =
          Except.ok (r.setBoard s.other b')) ∧
    (∀ (fillOther : Room → Slot → Except Fault Room) (b : Board), b.WF →
      b.hasHandler = true →
      ∃ t', popLoop b.tiles b.width b.height = some (t', (completedRows b.tiles : Int)) ∧
        Room.popCompletedRows fillOther r s b =
          Room.onCompleted fillOther
            (r.setBoard s { b with
              tiles := t'
              reported := b.reported ++ [(completedRows b.tiles : Int)] })
            s (completedRows b.tiles)) ∧
    Slot.one.other = Slot.two ∧ Slot.two.other = Slot.one := by
  refine ⟨fun k => Room.onCompleted_eq_fillTimes depth r s k, rfl, fun b hb hover hwf hh hrest => ?_,
    fun fillOther b hwf hhandler => Room.popCompletedRows_runs_handler fillOther r s b hwf hhandler,
    rfl, rfl⟩
  obtain ⟨b', hA, hroom⟩ := (Room.applyTo_fill depth r s.other b hb).2 hover hwf hh hrest
  refine ⟨b', hA, ?_⟩
  have h1 := Room.onCompleted_eq_fillTimes depth r s 1
  simp only [Nat.cast_one] at h1
  rw [h1]
  simp only [Room.fillTimes, hroom]
  rfl

theorem onCompleted_fills_other_board_witness :
    startedRoom.board Slot.one.other = some startedBoard2 ∧ startedBoard2.isOver = false ∧
    startedBoard2.WF ∧ 0 < startedBoard2.height ∧ ¬ Resting startedBoard2 ∧
    ∃ b', Apply startedBoard2 Action.ActionFill = some b' ∧
      Room.onCompleted (fun r s => Room.applyTo 1 r s Action.ActionFill) startedRoom Slot.one 1 =
        Except.ok (startedRoom.setBoard Slot.one.other b') :=
  ⟨rfl, by decide, by decide, by decide, by decide,
    (onCompleted_fills_other_board 1 startedRoom Slot.one).2.2.1 startedBoard2 rfl (by decide)
      (by decide) (by decide) (by decide)⟩

/-- C23: `rotateTetromino` is the quarter turn of the 4 x 4 mask: the cell
`(i, j)` of the result is the cell `(j, 3 - i)` of the mask, for every mask
and all `i`, `j` in 0..3; hence the result has as many occupied cells as the
mask, and four applications give the mask back. -/
theorem rotateTetromino_spec (t : Tetromino) :
    (∀ i j : Fin 4, rotateTetromino t i j = t j (3 - i)) ∧
    occupiedCells (rotateTetromino t) = occupiedCells t ∧
    rotateTetromino (rotateTetromino (rotateTetromino (rotateTetromino t))) = t :=
  ⟨rotateTetromino_apply t, occupiedCells_rotateTetromino t, rotateTetromino_four t⟩

/-- C24: on a board that is not over (its grid having the configured size, of
at least one row) in which every occupied cell of the active piece lies inside
the grid on an Empty tile, `Apply(GoLeft)`, `Apply(GoRight)` and
`Apply(Rotate)` complete with a board in which this holds again, and so do
`Apply(Tick)` and `Apply(Fill)` when the piece is not resting; the board they
return is not over and its grid has the configured size. -/
theorem moves_keep_piece_placed (b : Board) (hwf : b.WF) (hh : 0 < b.height)
    (hover : b.isOver = false) (hfit : Fits b b.current) :
    (∀ a : Action,
      a = Action.ActionGoLeft ∨ a = Action.ActionGoRight ∨ a = Action.ActionRotate ∨
        ((a = Action.ActionTick ∨ a = Action.ActionFill) ∧ ¬ Resting b) →
      ∃ b', Apply b a = some b' ∧ Fits b' b'.current ∧ b'.isOver = false ∧ b'.WF ∧
        0 < b'.height) := by
  have hin : PieceInGrid b := pieceInGrid_of_fits hfit
  have hhit := isHitWallOrTile_eq hwf hin
  intro a ha
  rcases ha with rfl | rfl | rfl | ⟨rfl | rfl, hrest⟩
  · have hA : Apply b Action.ActionGoLeft =
        some (if BlockedLeft b then b else { b with currentX := b.currentX - 1 }) := by
      have : Apply b Action.ActionGoLeft = applyGoLeft b := by simp [Apply, hover]
      rw [this]
      unfold applyGoLeft
      rw [hhit]
      by_cases h : BlockedLeft b <;> simp [h]
    by_cases h : BlockedLeft b
    · rw [if_pos h] at hA
      exact ⟨b, hA, hfit, hover, hwf, hh⟩
    · rw [if_neg h] at hA
      exact ⟨_, hA, fits_of_not_blockedLeft hfit h, hover, hwf, hh⟩
  · have hA : Apply b Action.ActionGoRight =
        some (if BlockedRight b then b else { b with currentX := b.currentX + 1 }) := by
      have : Apply b Action.ActionGoRight = applyGoRight b := by simp [Apply, hover]
      rw [this]
      unfold applyGoRight
      rw [hhit]
      by_cases h : BlockedRight b <;> simp [h]
    by_cases h : BlockedRight b
    · rw [if_pos h] at hA
      exact ⟨b, hA, hfit, hover, hwf, hh⟩
    · rw [if_neg h] at hA
      exact ⟨_, hA, fits_of_not_blockedRight hfit h, hover, hwf, hh⟩
  · have hwf1 : ({ b with current := rotateTetromino b.current } : Board).WF := hwf
    have hR : Apply b Action.ActionRotate = applyRotate b := by simp [Apply, hover]
    by_cases hrot : Fits b (rotateTetromino b.current)
    · have h := (isOverlapGround_false_iff hwf1).mpr hrot
      have hA : Apply b Action.ActionRotate =
          some { b with current := rotateTetromino b.current } := by
        rw [hR]
        unfold applyRotate
        simp [h]
      exact ⟨_, hA, hrot, hover, hwf, hh⟩
    · have h := (isOverlapGround_true_iff hwf1).mpr hrot
      have hA : Apply b Action.ActionRotate = some b := by
        rw [hR]
        unfold applyRotate
        simp [h]
      exact ⟨b, hA, hfit, hover, hwf, hh⟩
  · have htouch : isTouchGround b = some false := by
      rw [isTouchGround_eq_decide hwf, decide_eq_false hrest]
    have hA : Apply b Action.ActionTick = some { b with currentY := b.currentY + 1 } := by
      have : Apply b Action.ActionTick = applyTick b := by simp [Apply, hover]
      rw [this]
      unfold applyTick
      simp only [htouch, Option.bind_eq_bind, Option.some_bind, Bool.false_eq_true, if_false,
        Option.pure_def, stepDown]
    exact ⟨_, hA, fits_stepDown_of_not_resting hfit hrest, hover, hwf, hh⟩
  · obtain ⟨t', hraise, hwf', hpt⟩ := raiseGround_spec hwf hh
    have htouch : isTouchGround b = some false := by
      rw [isTouchGround_eq_decide hwf, decide_eq_false hrest]
    have hA : Apply b Action.ActionFill = some { b with tiles := t' } := by
      have : Apply b Action.ActionFill = applyFill b := by simp [Apply, hover]
      rw [this]
      unfold applyFill
      simp only [htouch, Option.bind_eq_bind, Option.some_bind, Bool.false_eq_true, if_false,
        hraise]
    exact ⟨_, hA, fits_raised_of_not_resting hfit hrest hpt, hover, hwf', hh⟩

theorem moves_keep_piece_placed_witness :
    freshBoard.WF ∧ 0 < freshBoard.height ∧ freshBoard.isOver = false ∧
    Fits freshBoard freshBoard.current ∧ ¬ Resting freshBoard ∧
    (∀ a : Action,
      a = Action.ActionGoLeft ∨ a = Action.ActionGoRight ∨ a = Action.ActionRotate ∨
        ((a = Action.ActionTick ∨ a = Action.ActionFill) ∧ ¬ Resting freshBoard) →
      ∃ b', Apply freshBoard a = some b' ∧ Fits b' b'.current ∧ b'.isOver = false ∧ b'.WF ∧
        0 < b'.height) :=
  ⟨by decide, by decide, rfl, by decide, by decide,
    moves_keep_piece_placed freshBoard (by decide) (by decide) rfl (by decide)⟩

/-- C25: every sequence of `OnPlayerJoin` and `OnPlayerLeave` calls, failing
ones included, runs to the end from the room of `NewRoom`, and in the room it
reaches slot two is occupied only if slot one is, and the room is started
with both boards present if and only if both slots are occupied; when a slot
is free the room is not started and has no board. -/
theorem room_slots_and_boards_invariant (rng : Rng) (seed : Int) (cs : List RoomCall) :
    ∃ r, (NewRoom rng seed).calls cs = some r ∧
      (Occupied r.player2 → Occupied r.player1) ∧
      ((r.isStarted = true ∧ r.board1 ≠ none ∧ r.board2 ≠ none) ↔
        (Occupied r.player1 ∧ Occupied r.player2)) ∧
      (¬ (Occupied r.player1 ∧ Occupied r.player2) →
        r.isStarted = false ∧ r.board1 = none ∧ r.board2 = none) := by
  obtain ⟨r, hr, h21, hboth, hnot⟩ := RoomInv_calls (NewRoom rng seed) (RoomInv_NewRoom rng seed) cs
  refine ⟨r, hr, h21, ⟨fun hs => ?_, hboth⟩, hnot⟩
  by_contra hocc
  have := (hnot hocc).1
  rw [hs.1] at this
  exact absurd this (by decide)

/-- C22 fails on the code: in the room that `a` and `b` have joined and whose
loops `startGame` has started, `OnPlayerLeave` of `a` succeeds, discards both
boards and stops the broadcast ticker, but leaves the gravity ticker running,
so the next iteration of the gravity loop applies Tick to a board that no
longer exists and fails; and when `a` leaves while `startGame` still sleeps,
no ticker is stopped, and the next iteration of either loop fails. -/
theorem leave_keeps_gravity_loop_running :
    runningRoom.map Room.loopState =
      some (true, true, true, Ticker.running, Ticker.running) ∧
    runningRoom.map (fun r => (OnPlayerLeave r playerA).2) = some none ∧
    leftRoom.map Room.loopState =
      some (false, false, false, Ticker.stopped, Ticker.running) ∧
    (∀ depth, leftRoom.map (fun r => faultOf (gameLoopStep depth r)) =
      some (some Fault.panic)) ∧
    earlyLeftRoom.map Room.loopState =
      some (false, false, false, Ticker.running, Ticker.running) ∧
    (∀ depth, earlyLeftRoom.map (fun r => faultOf (gameLoopStep depth r)) =
      some (some Fault.panic)) ∧
    earlyLeftRoom.map (fun r => faultOf (updateLoopStep r)) = some (some Fault.panic) := by
  have hleft : leftRoom.map Room.loopState =
      some (false, false, false, Ticker.stopped, Ticker.running) := by decide
  have hearly : earlyLeftRoom.map Room.loopState =
      some (false, false, false, Ticker.running, Ticker.running) := by decide
  exact ⟨by decide, by decide, hleft, gameLoop_fails_of_loopState _ _ _ _ hleft, hearly,
    gameLoop_fails_of_loopState _ _ _ _ hearly, by decide⟩

end Tetris
